import Mathlib

/-!
# Verification of the mot-go multi-object tracker

A shallow embedding of the LdDl/mot-go frame-to-track association engine.
Numeric values (Go `float64`) are modelled as rationals `ℚ`; machine UUIDs
(`uuid.UUID`) are modelled as naturals with `0` playing the role of the zero
UUID `uuid.UUID{}`; Go maps keyed by UUID are modelled as association lists
iterated in list order (Go map iteration order is unspecified, so theorems
quantify over arbitrary list orders).  The external Kalman-filter collaborator
(`github.com/LdDl/kalman-filter`) is modelled as a parameter: a record of
`init`/`predict`/`getState`/`update` functions over an abstract filter-state
type, exactly the narrow interface the tracker code consumes; `update` returns
`Option` to model the filter rejecting a measurement.  The external square
root (`math.Sqrt`) is likewise a function parameter `sq : ℚ → ℚ`.
-/

namespace Mot

/-- Model of `uuid.UUID`; `0` is the zero value `uuid.UUID{}`. -/
abbrev UUID := Nat

/-- `geom_f64.go`: `Point` — (x, y) real-valued position. -/
structure Point where
  x : ℚ
  y : ℚ
deriving DecidableEq, Repr

/-- `geom_f64.go`: `Rectangle` — (x, y, width, height) axis-aligned box. -/
structure Rectangle where
  x : ℚ
  y : ℚ
  width : ℚ
  height : ℚ
deriving DecidableEq, Repr

/-- `simple_tracker_test.go`: `maxFloat64(a, b)`. -/
def maxFloat64 (a b : ℚ) : ℚ := if a > b then a else b

/-- `simple_tracker_test.go`: `minFloat64(a, b)`. -/
def minFloat64 (a b : ℚ) : ℚ := if a < b then a else b

/-- `simple_tracker_test.go`: `maxInt(a, b)`. -/
def maxInt (a b : ℤ) : ℤ := if a > b then a else b

/-- Go's `math.MaxFloat64` constant, used by the nearest-centroid scan as the
initial best distance. -/
def mathMaxFloat64 : ℚ := 2 ^ 1024 - 2 ^ 971

/-- `geom_f64.go`: `euclideanDistance(p1, p2)`; `sq` models `math.Sqrt`
applied to the sum of squares. -/
def euclideanDistance (sq : ℚ → ℚ) (p1 p2 : Point) : ℚ :=
  sq ((p1.x - p2.x) ^ 2 + (p1.y - p2.y) ^ 2)

/-- `simple_tracker_test.go`: `IoU(r1, r2)` — intersection over union with the
zero-intersection guard. -/
def IoU (r1 r2 : Rectangle) : ℚ :=
  let xA := maxFloat64 r1.x r2.x
  let yA := maxFloat64 r1.y r2.y
  let xB := minFloat64 (r1.x + r1.width) (r2.x + r2.width)
  let yB := minFloat64 (r1.y + r1.height) (r2.y + r2.height)
  let interArea := maxFloat64 0 (xB - xA) * maxFloat64 0 (yB - yA)
  if interArea = 0 then 0
  else
    let r1Area := r1.width * r1.height
    let r2Area := r2.width * r2.height
    interArea / (r1Area + r2Area - interArea)

/-- Two rectangles are disjoint when they are separated along an axis. -/
def Disjoint2 (r1 r2 : Rectangle) : Prop :=
  r1.x + r1.width ≤ r2.x ∨ r2.x + r2.width ≤ r1.x ∨
  r1.y + r1.height ≤ r2.y ∨ r2.y + r2.height ≤ r1.y

/-! ## Association-list model of the Go `map[uuid.UUID]B` stores -/

/-- A tracker store: a Go map modelled as an association list. -/
abbrev Store (β : Type) := List (UUID × β)

/-- The keys of a store, in list order. -/
def keys {β : Type} (s : Store β) : List UUID := s.map Prod.fst

/-- `m[i] = b` on a Go map: replace in place if present, append otherwise. -/
def setKey {β : Type} : Store β → UUID → β → Store β
  | [], i, b => [(i, b)]
  | (j, c) :: s, i, b => if j = i then (i, b) :: s else (j, c) :: setKey s i b

/-- `b, ok := m[i]` on a Go map: first binding wins. -/
def lookupKey {β : Type} : Store β → UUID → Option β
  | [], _ => none
  | (j, c) :: s, i => if j = i then some c else lookupKey s i

/-! ## Track state (Blob) -/

/-- The narrow interface of the external 2-D Kalman filter
(`kalman_filter.Kalman2D`) that `SimpleBlob` consumes: construction seeded
with an initial center, `Predict`, `GetState`, and a fallible `Update`
(`none` models the filter rejecting a measurement). -/
structure KalmanModel (F : Type) where
  init : ℚ → ℚ → F
  predict : F → F
  getState : F → ℚ × ℚ
  update : F → ℚ → ℚ → Option F

/-- The narrow interface of the external 8-D Kalman filter
(`kalman_filter.KalmanBBox`) that `BlobBBox` consumes. -/
structure KalmanBBoxModel (F : Type) where
  init : ℚ → ℚ → ℚ → ℚ → F
  predict : F → F
  getState : F → ℚ × ℚ × ℚ × ℚ
  update : F → ℚ → ℚ → ℚ → ℚ → Option F

/-- `simple_blob.go`: `SimpleBlob` — a tracked object using a 2-D Kalman
filter for the center position.  `F` is the abstract filter-state type. -/
structure SimpleBlob (F : Type) where
  id : UUID
  currentBBox : Rectangle
  currentCenter : Point
  predictedNextPosition : Point
  track : List Point
  maxTrackLen : ℤ
  active : Bool
  noMatchTimes : ℤ
  diagonal : ℚ
  tracker : F
deriving DecidableEq, Repr

namespace SimpleBlob

variable {F : Type}

/-- `NewSimpleBlobWithTime`; the fresh `uuid.New()` identifier and the
filter instance (whose `dt` and noise parameters live inside `km`) are
explicit parameters. -/
def mkNew (sq : ℚ → ℚ) (km : KalmanModel F) (freshId : UUID) (currentBbox : Rectangle) :
    SimpleBlob F :=
  let centerX := currentBbox.x + currentBbox.width / 2
  let centerY := currentBbox.y + currentBbox.height / 2
  let diagonal := sq (currentBbox.width ^ 2 + currentBbox.height ^ 2)
  { id := freshId
    currentBBox := currentBbox
    currentCenter := ⟨centerX, centerY⟩
    predictedNextPosition := ⟨0, 0⟩
    track := [⟨centerX, centerY⟩]
    maxTrackLen := 150
    active := false
    noMatchTimes := 0
    diagonal := diagonal
    tracker := km.init centerX centerY }

/-- `Activate`. -/
def activate (blob : SimpleBlob F) : SimpleBlob F := { blob with active := true }

/-- `Deactivate`. -/
def deactivate (blob : SimpleBlob F) : SimpleBlob F := { blob with active := false }

/-- `SetID`. -/
def setID (blob : SimpleBlob F) (newID : UUID) : SimpleBlob F := { blob with id := newID }

/-- `SetMaxTrackLen`. -/
def setMaxTrackLen (blob : SimpleBlob F) (newMaxTrackLen : ℤ) : SimpleBlob F :=
  { blob with maxTrackLen := newMaxTrackLen }

/-- `IncNoMatch`. -/
def incNoMatch (blob : SimpleBlob F) : SimpleBlob F :=
  { blob with noMatchTimes := blob.noMatchTimes + 1 }

/-- `ResetNoMatch`. -/
def resetNoMatch (blob : SimpleBlob F) : SimpleBlob F := { blob with noMatchTimes := 0 }

/-- `GetPredictedBBox` — a box of the current size centered on the predicted
next position. -/
def getPredictedBBox (blob : SimpleBlob F) : Rectangle :=
  { x := blob.predictedNextPosition.x - blob.currentBBox.width / 2
    y := blob.predictedNextPosition.y - blob.currentBBox.height / 2
    width := blob.currentBBox.width
    height := blob.currentBBox.height }

/-- `DistanceTo` — center-to-center distance. -/
def distanceTo (sq : ℚ → ℚ) (blob otherBlob : SimpleBlob F) : ℚ :=
  euclideanDistance sq blob.currentCenter otherBlob.currentCenter

/-- `PredictNextPosition` — filter predict step plus refresh of the
predicted position. -/
def predictNextPosition (km : KalmanModel F) (blob : SimpleBlob F) : SimpleBlob F :=
  let t := km.predict blob.tracker
  let st := km.getState t
  { blob with tracker := t, predictedNextPosition := ⟨st.1, st.2⟩ }

/-- `Update(newBlob)` — feed the filter the new center, refresh geometry,
mark active, reset the miss counter, and append to the bounded history (Go:
`track = append(track, center); if len(track) > maxTrackLen { track = track[1:] }`).
`none` models the filter-update error being propagated. -/
def update (km : KalmanModel F) (blob newBlob : SimpleBlob F) : Option (SimpleBlob F) :=
  let c := newBlob.currentCenter
  let bbox := newBlob.currentBBox
  match km.update blob.tracker c.x c.y with
  | none => none
  | some t =>
    let st := km.getState t
    let diffX := st.1 - c.x
    let diffY := st.2 - c.y
    let newCenter : Point := ⟨st.1, st.2⟩
    let track1 := blob.track ++ [newCenter]
    some { blob with
           currentCenter := newCenter
           currentBBox := { x := bbox.x + diffX, y := bbox.y + diffY,
                            width := bbox.width, height := bbox.height }
           diagonal := newBlob.diagonal
           active := true
           noMatchTimes := 0
           track := if (track1.length : ℤ) > blob.maxTrackLen then track1.tail else track1
           tracker := t }

end SimpleBlob

/-- `blob_bbox.go`: `BlobBBox` — a tracked object using the 8-D Kalman
filter for full bounding-box dynamics. -/
structure BlobBBox (F : Type) where
  id : UUID
  currentBBox : Rectangle
  predictedBBox : Rectangle
  track : List Point
  maxTrackLen : ℤ
  active : Bool
  noMatchTimes : ℤ
  diagonal : ℚ
  tracker : F
deriving DecidableEq, Repr

namespace BlobBBox

variable {F : Type}

/-- `NewBlobBBoxWithTime`. -/
def mkNew (sq : ℚ → ℚ) (km : KalmanBBoxModel F) (freshId : UUID) (currentBbox : Rectangle) :
    BlobBBox F :=
  let centerX := currentBbox.x + currentBbox.width / 2
  let centerY := currentBbox.y + currentBbox.height / 2
  let diagonal := sq (currentBbox.width ^ 2 + currentBbox.height ^ 2)
  { id := freshId
    currentBBox := currentBbox
    predictedBBox := { x := currentBbox.x, y := currentBbox.y,
                       width := currentBbox.width, height := currentBbox.height }
    track := [⟨centerX, centerY⟩]
    maxTrackLen := 150
    active := false
    noMatchTimes := 0
    diagonal := diagonal
    tracker := km.init centerX centerY currentBbox.width currentBbox.height }

/-- `SetMaxTrackLen`. -/
def setMaxTrackLen (blob : BlobBBox F) (newMaxTrackLen : ℤ) : BlobBBox F :=
  { blob with maxTrackLen := newMaxTrackLen }

/-- `Update(newBlob)` — feed the filter the new box measurement, refresh
geometry and diagonal from the smoothed state, mark active, reset the miss
counter, and append the smoothed center to the bounded history. -/
def update (sq : ℚ → ℚ) (km : KalmanBBoxModel F) (blob newBlob : BlobBBox F) :
    Option (BlobBBox F) :=
  let newBBox := newBlob.currentBBox
  let newCx := newBBox.x + newBBox.width / 2
  let newCy := newBBox.y + newBBox.height / 2
  match km.update blob.tracker newCx newCy newBBox.width newBBox.height with
  | none => none
  | some t =>
    let st := km.getState t
    let cx := st.1
    let cy := st.2.1
    let w := st.2.2.1
    let h := st.2.2.2
    let track1 := blob.track ++ [⟨cx, cy⟩]
    some { blob with
           currentBBox := { x := cx - w / 2, y := cy - h / 2, width := w, height := h }
           diagonal := sq (w ^ 2 + h ^ 2)
           active := true
           noMatchTimes := 0
           track := if (track1.length : ℤ) > blob.maxTrackLen then track1.tail else track1
           tracker := t }

end BlobBBox

/-! ## Nearest-centroid tracker (`SimpleTracker`)

The generic `SimpleTracker[B].MatchObjects` (`blob_bbox.go`) and the
non-generic `SimpleTracker.MatchObjects` operate line for line identically
(field access vs. interface calls); one embedding over the `SimpleBlob`
model represents both.  The min-heap (`distance_heap.go`) is modelled by
processing the pushed candidates in ascending-distance order. -/

/-- Errors a `SimpleTracker.MatchObjects` call can surface: the wrapped
filter-update error, or the `panic("should be impossible")` branch. -/
inductive SimpleErr
  | filterError
  | panicImpossible
deriving DecidableEq, Repr

/-- `SimpleTracker` configuration: `minDistThreshold` (default 30.0) and
`maxNoMatch` (default 75). -/
structure SimpleTrackerCfg where
  minDistThreshold : ℚ
  maxNoMatch : ℤ
deriving Repr

/-- `distance_heap.go`: `distanceBlob` — the heap entry pairing a detection
with its best-match track id and distance. -/
structure DistanceBlob (F : Type) where
  underlying : SimpleBlob F
  id : UUID
  distance : ℚ
deriving Repr

/-- Insert a candidate into an ascending-by-distance list. -/
def insertAscByDistance {F : Type} (c : DistanceBlob F) :
    List (DistanceBlob F) → List (DistanceBlob F)
  | [] => [c]
  | d :: ds =>
    if c.distance ≤ d.distance then c :: d :: ds else d :: insertAscByDistance c ds

/-- The min-heap pop order: candidates sorted by ascending distance. -/
def sortByDistance {F : Type} (l : List (DistanceBlob F)) : List (DistanceBlob F) :=
  l.foldr insertAscByDistance []

/-- The per-detection best-match scan of `SimpleTracker.MatchObjects`:
fold over the store starting from `(math.MaxFloat64, uuid.UUID{})`, keeping
the smallest `math.Min(dist, distPredicted)` (the source computes `dist` and
`distPredicted` with the same `DistanceTo` call) and the owning id. -/
def bestMatch {F : Type} (sq : ℚ → ℚ) (objects : Store (SimpleBlob F))
    (newObject : SimpleBlob F) : ℚ × UUID :=
  objects.foldl
    (fun acc entry =>
      let dist := newObject.distanceTo sq entry.2
      let distPredicted := newObject.distanceTo sq entry.2
      let distVerifided := minFloat64 dist distPredicted
      if distVerifided < acc.1 then (distVerifided, entry.1) else acc)
    (mathMaxFloat64, 0)

/-- The mutable state of the pop loop of `SimpleTracker.MatchObjects`:
the store, `blobsToRegister`, `reservedObjects`, and the caller-visible
detection blobs after any in-place `SetID` mutation (pop order). -/
structure SimpleLoopState (F : Type) where
  objects : Store (SimpleBlob F)
  blobsToRegister : Store (SimpleBlob F)
  reserved : List UUID
  processed : List (SimpleBlob F)
deriving Repr

/-- One iteration of the pop loop of `SimpleTracker.MatchObjects`:
already-reserved ids register immediately; then the acceptance gate
`minDistance < diagonal*0.5 || minDistance < minDistThreshold`; a passing
candidate updates the stored track (propagating a filter error), overwrites
the detection's id with the track id and reserves the id; a missing store
entry is the `panic("should be impossible")` branch; failing the gate
registers the detection as a new object. -/
def simpleProcessStep {F : Type} (km : KalmanModel F) (cfg : SimpleTrackerCfg)
    (st : SimpleLoopState F) (c : DistanceBlob F) :
    Except SimpleErr (SimpleLoopState F) :=
  if c.id ∈ st.reserved then
    .ok { st with blobsToRegister := setKey st.blobsToRegister c.underlying.id c.underlying,
                  processed := st.processed ++ [c.underlying] }
  else if c.distance < c.underlying.diagonal * 0.5 ∨ c.distance < cfg.minDistThreshold then
    match lookupKey st.objects c.id with
    | some tracked =>
      match tracked.update km c.underlying with
      | none => .error .filterError
      | some updated =>
        .ok { st with objects := setKey st.objects c.id updated,
                      reserved := st.reserved ++ [c.id],
                      processed := st.processed ++ [c.underlying.setID c.id] }
    | none => .error .panicImpossible
  else
    .ok { st with blobsToRegister := setKey st.blobsToRegister c.underlying.id c.underlying,
                  processed := st.processed ++ [c.underlying] }

/-- The pop loop: process candidates until the queue is empty. -/
def simpleProcessQueue {F : Type} (km : KalmanModel F) (cfg : SimpleTrackerCfg) :
    SimpleLoopState F → List (DistanceBlob F) → Except SimpleErr (SimpleLoopState F)
  | st, [] => .ok st
  | st, c :: cs =>
    match simpleProcessStep km cfg st c with
    | .error e => .error e
    | .ok st1 => simpleProcessQueue km cfg st1 cs

/-- The pre-loop pass: `Deactivate` then `PredictNextPosition` every stored
track. -/
def simplePrep {F : Type} (km : KalmanModel F) (objects : Store (SimpleBlob F)) :
    Store (SimpleBlob F) :=
  objects.map (fun p => (p.1, (p.2.deactivate).predictNextPosition km))

/-- Build the heap contents: one `distanceBlob` per detection carrying its
best-match scan result. -/
def simpleCandidates {F : Type} (sq : ℚ → ℚ) (objects : Store (SimpleBlob F))
    (newObjects : List (SimpleBlob F)) : List (DistanceBlob F) :=
  newObjects.map (fun d =>
    let best := bestMatch sq objects d
    { underlying := d, id := best.2, distance := best.1 })

/-- `for blobID := range blobsToRegister { tracker.Objects[blobID] = ... }`. -/
def simpleRegister {F : Type} (objects toRegister : Store (SimpleBlob F)) :
    Store (SimpleBlob F) :=
  toRegister.foldl (fun os p => setKey os p.1 p.2) objects

/-- The end-of-frame cleanup: `IncNoMatch` every stored object, then delete
those with `GetNoMatchTimes() > maxNoMatch`. -/
def simpleCleanup {F : Type} (cfg : SimpleTrackerCfg) (objects : Store (SimpleBlob F)) :
    Store (SimpleBlob F) :=
  (objects.map (fun p => (p.1, p.2.incNoMatch))).filter
    (fun p => !(p.2.noMatchTimes > cfg.maxNoMatch))

/-- `SimpleTracker.MatchObjects` — returns the new store plus the
caller-visible detection blobs (pop order), or the surfaced error. -/
def simpleMatchObjects {F : Type} (sq : ℚ → ℚ) (km : KalmanModel F)
    (cfg : SimpleTrackerCfg) (objects : Store (SimpleBlob F))
    (newObjects : List (SimpleBlob F)) :
    Except SimpleErr (Store (SimpleBlob F) × List (SimpleBlob F)) :=
  let prepped := simplePrep km objects
  let queue := sortByDistance (simpleCandidates sq prepped newObjects)
  match simpleProcessQueue km cfg ⟨prepped, [], [], []⟩ queue with
  | .error e => .error e
  | .ok st =>
    .ok (simpleCleanup cfg (simpleRegister st.objects st.blobsToRegister), st.processed)

/-! ## Hybrid IoU tracker (`IoUTracker`)

The max-heap pop order is modelled by processing candidates in descending
score order. -/

/-- The only error an `IoUTracker.MatchObjects` call can surface: the
propagated filter-update error. -/
inductive IoUErrKind
  | filterError
deriving DecidableEq, Repr

/-- `IoUTracker` configuration: `maxNoMatch` (default 75) and `iouThreshold`
(default 0.0). -/
structure IoUTrackerCfg where
  maxNoMatch : ℤ
  iouThreshold : ℚ
deriving Repr

/-- `iouDistanceBlob` — the heap entry (the heap-internal `index` field is
bookkeeping of `container/heap` and carries no information). -/
structure IoUDistanceBlob (F : Type) where
  score : ℚ
  minID : UUID
  blob : SimpleBlob F
deriving Repr

/-- Insert a candidate into a descending-by-score list. -/
def insertDescByScore {F : Type} (c : IoUDistanceBlob F) :
    List (IoUDistanceBlob F) → List (IoUDistanceBlob F)
  | [] => [c]
  | d :: ds => if c.score ≥ d.score then c :: d :: ds else d :: insertDescByScore c ds

/-- The max-heap pop order: candidates sorted by descending score. -/
def sortByScoreDesc {F : Type} (l : List (IoUDistanceBlob F)) : List (IoUDistanceBlob F) :=
  l.foldr insertDescByScore []

/-- The per-detection hybrid IoU + distance scan of `IoUTracker.MatchObjects`:
fold over the store starting from `(0.0, uuid.UUID{})`, keeping the largest
combined score (`0.8*iou + 0.2*distanceScore` when `iou > 0.05`, else
`0.5*distanceScore`) and the owning id. -/
def iouBestMatch {F : Type} (sq : ℚ → ℚ) (objects : Store (SimpleBlob F))
    (newObj : SimpleBlob F) : ℚ × UUID :=
  objects.foldl
    (fun acc entry =>
      let predictedBBox := entry.2.getPredictedBBox
      let iouValue := IoU newObj.currentBBox predictedBBox
      let predictedCenter : Point :=
        ⟨predictedBBox.x + predictedBBox.width / 2, predictedBBox.y + predictedBBox.height / 2⟩
      let distance := euclideanDistance sq predictedCenter newObj.currentCenter
      let distanceScore := 1 / (1 + distance * 0.01)
      let combinedScore :=
        if iouValue > 0.05 then iouValue * 0.8 + distanceScore * 0.2
        else distanceScore * 0.5
      if combinedScore > acc.1 then (combinedScore, entry.1) else acc)
    (0, 0)

/-- The mutable state of the pop loop of `IoUTracker.MatchObjects`. -/
structure IoULoopState (F : Type) where
  objects : Store (SimpleBlob F)
  blobsToRegister : Store (SimpleBlob F)
  reserved : List UUID
  processed : List (SimpleBlob F)
deriving Repr

/-- One iteration of the pop loop of `IoUTracker.MatchObjects`: reserved ids
register immediately; a candidate whose score exceeds `iouThreshold` and
whose id is in the store gets `PredictNextPosition` (lazily, only now),
`Update` (propagating a filter error), `ResetNoMatch`, the detection id
overwrite and the reservation; a passing candidate whose id is absent from
the store falls through silently; failing the threshold registers the
detection as a new object. -/
def iouProcessStep {F : Type} (km : KalmanModel F) (cfg : IoUTrackerCfg)
    (st : IoULoopState F) (c : IoUDistanceBlob F) :
    Except IoUErrKind (IoULoopState F) :=
  if c.minID ∈ st.reserved then
    .ok { st with blobsToRegister := setKey st.blobsToRegister c.blob.id c.blob,
                  processed := st.processed ++ [c.blob] }
  else if c.score > cfg.iouThreshold then
    match lookupKey st.objects c.minID with
    | some existingObj =>
      let predicted := existingObj.predictNextPosition km
      match predicted.update km c.blob with
      | none => .error .filterError
      | some updated =>
        .ok { st with objects := setKey st.objects c.minID updated.resetNoMatch,
                      reserved := st.reserved ++ [c.minID],
                      processed := st.processed ++ [c.blob.setID c.minID] }
    | none => .ok { st with processed := st.processed ++ [c.blob] }
  else
    .ok { st with blobsToRegister := setKey st.blobsToRegister c.blob.id c.blob,
                  processed := st.processed ++ [c.blob] }

/-- The pop loop of `IoUTracker.MatchObjects`. -/
def iouProcessQueue {F : Type} (km : KalmanModel F) (cfg : IoUTrackerCfg) :
    IoULoopState F → List (IoUDistanceBlob F) → Except IoUErrKind (IoULoopState F)
  | st, [] => .ok st
  | st, c :: cs =>
    match iouProcessStep km cfg st c with
    | .error e => .error e
    | .ok st1 => iouProcessQueue km cfg st1 cs

/-- `IoUTracker.MatchObjects` — deactivate all tracks, score and process
detections in descending score order, register new objects, then give every
unmatched stored object its deferred `PredictNextPosition` plus
`IncNoMatch`, and finally evict objects with `GetNoMatchTimes() > maxNoMatch`. -/
def iouMatchObjects {F : Type} (sq : ℚ → ℚ) (km : KalmanModel F)
    (cfg : IoUTrackerCfg) (objects : Store (SimpleBlob F))
    (newObjects : List (SimpleBlob F)) :
    Except IoUErrKind (Store (SimpleBlob F) × List (SimpleBlob F)) :=
  let objects := objects.map (fun p => (p.1, p.2.deactivate))
  let cands := newObjects.map (fun d =>
    let best := iouBestMatch sq objects d
    ({ score := best.1, minID := best.2, blob := d } : IoUDistanceBlob F))
  match iouProcessQueue km cfg ⟨objects, [], [], []⟩ (sortByScoreDesc cands) with
  | .error e => .error e
  | .ok st =>
    let merged := st.blobsToRegister.foldl (fun os p => setKey os p.1 p.2) st.objects
    let afterMiss := merged.map (fun p =>
      if p.1 ∈ st.reserved then p else (p.1, (p.2.predictNextPosition km).incNoMatch))
    .ok (afterMiss.filter (fun p => !(p.2.noMatchTimes > cfg.maxNoMatch)), st.processed)

/-! ## Two-stage confidence tracker (`ByteTracker`)

The external Hungarian solver (`go-hungarian`, `hungarian.SolveMax`) is a
function parameter `solver`; the repository's padding, bounds validation,
greedy matching and match processing are translated from `bytetrack.go`. -/

/-- `MatchingAlgorithm`. -/
inductive MatchingAlgorithm
  | hungarian
  | greedy
deriving DecidableEq, Repr

/-- `ByteTracker` configuration (defaults: 5, 0.3, 0.5, 0.3, Hungarian). -/
structure ByteTrackerCfg where
  maxDisappeared : ℤ
  minIoU : ℚ
  highThresh : ℚ
  lowThresh : ℚ
  algorithm : MatchingAlgorithm
deriving Repr

/-- Errors a `ByteTracker.MatchObjects` call can surface. -/
inductive ByteErr
  | malformedInput
  | filterError
deriving DecidableEq, Repr

/-- `bboxPair` — track id with its bounding box. -/
structure BboxPair where
  id : UUID
  bbox : Rectangle
deriving Repr

/-- `createIoUMatrix`: rows = tracks, columns = detections (by original
index). -/
def createIoUMatrix {F : Type} (trackBBoxes : List BboxPair)
    (detectionIndices : List ℕ) (allDetections : List (SimpleBlob F)) :
    List (List ℚ) :=
  trackBBoxes.map (fun trkBox =>
    detectionIndices.map (fun detIdx =>
      match allDetections.get? detIdx with
      | some det => IoU trkBox.bbox det.currentBBox
      | none => 0))

/-- The inner column scan of `performGreedyMatching`: best still-unclaimed
column of row `i` with IoU at least `minIoU`, starting from `bestIoU = -1`. -/
def greedyScanRow (minIoU : ℚ) (row : List ℚ) (numDets : ℕ) (taken : List ℕ) :
    ℚ × Option ℕ :=
  (List.range numDets).foldl
    (fun acc j =>
      if j ∈ taken then acc
      else
        let currentIoU := row.getD j 0
        if currentIoU > acc.1 ∧ currentIoU ≥ minIoU then (currentIoU, some j) else acc)
    (-1, none)

/-- `performGreedyMatching`: for each track row in matrix order, claim its
best still-unclaimed column. -/
def performGreedyMatching (minIoU : ℚ) (iouMatrix : List (List ℚ))
    (numTracks numDets : ℕ) : List (ℕ × ℕ) :=
  if numTracks = 0 ∨ numDets = 0 then []
  else
    ((List.range numTracks).foldl
      (fun (acc : List (ℕ × ℕ) × List ℕ) i =>
        match greedyScanRow minIoU (iouMatrix.getD i []) numDets acc.2 with
        | (_, some j) => (acc.1 ++ [(i, j)], acc.2 ++ [j])
        | (_, none) => acc)
      ([], [])).1

/-- The zero-padding of a rectangular IoU matrix to a square one. -/
def padMatrix (iouMatrix : List (List ℚ)) (numTracks numDets : ℕ) : List (List ℚ) :=
  let paddedSize := max numTracks numDets
  (List.range paddedSize).map (fun i =>
    (List.range paddedSize).map (fun j => (iouMatrix.getD i []).getD j 0))

/-- `performMatching`: Hungarian (external solver on the padded matrix,
assignments validated against the real bounds) or greedy. -/
def performMatching (cfg : ByteTrackerCfg) (solver : List (List ℚ) → List (ℕ × ℕ))
    (iouMatrix : List (List ℚ)) (numTracks numDets : ℕ) : List (ℕ × ℕ) :=
  match cfg.algorithm with
  | .hungarian =>
    if numTracks = 0 ∨ numDets = 0 then []
    else
      let paddedMatrix :=
        if numTracks = numDets then iouMatrix else padMatrix iouMatrix numTracks numDets
      (solver paddedMatrix).filter (fun m => m.1 < numTracks ∧ m.2 < numDets)
  | .greedy => performGreedyMatching cfg.minIoU iouMatrix numTracks numDets

/-- The shared state threaded through both matching stages. -/
structure ByteMatchState (F : Type) where
  objects : Store (SimpleBlob F)
  matchedTracks : List UUID
  matchedDetections : List ℕ
deriving Repr

/-- One match of `processMatches`: gate on `minIoU`, update the track with
the detection (propagating a filter error), `ResetNoMatch`, and record the
track id and the original detection index as consumed.  All indices are in
bounds by construction (Hungarian output is bounds-validated, greedy output
is generated in range); out-of-range indices fall through. -/
def processOneMatch {F : Type} (km : KalmanModel F) (cfg : ByteTrackerCfg)
    (trackBBoxes : List BboxPair) (detectionIndices : List ℕ)
    (iouMatrix : List (List ℚ)) (allDetections : List (SimpleBlob F))
    (st : ByteMatchState F) (m : ℕ × ℕ) : Except ByteErr (ByteMatchState F) :=
  let iouVal := (iouMatrix.getD m.1 []).getD m.2 0
  if iouVal ≥ cfg.minIoU then
    match trackBBoxes.get? m.1, detectionIndices.get? m.2 with
    | some pair, some originalDetIdx =>
      match lookupKey st.objects pair.id with
      | some track =>
        match allDetections.get? originalDetIdx with
        | some det =>
          match track.update km det with
          | none => .error .filterError
          | some updated =>
            .ok { objects := setKey st.objects pair.id updated.resetNoMatch,
                  matchedTracks := st.matchedTracks ++ [pair.id],
                  matchedDetections := st.matchedDetections ++ [originalDetIdx] }
        | none => .ok st
      | none => .ok st
    | _, _ => .ok st
  else .ok st

/-- `processMatches` over a list of proposed matches. -/
def processMatches {F : Type} (km : KalmanModel F) (cfg : ByteTrackerCfg)
    (trackBBoxes : List BboxPair) (detectionIndices : List ℕ)
    (iouMatrix : List (List ℚ)) (allDetections : List (SimpleBlob F)) :
    ByteMatchState F → List (ℕ × ℕ) → Except ByteErr (ByteMatchState F)
  | st, [] => .ok st
  | st, m :: ms =>
    match processOneMatch km cfg trackBBoxes detectionIndices iouMatrix allDetections st m with
    | .error e => .error e
    | .ok st1 => processMatches km cfg trackBBoxes detectionIndices iouMatrix allDetections st1 ms

/-- The outcome of `ByteTracker.MatchObjects` together with the stage
bookkeeping the testable properties talk about. -/
structure ByteRunInfo (F : Type) where
  highIndices : List ℕ
  st2 : ByteMatchState F
  finalObjects : Store (SimpleBlob F)
  detsOut : List (SimpleBlob F)

/-- `ByteTracker.MatchObjects`, exposing the intermediate bookkeeping:
length check, prediction, active-track selection, the two matching stages,
new-track creation for unmatched high-confidence detections, miss
bookkeeping for unmatched tracks, and eviction at
`GetNoMatchTimes() ≥ maxDisappeared`.  `detsOut` is the caller-visible
final value of the detection blobs (newly registered ones are `Activate`d
in place; nothing else mutates them). -/
def byteRun {F : Type} (km : KalmanModel F) (cfg : ByteTrackerCfg)
    (solver : List (List ℚ) → List (ℕ × ℕ)) (objects0 : Store (SimpleBlob F))
    (detections : List (SimpleBlob F)) (confidences : List ℚ) :
    Except ByteErr (ByteRunInfo F) :=
  if detections.length ≠ confidences.length then .error .malformedInput
  else
    let objects := objects0.map (fun p => (p.1, p.2.predictNextPosition km))
    let activePairs := objects.filter (fun p => p.2.noMatchTimes < cfg.maxDisappeared)
    let activeTrackIDs := activePairs.map Prod.fst
    let activeTrackBBoxes := activePairs.map (fun p =>
      ({ id := p.1, bbox := p.2.getPredictedBBox } : BboxPair))
    let highDetectionIndices := (List.range confidences.length).filter
      (fun i => confidences.getD i 0 ≥ cfg.highThresh)
    let st0 : ByteMatchState F := ⟨objects, [], []⟩
    let stage1 :=
      if activeTrackBBoxes.length > 0 ∧ highDetectionIndices.length > 0 then
        let iouMatrix := createIoUMatrix activeTrackBBoxes highDetectionIndices detections
        let proposed := performMatching cfg solver iouMatrix
          activeTrackBBoxes.length highDetectionIndices.length
        processMatches km cfg activeTrackBBoxes highDetectionIndices iouMatrix detections
          st0 proposed
      else .ok st0
    match stage1 with
    | .error e => .error e
    | .ok st1 =>
      let unmatchedTrackIDs := activeTrackIDs.filter (fun id => id ∉ st1.matchedTracks)
      let unmatchedTrackBBoxes := unmatchedTrackIDs.filterMap (fun id =>
        (lookupKey st1.objects id).map (fun t =>
          ({ id := id, bbox := t.getPredictedBBox } : BboxPair)))
      let lowDetectionIndices := (List.range confidences.length).filter
        (fun i => i ∉ st1.matchedDetections ∧
          confidences.getD i 0 < cfg.highThresh ∧ confidences.getD i 0 ≥ cfg.lowThresh)
      let stage2 :=
        if unmatchedTrackBBoxes.length > 0 ∧ lowDetectionIndices.length > 0 then
          let iouMatrix := createIoUMatrix unmatchedTrackBBoxes lowDetectionIndices detections
          let proposed := performMatching cfg solver iouMatrix
            unmatchedTrackBBoxes.length lowDetectionIndices.length
          processMatches km cfg unmatchedTrackBBoxes lowDetectionIndices iouMatrix detections
            st1 proposed
        else .ok st1
      match stage2 with
      | .error e => .error e
      | .ok st2 =>
        let afterNew := highDetectionIndices.foldl
          (fun os detIdx =>
            if detIdx ∈ st2.matchedDetections then os
            else
              match detections.get? detIdx with
              | some d => setKey os d.id d.activate
              | none => os)
          st2.objects
        let detsOut := detections.enum.map (fun p =>
          if p.1 ∈ highDetectionIndices ∧ p.1 ∉ st2.matchedDetections
          then p.2.activate else p.2)
        let afterInc := afterNew.map (fun p =>
          if p.1 ∈ st2.matchedTracks then p else (p.1, p.2.incNoMatch))
        let final := afterInc.filter (fun p => !(p.2.noMatchTimes ≥ cfg.maxDisappeared))
        .ok ⟨highDetectionIndices, st2, final, detsOut⟩

/-- `ByteTracker.MatchObjects` — the observable result: the new store and
the caller-visible detection blobs. -/
def byteMatchObjects {F : Type} (km : KalmanModel F) (cfg : ByteTrackerCfg)
    (solver : List (List ℚ) → List (ℕ × ℕ)) (objects0 : Store (SimpleBlob F))
    (detections : List (SimpleBlob F)) (confidences : List ℚ) :
    Except ByteErr (Store (SimpleBlob F) × List (SimpleBlob F)) :=
  (byteRun km cfg solver objects0 detections confidences).map
    (fun r => (r.finalObjects, r.detsOut))

/-- The active-track selection of `ByteTracker.MatchObjects`, applied to the
already-predicted store. -/
def byteActivePairs {F : Type} (cfg : ByteTrackerCfg) (objects : Store (SimpleBlob F)) :
    Store (SimpleBlob F) :=
  objects.filter (fun p => p.2.noMatchTimes < cfg.maxDisappeared)

/-- The high-confidence detection indices of `ByteTracker.MatchObjects`. -/
def byteHighIndices (cfg : ByteTrackerCfg) (confidences : List ℚ) : List ℕ :=
  (List.range confidences.length).filter (fun i => confidences.getD i 0 ≥ cfg.highThresh)

/-- Stage 1 of `ByteTracker.MatchObjects`: match active tracks against
high-confidence detections, starting from the freshly predicted store. -/
def byteStage1 {F : Type} (km : KalmanModel F) (cfg : ByteTrackerCfg)
    (solver : List (List ℚ) → List (ℕ × ℕ)) (detections : List (SimpleBlob F))
    (confidences : List ℚ) (objects : Store (SimpleBlob F)) :
    Except ByteErr (ByteMatchState F) :=
  let activeTrackBBoxes := (byteActivePairs cfg objects).map (fun p =>
    ({ id := p.1, bbox := p.2.getPredictedBBox } : BboxPair))
  let highDetectionIndices := byteHighIndices cfg confidences
  let st0 : ByteMatchState F := ⟨objects, [], []⟩
  if activeTrackBBoxes.length > 0 ∧ highDetectionIndices.length > 0 then
    let iouMatrix := createIoUMatrix activeTrackBBoxes highDetectionIndices detections
    processMatches km cfg activeTrackBBoxes highDetectionIndices iouMatrix detections
      st0 (performMatching cfg solver iouMatrix
        activeTrackBBoxes.length highDetectionIndices.length)
  else .ok st0

/-- Stage 2 of `ByteTracker.MatchObjects`: match still-unmatched active
tracks against low-confidence detections. -/
def byteStage2 {F : Type} (km : KalmanModel F) (cfg : ByteTrackerCfg)
    (solver : List (List ℚ) → List (ℕ × ℕ)) (detections : List (SimpleBlob F))
    (confidences : List ℚ) (objects : Store (SimpleBlob F)) (st1 : ByteMatchState F) :
    Except ByteErr (ByteMatchState F) :=
  let activeTrackIDs := (byteActivePairs cfg objects).map Prod.fst
  let unmatchedTrackIDs := activeTrackIDs.filter (fun id => id ∉ st1.matchedTracks)
  let unmatchedTrackBBoxes := unmatchedTrackIDs.filterMap (fun id =>
    (lookupKey st1.objects id).map (fun t =>
      ({ id := id, bbox := t.getPredictedBBox } : BboxPair)))
  let lowDetectionIndices := (List.range confidences.length).filter
    (fun i => i ∉ st1.matchedDetections ∧
      confidences.getD i 0 < cfg.highThresh ∧ confidences.getD i 0 ≥ cfg.lowThresh)
  if unmatchedTrackBBoxes.length > 0 ∧ lowDetectionIndices.length > 0 then
    let iouMatrix := createIoUMatrix unmatchedTrackBBoxes lowDetectionIndices detections
    processMatches km cfg unmatchedTrackBBoxes lowDetectionIndices iouMatrix detections
      st1 (performMatching cfg solver iouMatrix
        unmatchedTrackBBoxes.length lowDetectionIndices.length)
  else .ok st1

/-- Step 3 of `ByteTracker.MatchObjects`: register every still-unmatched
high-confidence detection as a new activated track. -/
def byteAfterNew {F : Type} (detections : List (SimpleBlob F))
    (highDetectionIndices : List ℕ) (st2 : ByteMatchState F) : Store (SimpleBlob F) :=
  highDetectionIndices.foldl
    (fun os detIdx =>
      if detIdx ∈ st2.matchedDetections then os
      else
        match detections.get? detIdx with
        | some d => setKey os d.id d.activate
        | none => os)
    st2.objects

/-- Steps 4-5 of `ByteTracker.MatchObjects`: increment every unmatched
track's miss counter and evict at `≥ maxDisappeared`. -/
def byteFinalStore {F : Type} (cfg : ByteTrackerCfg) (detections : List (SimpleBlob F))
    (highDetectionIndices : List ℕ) (st2 : ByteMatchState F) : Store (SimpleBlob F) :=
  ((byteAfterNew detections highDetectionIndices st2).map (fun p =>
      if p.1 ∈ st2.matchedTracks then p else (p.1, p.2.incNoMatch))).filter
    (fun p => !(p.2.noMatchTimes ≥ cfg.maxDisappeared))

/-- The caller-visible detection blobs of `ByteTracker.MatchObjects`. -/
def byteDetections {F : Type} (detections : List (SimpleBlob F))
    (highDetectionIndices : List ℕ) (st2 : ByteMatchState F) : List (SimpleBlob F) :=
  detections.enum.map (fun p =>
    if p.1 ∈ highDetectionIndices ∧ p.1 ∉ st2.matchedDetections then p.2.activate else p.2)

/-- Fixture: a detection box coincident with `wTrackT`'s predicted box,
carrying the fresh id 42. -/
def wDetC : SimpleBlob Point :=
  { id := 42, currentBBox := ⟨-3, -4, 6, 8⟩, currentCenter := ⟨0, 0⟩,
    predictedNextPosition := ⟨0, 0⟩, track := [⟨0, 0⟩], maxTrackLen := 150,
    active := false, noMatchTimes := 0, diagonal := 10, tracker := ⟨0, 0⟩ }

/-! ## Concrete collaborator instances for witness computations -/

/-- A transparent, fully computable filter instance for concrete runs: the
state is the last seen center, `predict` is the identity and `update`
adopts the measurement. -/
def idKalman : KalmanModel Point where
  init := fun x y => ⟨x, y⟩
  predict := id
  getState := fun p => (p.x, p.y)
  update := fun _ x y => some ⟨x, y⟩

/-- A filter instance whose `update` always rejects the measurement. -/
def rejectingKalman : KalmanModel Point where
  init := fun x y => ⟨x, y⟩
  predict := id
  getState := fun p => (p.x, p.y)
  update := fun _ _ _ => none

/-- A transparent computable 8-D filter instance. -/
def idKalmanBBox : KalmanBBoxModel (ℚ × ℚ × ℚ × ℚ) where
  init := fun cx cy w h => (cx, cy, w, h)
  predict := id
  getState := id
  update := fun _ cx cy w h => some (cx, cy, w, h)

/-- An exact-on-perfect-squares computable stand-in for `math.Sqrt`,
used to instantiate the abstract square root in concrete runs. -/
def sqZ (q : ℚ) : ℚ := (Nat.sqrt q.num.toNat : ℚ)

/-- Witness fixture: a blob as built by `NewSimpleBlobWithTime` on the box
(0,0,6,8) (center (3,4), diagonal 10) with its history cap lowered to 1. -/
def wBlobCapped : SimpleBlob Point :=
  { id := 1, currentBBox := ⟨0, 0, 6, 8⟩, currentCenter := ⟨3, 4⟩,
    predictedNextPosition := ⟨0, 0⟩, track := [⟨3, 4⟩], maxTrackLen := 1,
    active := false, noMatchTimes := 0, diagonal := 10, tracker := ⟨3, 4⟩ }

/-- Witness fixture: a second detection blob, on the box (2,2,6,8). -/
def wBlobDet : SimpleBlob Point :=
  { id := 2, currentBBox := ⟨2, 2, 6, 8⟩, currentCenter := ⟨5, 6⟩,
    predictedNextPosition := ⟨0, 0⟩, track := [⟨5, 6⟩], maxTrackLen := 150,
    active := false, noMatchTimes := 0, diagonal := 10, tracker := ⟨5, 6⟩ }

/-- Witness fixture: the same blob with the default cap 150. -/
def wBlobFresh : SimpleBlob Point :=
  { id := 1, currentBBox := ⟨0, 0, 6, 8⟩, currentCenter := ⟨3, 4⟩,
    predictedNextPosition := ⟨0, 0⟩, track := [⟨3, 4⟩], maxTrackLen := 150,
    active := false, noMatchTimes := 0, diagonal := 10, tracker := ⟨3, 4⟩ }

/-- Witness fixture: the default-cap blob after one update (2-point history). -/
def wBlobFreshUpdated : SimpleBlob Point :=
  { id := 1, currentBBox := ⟨2, 2, 6, 8⟩, currentCenter := ⟨5, 6⟩,
    predictedNextPosition := ⟨0, 0⟩, track := [⟨3, 4⟩, ⟨5, 6⟩], maxTrackLen := 150,
    active := true, noMatchTimes := 0, diagonal := 10, tracker := ⟨5, 6⟩ }

/-- Witness fixture: the capped blob after one update (oldest point dropped). -/
def wBlobUpdated : SimpleBlob Point :=
  { id := 1, currentBBox := ⟨2, 2, 6, 8⟩, currentCenter := ⟨5, 6⟩,
    predictedNextPosition := ⟨0, 0⟩, track := [⟨5, 6⟩], maxTrackLen := 1,
    active := true, noMatchTimes := 0, diagonal := 10, tracker := ⟨5, 6⟩ }

/-- A stand-in for `math.Sqrt` agreeing with the exact square root on every
input arising in the concrete runs below (squared distances 100 and 400). -/
def wSqrt (q : ℚ) : ℚ := if q = 100 then 10 else if q = 400 then 20 else 0

/-- Fixture: a stored track at center (0,0) with box (-3,-4,6,8), diagonal 10. -/
def wTrackT : SimpleBlob Point :=
  { id := 7, currentBBox := ⟨-3, -4, 6, 8⟩, currentCenter := ⟨0, 0⟩,
    predictedNextPosition := ⟨0, 0⟩, track := [⟨0, 0⟩], maxTrackLen := 150,
    active := true, noMatchTimes := 0, diagonal := 10, tracker := ⟨0, 0⟩ }

/-- Fixture: `wTrackT` after the pre-loop `Deactivate` + `PredictNextPosition`
pass (with the transparent filter both only clear the `active` flag). -/
def wTrackPrep : SimpleBlob Point :=
  { id := 7, currentBBox := ⟨-3, -4, 6, 8⟩, currentCenter := ⟨0, 0⟩,
    predictedNextPosition := ⟨0, 0⟩, track := [⟨0, 0⟩], maxTrackLen := 150,
    active := false, noMatchTimes := 0, diagonal := 10, tracker := ⟨0, 0⟩ }

/-- Fixture: a small detection at center (10,0), diagonal 1
(box (9.7,-0.4,0.6,0.8)). -/
def wDetA : SimpleBlob Point :=
  { id := 11, currentBBox := ⟨97/10, -2/5, 3/5, 4/5⟩, currentCenter := ⟨10, 0⟩,
    predictedNextPosition := ⟨0, 0⟩, track := [⟨10, 0⟩], maxTrackLen := 150,
    active := false, noMatchTimes := 0, diagonal := 1, tracker := ⟨10, 0⟩ }

/-- Fixture: a large detection at center (20,0), diagonal 50
(box (5,-20,30,40)). -/
def wDetB : SimpleBlob Point :=
  { id := 12, currentBBox := ⟨5, -20, 30, 40⟩, currentCenter := ⟨20, 0⟩,
    predictedNextPosition := ⟨0, 0⟩, track := [⟨20, 0⟩], maxTrackLen := 150,
    active := false, noMatchTimes := 0, diagonal := 50, tracker := ⟨20, 0⟩ }

/-- Fixture: the popped candidate pairing `wDetB` with track 7 at distance 20. -/
def wCandB : DistanceBlob Point := { underlying := wDetB, id := 7, distance := 20 }

/-- Fixture: `wTrackPrep` after being updated with `wDetB` through the
transparent filter. -/
def wTrackUpd : SimpleBlob Point :=
  { id := 7, currentBBox := ⟨5, -20, 30, 40⟩, currentCenter := ⟨20, 0⟩,
    predictedNextPosition := ⟨0, 0⟩, track := [⟨0, 0⟩, ⟨20, 0⟩], maxTrackLen := 150,
    active := true, noMatchTimes := 0, diagonal := 50, tracker := ⟨20, 0⟩ }

/-- Fixture: the pop-loop state after processing `wCandB` from the
single-track state. -/
def wAfterB : SimpleLoopState Point :=
  { objects := [(7, wTrackUpd)], blobsToRegister := [],
    reserved := [7], processed := [wDetB.setID 7] }

/-- Fixture: a detection whose cached diagonal exceeds `2 × math.MaxFloat64`
(in the Go code a box of width `1e300` overflows `Pow/Sqrt` to `+Inf`, which
compares above every finite bound; `2^1100` plays that role exactly). -/
def wDetHuge : SimpleBlob Point :=
  { id := 13, currentBBox := ⟨0, 0, 2 ^ 1100, 0⟩, currentCenter := ⟨2 ^ 1099, 0⟩,
    predictedNextPosition := ⟨0, 0⟩, track := [⟨2 ^ 1099, 0⟩], maxTrackLen := 150,
    active := false, noMatchTimes := 0, diagonal := 2 ^ 1100, tracker := ⟨2 ^ 1099, 0⟩ }

/-- Fixture: the pop-loop state after processing first `wDetA` (registered:
its gate fails) and then `wDetB` (folded into track 7) from the
single-track state. -/
def wLogSt2 : SimpleLoopState Point :=
  { objects := [(7, wTrackUpd)], blobsToRegister := [(11, wDetA)],
    reserved := [7], processed := [wDetA, wDetB.setID 7] }

/-- The track id a popped candidate updates, replayed from the branch
conditions of `simpleProcessStep` (`none` when the candidate is registered
instead). -/
def simpleStepEvent {F : Type} (cfg : SimpleTrackerCfg) (st : SimpleLoopState F)
    (c : DistanceBlob F) : Option UUID :=
  if c.id ∈ st.reserved then none
  else if c.distance < c.underlying.diagonal * 0.5 ∨ c.distance < cfg.minDistThreshold then
    some c.id
  else none

/-- Instrumented mirror of the pop loop recording, per popped candidate,
which track id it updated. -/
def simpleProcessQueueLog {F : Type} (km : KalmanModel F) (cfg : SimpleTrackerCfg) :
    SimpleLoopState F → List (DistanceBlob F) →
    Except SimpleErr (SimpleLoopState F × List (Option UUID))
  | st, [] => .ok (st, [])
  | st, c :: cs =>
    match simpleProcessStep km cfg st c with
    | .error e => .error e
    | .ok st1 =>
      match simpleProcessQueueLog km cfg st1 cs with
      | .error e => .error e
      | .ok (st2, evs) => .ok (st2, simpleStepEvent cfg st c :: evs)

/-- The track id a popped candidate of the IoU tracker updates, replayed
from the branch conditions of `iouProcessStep`. -/
def iouStepEvent {F : Type} (cfg : IoUTrackerCfg) (st : IoULoopState F)
    (c : IoUDistanceBlob F) : Option UUID :=
  if c.minID ∈ st.reserved then none
  else if c.score > cfg.iouThreshold then
    match lookupKey st.objects c.minID with
    | some _ => some c.minID
    | none => none
  else none

/-- Instrumented mirror of the IoU tracker pop loop. -/
def iouProcessQueueLog {F : Type} (km : KalmanModel F) (cfg : IoUTrackerCfg) :
    IoULoopState F → List (IoUDistanceBlob F) →
    Except IoUErrKind (IoULoopState F × List (Option UUID))
  | st, [] => .ok (st, [])
  | st, c :: cs =>
    match iouProcessStep km cfg st c with
    | .error e => .error e
    | .ok st1 =>
      match iouProcessQueueLog km cfg st1 cs with
      | .error e => .error e
      | .ok (st2, evs) => .ok (st2, iouStepEvent cfg st c :: evs)

/-- Fixture: `wTrackUpd` after the end-of-frame increment of
`SimpleTracker.MatchObjects` (an updated track leaves the call with
`noMatchTimes = 1`). -/
def wTrackMissed1 : SimpleBlob Point :=
  { id := 7, currentBBox := ⟨5, -20, 30, 40⟩, currentCenter := ⟨20, 0⟩,
    predictedNextPosition := ⟨0, 0⟩, track := [⟨0, 0⟩, ⟨20, 0⟩], maxTrackLen := 150,
    active := true, noMatchTimes := 1, diagonal := 50, tracker := ⟨20, 0⟩ }

/-- A frame of `SimpleTracker.MatchObjects` with no detections: every
stored track is deactivated, predicted, incremented, and evicted past
`maxNoMatch`. -/
def simpleEmptyFrame {F : Type} (km : KalmanModel F) (cfg : SimpleTrackerCfg)
    (objects : Store (SimpleBlob F)) : Store (SimpleBlob F) :=
  simpleCleanup cfg (simplePrep km objects)

/-- `k` consecutive detection-free frames of `SimpleTracker.MatchObjects`. -/
def simpleEmptyFrames {F : Type} (km : KalmanModel F) (cfg : SimpleTrackerCfg)
    (objects : Store (SimpleBlob F)) : ℕ → Store (SimpleBlob F)
  | 0 => objects
  | k + 1 => simpleEmptyFrames km cfg (simpleEmptyFrame km cfg objects) k

/-- A frame of `IoUTracker.MatchObjects` with no detections: every stored
track is deactivated, then (being unmatched) predicted and incremented,
and evicted past `maxNoMatch`. -/
def iouEmptyFrame {F : Type} (km : KalmanModel F) (cfg : IoUTrackerCfg)
    (objects : Store (SimpleBlob F)) : Store (SimpleBlob F) :=
  (((objects.map (fun p => (p.1, p.2.deactivate))).map
      (fun p => (p.1, (p.2.predictNextPosition km).incNoMatch))).filter
    (fun p => !(p.2.noMatchTimes > cfg.maxNoMatch)))

/-- `k` consecutive detection-free frames of `IoUTracker.MatchObjects`. -/
def iouEmptyFrames {F : Type} (km : KalmanModel F) (cfg : IoUTrackerCfg)
    (objects : Store (SimpleBlob F)) : ℕ → Store (SimpleBlob F)
  | 0 => objects
  | k + 1 => iouEmptyFrames km cfg (iouEmptyFrame km cfg objects) k

/-- A frame of `ByteTracker.MatchObjects` with no detections: every stored
track is predicted, (being unmatched) incremented, and evicted at
`maxDisappeared`. -/
def byteEmptyFrame {F : Type} (km : KalmanModel F) (cfg : ByteTrackerCfg)
    (objects : Store (SimpleBlob F)) : Store (SimpleBlob F) :=
  (((objects.map (fun p => (p.1, p.2.predictNextPosition km))).map
      (fun p => (p.1, p.2.incNoMatch))).filter
    (fun p => !(p.2.noMatchTimes ≥ cfg.maxDisappeared)))

/-- `k` consecutive detection-free frames of `ByteTracker.MatchObjects`. -/
def byteEmptyFrames {F : Type} (km : KalmanModel F) (cfg : ByteTrackerCfg)
    (objects : Store (SimpleBlob F)) : ℕ → Store (SimpleBlob F)
  | 0 => objects
  | k + 1 => byteEmptyFrames km cfg (byteEmptyFrame km cfg objects) k

/-- The post-frame fate of one stored track under the `> maxNoMatch`
eviction rule of `SimpleTracker`/`IoUTracker`: evicted when its final miss
count exceeds the budget, otherwise present with exactly that count. -/
def missOutcome {F : Type} (maxNoMatch n : ℤ) (final : Store (SimpleBlob F))
    (i : UUID) : Prop :=
  if n > maxNoMatch then lookupKey final i = none
  else ∃ b', lookupKey final i = some b' ∧ b'.noMatchTimes = n

/-- The post-frame fate of one stored track under the `≥ maxDisappeared`
eviction rule of `ByteTracker`. -/
def byteMissOutcome {F : Type} (maxDisappeared n : ℤ) (final : Store (SimpleBlob F))
    (i : UUID) : Prop :=
  if n ≥ maxDisappeared then lookupKey final i = none
  else ∃ b', lookupKey final i = some b' ∧ b'.noMatchTimes = n

/-- What one `processMatches` pass of `ByteTracker.MatchObjects` guarantees
from state `st` to state `st'`: matched-track ids only grow, every matched
id holds a freshly reset (`noMatchTimes = 0`) entry provided that held
before, unmatched ids keep their stored entry untouched, and the key set is
unchanged. -/
def byteStageRel {F : Type} (st st' : ByteMatchState F) : Prop :=
  (∀ i ∈ st.matchedTracks, i ∈ st'.matchedTracks) ∧
  ((∀ i ∈ st.matchedTracks, ∃ v, lookupKey st.objects i = some v ∧ v.noMatchTimes = 0) →
    ∀ i ∈ st'.matchedTracks, ∃ v, lookupKey st'.objects i = some v ∧ v.noMatchTimes = 0) ∧
  (∀ i, i ∉ st'.matchedTracks → lookupKey st'.objects i = lookupKey st.objects i) ∧
  keys st'.objects = keys st.objects

/-! ## Theorems: IoU metric properties -/

theorem maxFloat64_eq_max (a b : ℚ) : maxFloat64 a b = max a b := by
  unfold maxFloat64
  rcases le_or_lt a b with h | h
  · rw [if_neg (not_lt.mpr h), max_eq_right h]
  · rw [if_pos h, max_eq_left h.le]

theorem minFloat64_eq_min (a b : ℚ) : minFloat64 a b = min a b := by
  unfold minFloat64
  rcases lt_or_le a b with h | h
  · rw [if_pos h, min_eq_left h.le]
  · rw [if_neg (not_lt.mpr h), min_eq_right h]

theorem IoU_self {r : Rectangle} (hw : 0 < r.width) (hh : 0 < r.height) :
    IoU r r = 1 := by
  have h1 : r.x + r.width - r.x = r.width := by ring
  have h2 : r.y + r.height - r.y = r.height := by ring
  have hprod : r.width * r.height ≠ 0 := (mul_pos hw hh).ne'
  simp only [IoU, maxFloat64_eq_max, minFloat64_eq_min, max_self, min_self, h1, h2]
  rw [max_eq_right hw.le, max_eq_right hh.le, if_neg hprod]
  have h3 : r.width * r.height + r.width * r.height - r.width * r.height
      = r.width * r.height := by ring
  rw [h3, div_self hprod]

theorem IoU_comm (r1 r2 : Rectangle) : IoU r1 r2 = IoU r2 r1 := by
  simp only [IoU, maxFloat64_eq_max, minFloat64_eq_min]
  rw [max_comm r2.x r1.x, max_comm r2.y r1.y,
      min_comm (r2.x + r2.width) (r1.x + r1.width),
      min_comm (r2.y + r2.height) (r1.y + r1.height),
      add_comm (r2.width * r2.height) (r1.width * r1.height)]

theorem IoU_disjoint {r1 r2 : Rectangle} (h : Disjoint2 r1 r2) : IoU r1 r2 = 0 := by
  have hzero :
      maxFloat64 0 (minFloat64 (r1.x + r1.width) (r2.x + r2.width) - maxFloat64 r1.x r2.x) *
      maxFloat64 0
        (minFloat64 (r1.y + r1.height) (r2.y + r2.height) - maxFloat64 r1.y r2.y) = 0 := by
    rcases h with h | h | h | h
    · have hle : minFloat64 (r1.x + r1.width) (r2.x + r2.width) - maxFloat64 r1.x r2.x ≤ 0 := by
        rw [minFloat64_eq_min, maxFloat64_eq_max]
        have h1 := min_le_left (r1.x + r1.width) (r2.x + r2.width)
        have h2 := le_max_right r1.x r2.x
        linarith
      rw [maxFloat64_eq_max 0, max_eq_left hle, zero_mul]
    · have hle : minFloat64 (r1.x + r1.width) (r2.x + r2.width) - maxFloat64 r1.x r2.x ≤ 0 := by
        rw [minFloat64_eq_min, maxFloat64_eq_max]
        have h1 := min_le_right (r1.x + r1.width) (r2.x + r2.width)
        have h2 := le_max_left r1.x r2.x
        linarith
      rw [maxFloat64_eq_max 0, max_eq_left hle, zero_mul]
    · have hle :
          minFloat64 (r1.y + r1.height) (r2.y + r2.height) - maxFloat64 r1.y r2.y ≤ 0 := by
        rw [minFloat64_eq_min, maxFloat64_eq_max]
        have h1 := min_le_left (r1.y + r1.height) (r2.y + r2.height)
        have h2 := le_max_right r1.y r2.y
        linarith
      rw [maxFloat64_eq_max 0 (minFloat64 (r1.y + r1.height) (r2.y + r2.height) -
        maxFloat64 r1.y r2.y), max_eq_left hle, mul_zero]
    · have hle :
          minFloat64 (r1.y + r1.height) (r2.y + r2.height) - maxFloat64 r1.y r2.y ≤ 0 := by
        rw [minFloat64_eq_min, maxFloat64_eq_max]
        have h1 := min_le_right (r1.y + r1.height) (r2.y + r2.height)
        have h2 := le_max_left r1.y r2.y
        linarith
      rw [maxFloat64_eq_max 0 (minFloat64 (r1.y + r1.height) (r2.y + r2.height) -
        maxFloat64 r1.y r2.y), max_eq_left hle, mul_zero]
  simp only [IoU]
  rw [if_pos hzero]

/-- C9: the claim as stated is false.  A degenerate rectangle with zero
width has nonnegative width/height by the stated convention, yet
`IoU(r, r)` is `0`, not `1`: the zero-area intersection trips the
degenerate-union guard. -/
theorem C9_counterexample :
    ¬ (∀ r : Rectangle, 0 ≤ r.width → 0 ≤ r.height → IoU r r = 1) := by
  intro h
  have h0 := h ⟨0, 0, 0, 10⟩ le_rfl (by norm_num)
  norm_num [IoU, maxFloat64, minFloat64] at h0

/-- C9 (amended): for every rectangle with positive width and height,
`IoU(r, r) = 1`; for zero-area rectangles the degenerate-union guard
returns `0` instead.  For disjoint rectangles `IoU` is `0`, and `IoU` is
symmetric. -/
theorem C9_iou_properties :
    (∀ r : Rectangle, 0 < r.width → 0 < r.height → IoU r r = 1) ∧
    (∀ r1 r2 : Rectangle, Disjoint2 r1 r2 → IoU r1 r2 = 0) ∧
    (∀ r1 r2 : Rectangle, IoU r1 r2 = IoU r2 r1) :=
  ⟨fun _ hw hh => IoU_self hw hh, fun _ _ h => IoU_disjoint h, fun r1 r2 => IoU_comm r1 r2⟩

/-- Witness for C9 at concrete rectangles. -/
theorem C9_iou_properties_witness :
    ((0:ℚ) < 2 ∧ (0:ℚ) < 3 ∧ IoU ⟨0, 0, 2, 3⟩ ⟨0, 0, 2, 3⟩ = 1) ∧
    (Disjoint2 ⟨0, 0, 2, 3⟩ ⟨10, 0, 2, 3⟩ ∧ IoU ⟨0, 0, 2, 3⟩ ⟨10, 0, 2, 3⟩ = 0) ∧
    IoU ⟨0, 0, 2, 3⟩ ⟨1, 1, 2, 3⟩ = IoU ⟨1, 1, 2, 3⟩ ⟨0, 0, 2, 3⟩ :=
  ⟨⟨by norm_num, by norm_num, C9_iou_properties.1 ⟨0, 0, 2, 3⟩ (by norm_num) (by norm_num)⟩,
   ⟨Or.inl (by norm_num), C9_iou_properties.2.1 _ _ (Or.inl (by norm_num))⟩,
   C9_iou_properties.2.2 _ _⟩

/-! ## Theorems: bounded track history (C8) -/

theorem simpleBlob_update_track {F : Type} (km : KalmanModel F) (b nb b' : SimpleBlob F)
    (h : b.update km nb = some b') :
    b'.maxTrackLen = b.maxTrackLen ∧
    ∃ p : Point,
      b'.track = if (b.track.length + 1 : ℤ) > b.maxTrackLen
                 then (b.track ++ [p]).tail else b.track ++ [p] := by
  cases hu : km.update b.tracker nb.currentCenter.x nb.currentCenter.y with
  | none => simp [SimpleBlob.update, hu] at h
  | some t =>
    simp only [SimpleBlob.update, hu, Option.some.injEq] at h
    subst h
    refine ⟨rfl, ⟨⟨(km.getState t).1, (km.getState t).2⟩, ?_⟩⟩
    have hlen : ((b.track ++ [(⟨(km.getState t).1, (km.getState t).2⟩ : Point)]).length : ℤ)
        = (b.track.length + 1 : ℤ) := by
      simp [List.length_append]
    simp only [hlen]

theorem simpleBlob_update_len {F : Type} (km : KalmanModel F) (b nb b' : SimpleBlob F)
    (h : b.update km nb = some b') (hlen : (b.track.length : ℤ) ≤ b.maxTrackLen) :
    (b'.track.length : ℤ) ≤ b'.maxTrackLen := by
  obtain ⟨hmax, p, htr⟩ := simpleBlob_update_track km b nb b' h
  rw [hmax, htr]
  by_cases hc : (b.track.length + 1 : ℤ) > b.maxTrackLen
  · rw [if_pos hc]
    have : ((b.track ++ [p]).tail).length = b.track.length := by
      simp [List.length_tail, List.length_append]
    rw [this]
    exact hlen
  · rw [if_neg hc]
    have hl2 : ((b.track ++ [p]).length : ℤ) = (b.track.length : ℤ) + 1 := by
      simp [List.length_append]
    rw [hl2]
    omega

theorem blobBBox_update_track {F : Type} (sq : ℚ → ℚ) (km : KalmanBBoxModel F)
    (b nb b' : BlobBBox F) (h : BlobBBox.update sq km b nb = some b') :
    b'.maxTrackLen = b.maxTrackLen ∧
    ∃ p : Point,
      b'.track = if (b.track.length + 1 : ℤ) > b.maxTrackLen
                 then (b.track ++ [p]).tail else b.track ++ [p] := by
  cases hu : km.update b.tracker
      (nb.currentBBox.x + nb.currentBBox.width / 2)
      (nb.currentBBox.y + nb.currentBBox.height / 2)
      nb.currentBBox.width nb.currentBBox.height with
  | none => simp [BlobBBox.update, hu] at h
  | some t =>
    simp only [BlobBBox.update, hu, Option.some.injEq] at h
    subst h
    refine ⟨rfl, ⟨⟨(km.getState t).1, (km.getState t).2.1⟩, ?_⟩⟩
    have hlen : ((b.track ++ [(⟨(km.getState t).1, (km.getState t).2.1⟩ : Point)]).length : ℤ)
        = (b.track.length + 1 : ℤ) := by
      simp [List.length_append]
    simp only [hlen]

theorem blobBBox_update_len {F : Type} (sq : ℚ → ℚ) (km : KalmanBBoxModel F)
    (b nb b' : BlobBBox F) (h : BlobBBox.update sq km b nb = some b')
    (hlen : (b.track.length : ℤ) ≤ b.maxTrackLen) :
    (b'.track.length : ℤ) ≤ b'.maxTrackLen := by
  obtain ⟨hmax, p, htr⟩ := blobBBox_update_track sq km b nb b' h
  rw [hmax, htr]
  by_cases hc : (b.track.length + 1 : ℤ) > b.maxTrackLen
  · rw [if_pos hc]
    have : ((b.track ++ [p]).tail).length = b.track.length := by
      simp [List.length_tail, List.length_append]
    rw [this]
    exact hlen
  · rw [if_neg hc]
    have hl2 : ((b.track ++ [p]).length : ℤ) = (b.track.length : ℤ) + 1 := by
      simp [List.length_append]
    rw [hl2]
    omega

/-- C8: the claim as stated is false.  `SetMaxTrackLen` can lower the cap
below the current history length: a freshly constructed blob updated once
has a 2-point history, and `SetMaxTrackLen(1)` leaves that history intact,
so the length exceeds `maxTrackLen` (and a later update drops only one
point, so the excess persists). -/
theorem C8_counterexample :
    SimpleBlob.update idKalman wBlobFresh wBlobDet = some wBlobFreshUpdated ∧
    ¬ (((wBlobFreshUpdated.setMaxTrackLen 1).track.length : ℤ) ≤
        (wBlobFreshUpdated.setMaxTrackLen 1).maxTrackLen) := by
  constructor
  · norm_num [SimpleBlob.update, idKalman, wBlobFresh, wBlobDet, wBlobFreshUpdated]
  · norm_num [SimpleBlob.setMaxTrackLen, wBlobFreshUpdated]

/-- C8 (amended): for both blob variants an update appends the new point
and drops exactly the oldest point precisely when the result would exceed
`maxTrackLen` (FIFO, order preserved), so the bound `length ≤ maxTrackLen`
is preserved by every update; `SetMaxTrackLen` preserves it exactly when
the new cap is at least the current length (the cap can be broken by
lowering it below the current length, which `SetMaxTrackLen` allows). -/
theorem C8_track_bound :
    (∀ (F : Type) (km : KalmanModel F) (b nb b' : SimpleBlob F),
      b.update km nb = some b' →
      (b'.maxTrackLen = b.maxTrackLen ∧
       ∃ p : Point,
         b'.track = if (b.track.length + 1 : ℤ) > b.maxTrackLen
                    then (b.track ++ [p]).tail else b.track ++ [p]) ∧
      ((b.track.length : ℤ) ≤ b.maxTrackLen → (b'.track.length : ℤ) ≤ b'.maxTrackLen)) ∧
    (∀ (F : Type) (sq : ℚ → ℚ) (km : KalmanBBoxModel F) (b nb b' : BlobBBox F),
      BlobBBox.update sq km b nb = some b' →
      (b'.maxTrackLen = b.maxTrackLen ∧
       ∃ p : Point,
         b'.track = if (b.track.length + 1 : ℤ) > b.maxTrackLen
                    then (b.track ++ [p]).tail else b.track ++ [p]) ∧
      ((b.track.length : ℤ) ≤ b.maxTrackLen → (b'.track.length : ℤ) ≤ b'.maxTrackLen)) ∧
    (∀ (F : Type) (b : SimpleBlob F) (n : ℤ),
      (b.track.length : ℤ) ≤ n →
      ((b.setMaxTrackLen n).track.length : ℤ) ≤ (b.setMaxTrackLen n).maxTrackLen) :=
  ⟨fun _ km b nb b' h =>
    ⟨simpleBlob_update_track km b nb b' h, fun hl => simpleBlob_update_len km b nb b' h hl⟩,
   fun _ sq km b nb b' h =>
    ⟨blobBBox_update_track sq km b nb b' h, fun hl => blobBBox_update_len sq km b nb b' h hl⟩,
   fun _ _ _ hn => hn⟩

/-- Witness for C8 on a concrete update that hits the cap: a blob whose
history is full (cap 1) drops its oldest point on update, staying within
the bound. -/
theorem C8_track_bound_witness :
    SimpleBlob.update idKalman wBlobCapped wBlobDet = some wBlobUpdated ∧
    ((wBlobCapped.track.length : ℤ) ≤ wBlobCapped.maxTrackLen) ∧
    ((wBlobUpdated.track.length : ℤ) ≤ wBlobUpdated.maxTrackLen) := by
  have hupd : SimpleBlob.update idKalman wBlobCapped wBlobDet = some wBlobUpdated := by
    norm_num [SimpleBlob.update, idKalman, wBlobCapped, wBlobDet, wBlobUpdated]
  refine ⟨hupd, by norm_num [wBlobCapped], ?_⟩
  exact (C8_track_bound.1 Point idKalman wBlobCapped wBlobDet wBlobUpdated hupd).2
    (by norm_num [wBlobCapped])

/-! ## Theorems: auxiliary store lemmas -/

theorem keys_cons {β : Type} (k : UUID) (c : β) (s : Store β) :
    keys ((k, c) :: s) = k :: keys s := rfl

theorem lookupKey_setKey_self {β : Type} (s : Store β) (i : UUID) (b : β) :
    lookupKey (setKey s i b) i = some b := by
  induction s with
  | nil => simp [setKey, lookupKey]
  | cons p s ih =>
    obtain ⟨j, c⟩ := p
    by_cases h : j = i <;> simp [setKey, lookupKey, h, ih]

theorem lookupKey_setKey_ne {β : Type} (s : Store β) {i j : UUID} (b : β) (h : j ≠ i) :
    lookupKey (setKey s i b) j = lookupKey s j := by
  induction s with
  | nil => simp [setKey, lookupKey, h, Ne.symm h]
  | cons p s ih =>
    obtain ⟨k, c⟩ := p
    by_cases hk : k = i
    · subst hk
      simp [setKey, lookupKey, Ne.symm h]
    · simp [setKey, lookupKey, hk, ih]

theorem mem_keys_setKey {β : Type} (s : Store β) (i j : UUID) (b : β) :
    j ∈ keys (setKey s i b) ↔ j ∈ keys s ∨ j = i := by
  induction s with
  | nil => simp [setKey, keys]
  | cons p s ih =>
    obtain ⟨k, c⟩ := p
    by_cases hk : k = i
    · subst hk
      simp [setKey, keys_cons, List.mem_cons]
      tauto
    · simp only [setKey, if_neg hk, keys_cons, List.mem_cons, ih]
      tauto

theorem lookupKey_isSome_iff_mem {β : Type} (s : Store β) (i : UUID) :
    (lookupKey s i).isSome ↔ i ∈ keys s := by
  induction s with
  | nil => simp [lookupKey, keys]
  | cons p s ih =>
    obtain ⟨k, c⟩ := p
    rw [keys_cons]
    by_cases hk : k = i
    · subst hk
      simp [lookupKey]
    · simp only [lookupKey, if_neg hk, ih, List.mem_cons]
      exact ⟨fun h => Or.inr h, fun h => h.resolve_left fun he => hk he.symm⟩

theorem lookupKey_eq_none_of_not_mem {β : Type} {s : Store β} {i : UUID}
    (h : i ∉ keys s) : lookupKey s i = none := by
  have := (lookupKey_isSome_iff_mem s i).not.mpr h
  cases hl : lookupKey s i with
  | none => rfl
  | some b => rw [hl] at this; simp at this

theorem lookupKey_mapValues {β γ : Type} (f : β → γ) (s : Store β) (i : UUID) :
    lookupKey (s.map (fun p => (p.1, f p.2))) i = (lookupKey s i).map f := by
  induction s with
  | nil => simp [lookupKey]
  | cons p s ih =>
    obtain ⟨k, c⟩ := p
    by_cases hk : k = i <;> simp [lookupKey, hk, ih]

theorem keys_mapValues {β γ : Type} (f : β → γ) (s : Store β) :
    keys (s.map (fun p => (p.1, f p.2))) = keys s := by
  induction s with
  | nil => rfl
  | cons p s ih => simp [keys]

theorem keys_setKey_of_mem {β : Type} {s : Store β} {i : UUID} (b : β)
    (h : i ∈ keys s) : keys (setKey s i b) = keys s := by
  induction s with
  | nil => simp [keys] at h
  | cons p s ih =>
    obtain ⟨k, c⟩ := p
    by_cases hk : k = i
    · subst hk; simp [setKey, keys_cons]
    · rw [keys_cons, List.mem_cons] at h
      rcases h with h | h
      · exact absurd h.symm hk
      · simp [setKey, hk, keys_cons, ih h]

theorem mem_keys_of_mem_keys_filter {β : Type} {s : Store β} {q : UUID × β → Bool} {i : UUID}
    (h : i ∈ keys (s.filter q)) : i ∈ keys s := by
  simp only [keys, List.mem_map] at h ⊢
  obtain ⟨p, hp, hpi⟩ := h
  exact ⟨p, (List.mem_filter.mp hp).1, hpi⟩

theorem lookupKey_filter {β : Type} {s : Store β} (q : UUID × β → Bool) {i : UUID} {b : β}
    (hnd : (keys s).Nodup) (hl : lookupKey s i = some b) :
    lookupKey (s.filter q) i = if q (i, b) then some b else none := by
  induction s with
  | nil => simp [lookupKey] at hl
  | cons p s ih =>
    obtain ⟨k, c⟩ := p
    rw [keys_cons, List.nodup_cons] at hnd
    by_cases hk : k = i
    · subst hk
      simp [lookupKey] at hl
      subst hl
      by_cases hq : q (k, c)
      · simp [List.filter_cons, hq, lookupKey]
      · have hnone : lookupKey (s.filter q) k = none :=
          lookupKey_eq_none_of_not_mem fun hmem =>
            hnd.1 (mem_keys_of_mem_keys_filter hmem)
        simp [List.filter_cons, hq, hnone]
    · simp only [lookupKey, if_neg hk] at hl
      have hrec := ih hnd.2 hl
      by_cases hq : q (k, c)
      · simpa [List.filter_cons, hq, lookupKey, hk] using hrec
      · simpa [List.filter_cons, hq] using hrec


/-! ## Theorems: nearest-centroid acceptance gate (C1) -/

theorem C1_gate {F : Type} (km : KalmanModel F) (cfg : SimpleTrackerCfg)
    (st st' : SimpleLoopState F) (c : DistanceBlob F)
    (hres : c.id ∉ st.reserved)
    (hstep : simpleProcessStep km cfg st c = .ok st') :
    ((c.distance < c.underlying.diagonal * 0.5 ∨ c.distance < cfg.minDistThreshold) ↔
      c.distance < maxFloat64 (c.underlying.diagonal * 0.5) cfg.minDistThreshold) ∧
    if c.distance < c.underlying.diagonal * 0.5 ∨ c.distance < cfg.minDistThreshold then
      st'.reserved = st.reserved ++ [c.id] ∧
      st'.blobsToRegister = st.blobsToRegister ∧
      ∃ b0 b1, lookupKey st.objects c.id = some b0 ∧
        b0.update km c.underlying = some b1 ∧ st'.objects = setKey st.objects c.id b1
    else
      st'.objects = st.objects ∧ st'.reserved = st.reserved ∧
      st'.blobsToRegister = setKey st.blobsToRegister c.underlying.id c.underlying := by
  constructor
  · rw [maxFloat64_eq_max, lt_max_iff]
  · unfold simpleProcessStep at hstep
    rw [if_neg hres] at hstep
    by_cases hgate : c.distance < c.underlying.diagonal * 0.5 ∨
        c.distance < cfg.minDistThreshold
    · rw [if_pos hgate] at hstep
      rw [if_pos hgate]
      cases hl : lookupKey st.objects c.id with
      | none =>
        simp only [hl] at hstep
        exact Except.noConfusion hstep
      | some b0 =>
        simp only [hl] at hstep
        cases hu : b0.update km c.underlying with
        | none =>
          simp only [hu] at hstep
          exact Except.noConfusion hstep
        | some b1 =>
          simp only [hu, Except.ok.injEq] at hstep
          subst hstep
          exact ⟨rfl, rfl, b0, b1, rfl, hu, rfl⟩
    · rw [if_neg hgate] at hstep
      rw [if_neg hgate]
      simp only [Except.ok.injEq] at hstep
      subst hstep
      exact ⟨rfl, rfl, rfl⟩

/-- C1: the claim as stated is false.  With threshold 5, the detection
`wDetB` (diagonal 50) at best distance 20 from track 7 is NOT below
`min(0.5 × 50, 5) = 5`, so the claim prescribes registering it as a new
track; the code's gate is the disjunction
`20 < 0.5*50 || 20 < 5` (true), so the run folds `wDetB` into track 7:
the final store keys are `[7, 11]` (no new track with id 12) and `wDetB`'s
id was overwritten to 7. -/
theorem C1_counterexample :
    bestMatch wSqrt (simplePrep idKalman [(7, wTrackT)]) wDetB = (20, 7) ∧
    ((simpleMatchObjects wSqrt idKalman ⟨5, 75⟩ [(7, wTrackT)] [wDetA, wDetB]).map
       (fun res => (keys res.1, res.2.map SimpleBlob.id)) = .ok ([7, 11], [11, 7])) ∧
    ¬ ((20 : ℚ) < minFloat64 (wDetB.diagonal * 0.5) 5) := by
  refine ⟨?_, ?_, by norm_num [wDetB, minFloat64]⟩
  · norm_num [bestMatch, simplePrep, wSqrt, wTrackT, wDetB, SimpleBlob.distanceTo,
      euclideanDistance, SimpleBlob.deactivate, SimpleBlob.predictNextPosition, idKalman,
      mathMaxFloat64, minFloat64, List.foldl_cons, List.foldl_nil]
  · norm_num [simpleMatchObjects, simplePrep, simpleCandidates, bestMatch, sortByDistance,
      insertAscByDistance, simpleProcessQueue, simpleProcessStep, simpleRegister,
      simpleCleanup, setKey, lookupKey, keys, SimpleBlob.distanceTo, euclideanDistance,
      SimpleBlob.deactivate, SimpleBlob.predictNextPosition, SimpleBlob.update,
      SimpleBlob.incNoMatch, SimpleBlob.setID, idKalman, wSqrt, wTrackT, wDetA, wDetB,
      mathMaxFloat64, minFloat64, List.foldl_cons, List.foldl_nil, List.foldr_cons,
      List.foldr_nil, Except.map]

/-- C1 (amended): for every popped unreserved candidate the detection
updates the matched track exactly when the distance is below
`0.5 × diagonal` OR below `minDistanceThreshold` — i.e. below the MAX of
the two bounds, not their min — and otherwise it is registered as a new
track; applied at the concrete candidate `wCandB`. -/
theorem C1_gate_witness :
    ((7 : UUID) ∉ ([] : List UUID)) ∧
    simpleProcessStep idKalman ⟨5, 75⟩ ⟨[(7, wTrackPrep)], [], [], []⟩ wCandB = .ok wAfterB ∧
    (((wCandB.distance < wCandB.underlying.diagonal * 0.5 ∨ wCandB.distance < (5 : ℚ)) ↔
       wCandB.distance < maxFloat64 (wCandB.underlying.diagonal * 0.5) 5) ∧
     if wCandB.distance < wCandB.underlying.diagonal * 0.5 ∨ wCandB.distance < (5 : ℚ) then
       wAfterB.reserved = [] ++ [(7 : UUID)] ∧
       wAfterB.blobsToRegister = ([] : Store (SimpleBlob Point)) ∧
       ∃ b0 b1, lookupKey [(7, wTrackPrep)] (7 : UUID) = some b0 ∧
         b0.update idKalman wCandB.underlying = some b1 ∧
         wAfterB.objects = setKey [(7, wTrackPrep)] 7 b1
     else
       wAfterB.objects = [(7, wTrackPrep)] ∧ wAfterB.reserved = [] ∧
       wAfterB.blobsToRegister = setKey [] wCandB.underlying.id wCandB.underlying) := by
  have h1 : (7 : UUID) ∉ ([] : List UUID) := by simp
  have h2 : simpleProcessStep idKalman ⟨5, 75⟩ ⟨[(7, wTrackPrep)], [], [], []⟩ wCandB
      = .ok wAfterB := by
    norm_num [simpleProcessStep, lookupKey, setKey, SimpleBlob.update, SimpleBlob.setID,
      idKalman, wCandB, wDetB, wTrackPrep, wAfterB, wTrackUpd]
  exact ⟨h1, h2, C1_gate idKalman ⟨5, 75⟩ _ wAfterB wCandB h1 h2⟩

/-! ## Theorems: reachability of the panic branch (C10) -/

theorem foldl_argmin_inv {β : Type} (g : ℚ × UUID → UUID × β → ℚ × UUID)
    (hg : ∀ acc e, g acc e = acc ∨ ((g acc e).2 = e.1 ∧ (g acc e).1 ≤ acc.1)) :
    ∀ (l : Store β) (acc : ℚ × UUID),
      (l.foldl g acc = acc ∨ (l.foldl g acc).2 ∈ keys l) ∧ (l.foldl g acc).1 ≤ acc.1 := by
  intro l
  induction l with
  | nil => intro acc; exact ⟨Or.inl rfl, le_rfl⟩
  | cons e s ih =>
    intro acc
    rw [List.foldl_cons]
    have hs := ih (g acc e)
    constructor
    · rcases hs.1 with he | he
      · rw [he]
        rcases hg acc e with h | ⟨h1, _⟩
        · exact Or.inl h
        · exact Or.inr (by rw [keys_cons, h1]; exact List.mem_cons_self _ _)
      · exact Or.inr (by rw [keys_cons]; exact List.mem_cons_of_mem _ he)
    · rcases hg acc e with h | ⟨_, h2⟩
      · calc (s.foldl g (g acc e)).1 ≤ (g acc e).1 := hs.2
          _ = acc.1 := by rw [h]
      · exact le_trans hs.2 h2

theorem bestMatch_spec {F : Type} (sq : ℚ → ℚ) (objects : Store (SimpleBlob F))
    (d : SimpleBlob F) :
    (bestMatch sq objects d).1 ≤ mathMaxFloat64 ∧
    ((bestMatch sq objects d).1 < mathMaxFloat64 → (bestMatch sq objects d).2 ∈ keys objects) := by
  have hg : ∀ (acc : ℚ × UUID) (e : UUID × SimpleBlob F),
      (let dist := d.distanceTo sq e.2
       let distPredicted := d.distanceTo sq e.2
       let distVerifided := minFloat64 dist distPredicted
       if distVerifided < acc.1 then (distVerifided, e.1) else acc) = acc ∨
      (((let dist := d.distanceTo sq e.2
         let distPredicted := d.distanceTo sq e.2
         let distVerifided := minFloat64 dist distPredicted
         if distVerifided < acc.1 then (distVerifided, e.1) else acc)).2 = e.1 ∧
       ((let dist := d.distanceTo sq e.2
         let distPredicted := d.distanceTo sq e.2
         let distVerifided := minFloat64 dist distPredicted
         if distVerifided < acc.1 then (distVerifided, e.1) else acc)).1 ≤ acc.1) := by
    intro acc e
    by_cases hlt : minFloat64 (d.distanceTo sq e.2) (d.distanceTo sq e.2) < acc.1
    · right
      constructor
      · simp only [if_pos hlt]
      · simp only [if_pos hlt]
        exact hlt.le
    · left
      simp only [if_neg hlt]
  have h := foldl_argmin_inv _ hg objects (mathMaxFloat64, 0)
  unfold bestMatch
  refine ⟨h.2, fun hlt => ?_⟩
  rcases h.1 with he | he
  · rw [he] at hlt
    exact absurd hlt (lt_irrefl _)
  · exact he

theorem simpleProcessStep_keys {F : Type} (km : KalmanModel F) (cfg : SimpleTrackerCfg)
    {st st' : SimpleLoopState F} {c : DistanceBlob F}
    (hstep : simpleProcessStep km cfg st c = .ok st') :
    keys st'.objects = keys st.objects := by
  unfold simpleProcessStep at hstep
  by_cases hres : c.id ∈ st.reserved
  · rw [if_pos hres] at hstep
    simp only [Except.ok.injEq] at hstep
    subst hstep
    rfl
  · rw [if_neg hres] at hstep
    by_cases hgate : c.distance < c.underlying.diagonal * 0.5 ∨
        c.distance < cfg.minDistThreshold
    · rw [if_pos hgate] at hstep
      cases hl : lookupKey st.objects c.id with
      | none =>
        simp only [hl] at hstep
        exact Except.noConfusion hstep
      | some b0 =>
        simp only [hl] at hstep
        cases hu : b0.update km c.underlying with
        | none =>
          simp only [hu] at hstep
          exact Except.noConfusion hstep
        | some b1 =>
          simp only [hu, Except.ok.injEq] at hstep
          subst hstep
          have hmem : c.id ∈ keys st.objects := by
            rw [← lookupKey_isSome_iff_mem, hl]
            rfl
          exact keys_setKey_of_mem b1 hmem
    · rw [if_neg hgate] at hstep
      simp only [Except.ok.injEq] at hstep
      subst hstep
      rfl

theorem simpleProcessStep_no_panic {F : Type} (km : KalmanModel F) (cfg : SimpleTrackerCfg)
    (st : SimpleLoopState F) (c : DistanceBlob F)
    (hc : (c.distance < c.underlying.diagonal * 0.5 ∨ c.distance < cfg.minDistThreshold) →
      c.id ∈ keys st.objects) :
    simpleProcessStep km cfg st c ≠ .error .panicImpossible := by
  intro habs
  unfold simpleProcessStep at habs
  by_cases hres : c.id ∈ st.reserved
  · rw [if_pos hres] at habs
    exact Except.noConfusion habs
  · rw [if_neg hres] at habs
    by_cases hgate : c.distance < c.underlying.diagonal * 0.5 ∨
        c.distance < cfg.minDistThreshold
    · rw [if_pos hgate] at habs
      cases hl : lookupKey st.objects c.id with
      | none =>
        have hmem := (lookupKey_isSome_iff_mem st.objects c.id).mpr (hc hgate)
        rw [hl] at hmem
        simp at hmem
      | some b0 =>
        simp only [hl] at habs
        cases hu : b0.update km c.underlying with
        | none =>
          simp only [hu] at habs
          exact SimpleErr.noConfusion (Except.error.inj habs)
        | some b1 =>
          simp only [hu] at habs
          exact Except.noConfusion habs
    · rw [if_neg hgate] at habs
      exact Except.noConfusion habs

theorem simpleProcessQueue_no_panic {F : Type} (km : KalmanModel F) (cfg : SimpleTrackerCfg) :
    ∀ (queue : List (DistanceBlob F)) (st : SimpleLoopState F),
      (∀ c ∈ queue,
        (c.distance < c.underlying.diagonal * 0.5 ∨ c.distance < cfg.minDistThreshold) →
          c.id ∈ keys st.objects) →
      simpleProcessQueue km cfg st queue ≠ .error .panicImpossible := by
  intro queue
  induction queue with
  | nil =>
    intro st _
    unfold simpleProcessQueue
    exact fun h => Except.noConfusion h
  | cons c cs ih =>
    intro st h
    unfold simpleProcessQueue
    cases hstep : simpleProcessStep km cfg st c with
    | error e =>
      intro habs
      have he : e = .panicImpossible := Except.error.inj habs
      subst he
      exact simpleProcessStep_no_panic km cfg st c (h c (List.mem_cons_self _ _)) hstep
    | ok st1 =>
      apply ih st1
      intro c1 hc1 hg
      rw [simpleProcessStep_keys km cfg hstep]
      exact h c1 (List.mem_cons_of_mem _ hc1) hg

theorem mem_insertAscByDistance {F : Type} (c x : DistanceBlob F)
    (l : List (DistanceBlob F)) :
    x ∈ insertAscByDistance c l ↔ x = c ∨ x ∈ l := by
  induction l with
  | nil => simp [insertAscByDistance]
  | cons d ds ih =>
    unfold insertAscByDistance
    by_cases hle : c.distance ≤ d.distance
    · rw [if_pos hle]
      simp [List.mem_cons]
    · rw [if_neg hle]
      simp only [List.mem_cons, ih]
      tauto

theorem mem_sortByDistance {F : Type} (x : DistanceBlob F) (l : List (DistanceBlob F)) :
    x ∈ sortByDistance l ↔ x ∈ l := by
  unfold sortByDistance
  induction l with
  | nil => simp
  | cons d ds ih =>
    rw [List.foldr_cons, mem_insertAscByDistance, List.mem_cons, ih]

/-- C10: the claim as stated is false.  The `panic("should be impossible")`
branch is reachable: with an empty store the scan keeps
`(math.MaxFloat64, uuid.UUID{})`, and a detection whose cached diagonal
exceeds `2 × math.MaxFloat64` (a box of width 1e300 overflows to `+Inf` in
the Go code) makes `MaxFloat64 < 0.5 × diagonal` true, so the gate passes
and the zero-UUID lookup fails. -/
theorem C10_counterexample :
    simpleMatchObjects wSqrt idKalman ⟨30, 75⟩ [] [wDetHuge] = .error .panicImpossible := by
  norm_num [simpleMatchObjects, simplePrep, simpleCandidates, bestMatch, sortByDistance,
    insertAscByDistance, simpleProcessQueue, simpleProcessStep, lookupKey, wDetHuge,
    mathMaxFloat64, List.foldl_nil, List.foldr_nil, List.foldr_cons]

/-- C10 (amended): the panic branch is unreachable provided
`0.5 × detection.diagonal` and `minDistanceThreshold` do not exceed
`math.MaxFloat64` (as holds for every finite-geometry detection): a
candidate that passes the gate then has best distance strictly below
`math.MaxFloat64`, so its best-match scan hit a stored track, and no store
key is removed during the pop loop. -/
theorem C10_no_panic {F : Type} (sq : ℚ → ℚ) (km : KalmanModel F) (cfg : SimpleTrackerCfg)
    (objects : Store (SimpleBlob F)) (dets : List (SimpleBlob F))
    (hdiag : ∀ d ∈ dets, d.diagonal * 0.5 ≤ mathMaxFloat64)
    (hthr : cfg.minDistThreshold ≤ mathMaxFloat64) :
    simpleMatchObjects sq km cfg objects dets ≠ .error .panicImpossible := by
  intro habs
  unfold simpleMatchObjects at habs
  cases hq : simpleProcessQueue km cfg
      ⟨simplePrep km objects, [], [], []⟩
      (sortByDistance (simpleCandidates sq (simplePrep km objects) dets)) with
  | error e =>
    simp only [hq] at habs
    have he : e = SimpleErr.panicImpossible := Except.error.inj habs
    subst he
    refine simpleProcessQueue_no_panic km cfg _ _ ?_ hq
    intro c hc hgate
    rw [mem_sortByDistance] at hc
    unfold simpleCandidates at hc
    rw [List.mem_map] at hc
    obtain ⟨d, hd, hcd⟩ := hc
    subst hcd
    have hspec := bestMatch_spec sq (simplePrep km objects) d
    apply hspec.2
    rcases hgate with hg | hg
    · exact lt_of_lt_of_le hg (hdiag d hd)
    · exact lt_of_lt_of_le hg hthr
  | ok st =>
    simp only [hq] at habs
    exact Except.noConfusion habs

/-- Witness for C10 at a concrete run: default-style configuration,
an ordinary detection (diagonal 1), empty store — the run completes
without hitting the panic branch. -/
theorem C10_no_panic_witness :
    (∀ d ∈ [wDetA], d.diagonal * 0.5 ≤ mathMaxFloat64) ∧
    (30 : ℚ) ≤ mathMaxFloat64 ∧
    simpleMatchObjects wSqrt idKalman ⟨30, 75⟩ [] [wDetA] ≠ .error .panicImpossible := by
  have h1 : ∀ d ∈ [wDetA], d.diagonal * 0.5 ≤ mathMaxFloat64 := by
    intro d hd
    rw [List.mem_singleton] at hd
    subst hd
    norm_num [wDetA, mathMaxFloat64]
  have h2 : (30 : ℚ) ≤ mathMaxFloat64 := by norm_num [mathMaxFloat64]
  exact ⟨h1, h2, C10_no_panic wSqrt idKalman ⟨30, 75⟩ [] [wDetA] h1 h2⟩

/-! ## Theorems: first-claim-wins conflict resolution (C4) -/

theorem simpleStepEvent_reserved {F : Type} (km : KalmanModel F) (cfg : SimpleTrackerCfg)
    {st st1 : SimpleLoopState F} {c : DistanceBlob F}
    (hstep : simpleProcessStep km cfg st c = .ok st1) :
    st1.reserved = st.reserved ++ (simpleStepEvent cfg st c).toList := by
  unfold simpleProcessStep at hstep
  unfold simpleStepEvent
  by_cases hres : c.id ∈ st.reserved
  · rw [if_pos hres] at hstep
    rw [if_pos hres]
    simp only [Except.ok.injEq] at hstep
    subst hstep
    simp
  · rw [if_neg hres] at hstep
    rw [if_neg hres]
    by_cases hgate : c.distance < c.underlying.diagonal * 0.5 ∨
        c.distance < cfg.minDistThreshold
    · rw [if_pos hgate] at hstep
      rw [if_pos hgate]
      cases hl : lookupKey st.objects c.id with
      | none =>
        simp only [hl] at hstep
        exact Except.noConfusion hstep
      | some b0 =>
        simp only [hl] at hstep
        cases hu : b0.update km c.underlying with
        | none =>
          simp only [hu] at hstep
          exact Except.noConfusion hstep
        | some b1 =>
          simp only [hu, Except.ok.injEq] at hstep
          subst hstep
          simp
    · rw [if_neg hgate] at hstep
      rw [if_neg hgate]
      simp only [Except.ok.injEq] at hstep
      subst hstep
      simp

theorem simpleStepEvent_none_objects {F : Type} (km : KalmanModel F) (cfg : SimpleTrackerCfg)
    {st st1 : SimpleLoopState F} {c : DistanceBlob F}
    (hstep : simpleProcessStep km cfg st c = .ok st1)
    (hev : simpleStepEvent cfg st c = none) : st1.objects = st.objects := by
  unfold simpleProcessStep at hstep
  unfold simpleStepEvent at hev
  by_cases hres : c.id ∈ st.reserved
  · rw [if_pos hres] at hstep
    simp only [Except.ok.injEq] at hstep
    subst hstep
    rfl
  · rw [if_neg hres] at hstep
    rw [if_neg hres] at hev
    by_cases hgate : c.distance < c.underlying.diagonal * 0.5 ∨
        c.distance < cfg.minDistThreshold
    · rw [if_pos hgate] at hev
      exact Option.noConfusion hev
    · rw [if_neg hgate] at hstep
      simp only [Except.ok.injEq] at hstep
      subst hstep
      rfl

theorem simpleStepEvent_some_objects {F : Type} (km : KalmanModel F) (cfg : SimpleTrackerCfg)
    {st st1 : SimpleLoopState F} {c : DistanceBlob F} {i : UUID}
    (hstep : simpleProcessStep km cfg st c = .ok st1)
    (hev : simpleStepEvent cfg st c = some i) :
    i = c.id ∧ c.id ∉ st.reserved ∧
    ∃ b0 b1, lookupKey st.objects c.id = some b0 ∧
      b0.update km c.underlying = some b1 ∧ st1.objects = setKey st.objects c.id b1 := by
  unfold simpleProcessStep at hstep
  unfold simpleStepEvent at hev
  by_cases hres : c.id ∈ st.reserved
  · rw [if_pos hres] at hev
    exact Option.noConfusion hev
  · rw [if_neg hres] at hstep
    rw [if_neg hres] at hev
    by_cases hgate : c.distance < c.underlying.diagonal * 0.5 ∨
        c.distance < cfg.minDistThreshold
    · rw [if_pos hgate] at hstep
      rw [if_pos hgate] at hev
      refine ⟨(Option.some.inj hev).symm, hres, ?_⟩
      cases hl : lookupKey st.objects c.id with
      | none =>
        simp only [hl] at hstep
        exact Except.noConfusion hstep
      | some b0 =>
        simp only [hl] at hstep
        cases hu : b0.update km c.underlying with
        | none =>
          simp only [hu] at hstep
          exact Except.noConfusion hstep
        | some b1 =>
          simp only [hu, Except.ok.injEq] at hstep
          subst hstep
          exact ⟨b0, b1, rfl, hu, rfl⟩
    · rw [if_neg hgate] at hev
      exact Option.noConfusion hev

theorem simpleReserved_step_register {F : Type} (km : KalmanModel F) (cfg : SimpleTrackerCfg)
    {st st1 : SimpleLoopState F} {c : DistanceBlob F}
    (hres : c.id ∈ st.reserved) (hstep : simpleProcessStep km cfg st c = .ok st1) :
    st1.objects = st.objects ∧ st1.reserved = st.reserved ∧
    st1.blobsToRegister = setKey st.blobsToRegister c.underlying.id c.underlying := by
  unfold simpleProcessStep at hstep
  rw [if_pos hres] at hstep
  simp only [Except.ok.injEq] at hstep
  subst hstep
  exact ⟨rfl, rfl, rfl⟩

theorem simpleProcessQueueLog_fst {F : Type} (km : KalmanModel F) (cfg : SimpleTrackerCfg) :
    ∀ (q : List (DistanceBlob F)) (st : SimpleLoopState F),
      (simpleProcessQueueLog km cfg st q).map Prod.fst = simpleProcessQueue km cfg st q := by
  intro q
  induction q with
  | nil => intro st; rfl
  | cons c cs ih =>
    intro st
    unfold simpleProcessQueueLog simpleProcessQueue
    cases hstep : simpleProcessStep km cfg st c with
    | error e => rfl
    | ok st1 =>
      dsimp only
      cases hlog : simpleProcessQueueLog km cfg st1 cs with
      | error e =>
        have h := ih st1
        rw [hlog] at h
        rw [← h]
      | ok p =>
        obtain ⟨st2, evs⟩ := p
        have h := ih st1
        rw [hlog] at h
        rw [← h]
        rfl

theorem simpleProcessQueueLog_reserved {F : Type} (km : KalmanModel F)
    (cfg : SimpleTrackerCfg) :
    ∀ (q : List (DistanceBlob F)) (st st2 : SimpleLoopState F) (evs : List (Option UUID)),
      simpleProcessQueueLog km cfg st q = .ok (st2, evs) →
      st2.reserved = st.reserved ++ evs.filterMap id := by
  intro q
  induction q with
  | nil =>
    intro st st2 evs h
    unfold simpleProcessQueueLog at h
    simp only [Except.ok.injEq, Prod.mk.injEq] at h
    obtain ⟨h1, h2⟩ := h
    subst h1
    subst h2
    simp
  | cons c cs ih =>
    intro st st2 evs h
    unfold simpleProcessQueueLog at h
    cases hstep : simpleProcessStep km cfg st c with
    | error e =>
      simp only [hstep] at h
      exact Except.noConfusion h
    | ok st1 =>
      simp only [hstep] at h
      cases hlog : simpleProcessQueueLog km cfg st1 cs with
      | error e =>
        simp only [hlog] at h
        exact Except.noConfusion h
      | ok p =>
        obtain ⟨st2x, evsx⟩ := p
        simp only [hlog, Except.ok.injEq, Prod.mk.injEq] at h
        obtain ⟨h1, h2⟩ := h
        subst h1
        subst h2
        have hr1 := simpleStepEvent_reserved km cfg hstep
        have hr2 := ih st1 st2x evsx hlog
        rw [hr2, hr1]
        cases hev : simpleStepEvent cfg st c with
        | none => simp [hev, List.filterMap_cons]
        | some i => simp [hev, List.filterMap_cons]

theorem simpleProcessQueueLog_nodup {F : Type} (km : KalmanModel F)
    (cfg : SimpleTrackerCfg) :
    ∀ (q : List (DistanceBlob F)) (st st2 : SimpleLoopState F) (evs : List (Option UUID)),
      simpleProcessQueueLog km cfg st q = .ok (st2, evs) →
      st.reserved.Nodup →
      (st.reserved ++ evs.filterMap id).Nodup := by
  intro q
  induction q with
  | nil =>
    intro st st2 evs h hnd
    unfold simpleProcessQueueLog at h
    simp only [Except.ok.injEq, Prod.mk.injEq] at h
    obtain ⟨h1, h2⟩ := h
    subst h1
    subst h2
    simpa using hnd
  | cons c cs ih =>
    intro st st2 evs h hnd
    unfold simpleProcessQueueLog at h
    cases hstep : simpleProcessStep km cfg st c with
    | error e =>
      simp only [hstep] at h
      exact Except.noConfusion h
    | ok st1 =>
      simp only [hstep] at h
      cases hlog : simpleProcessQueueLog km cfg st1 cs with
      | error e =>
        simp only [hlog] at h
        exact Except.noConfusion h
      | ok p =>
        obtain ⟨st2x, evsx⟩ := p
        simp only [hlog, Except.ok.injEq, Prod.mk.injEq] at h
        obtain ⟨h1, h2⟩ := h
        subst h1
        subst h2
        have hr1 := simpleStepEvent_reserved km cfg hstep
        cases hev : simpleStepEvent cfg st c with
        | none =>
          have hnd1 : st1.reserved.Nodup := by
            rw [hr1, hev]
            simpa using hnd
          have := ih st1 st2x evsx hlog hnd1
          rw [hr1, hev] at this
          simpa [List.filterMap_cons] using this
        | some i =>
          obtain ⟨hi, hres, _⟩ := simpleStepEvent_some_objects km cfg hstep hev
          subst hi
          have hnd1 : st1.reserved.Nodup := by
            rw [hr1, hev]
            simp [List.nodup_append, hnd, hres]
          have := ih st1 st2x evsx hlog hnd1
          rw [hr1, hev] at this
          simpa [List.filterMap_cons, List.append_assoc] using this

theorem iouStepEvent_reserved {F : Type} (km : KalmanModel F) (cfg : IoUTrackerCfg)
    {st st1 : IoULoopState F} {c : IoUDistanceBlob F}
    (hstep : iouProcessStep km cfg st c = .ok st1) :
    st1.reserved = st.reserved ++ (iouStepEvent cfg st c).toList := by
  unfold iouProcessStep at hstep
  unfold iouStepEvent
  by_cases hres : c.minID ∈ st.reserved
  · rw [if_pos hres] at hstep
    rw [if_pos hres]
    simp only [Except.ok.injEq] at hstep
    subst hstep
    simp
  · rw [if_neg hres] at hstep
    rw [if_neg hres]
    by_cases hgate : c.score > cfg.iouThreshold
    · rw [if_pos hgate] at hstep
      rw [if_pos hgate]
      cases hl : lookupKey st.objects c.minID with
      | none =>
        simp only [hl] at hstep ⊢
        simp only [Except.ok.injEq] at hstep
        subst hstep
        simp
      | some b0 =>
        simp only [hl] at hstep ⊢
        cases hu : (b0.predictNextPosition km).update km c.blob with
        | none =>
          simp only [hu] at hstep
          exact Except.noConfusion hstep
        | some b1 =>
          simp only [hu, Except.ok.injEq] at hstep
          subst hstep
          simp
    · rw [if_neg hgate] at hstep
      rw [if_neg hgate]
      simp only [Except.ok.injEq] at hstep
      subst hstep
      simp

theorem iouStepEvent_none_objects {F : Type} (km : KalmanModel F) (cfg : IoUTrackerCfg)
    {st st1 : IoULoopState F} {c : IoUDistanceBlob F}
    (hstep : iouProcessStep km cfg st c = .ok st1)
    (hev : iouStepEvent cfg st c = none) : st1.objects = st.objects := by
  unfold iouProcessStep at hstep
  unfold iouStepEvent at hev
  by_cases hres : c.minID ∈ st.reserved
  · rw [if_pos hres] at hstep
    simp only [Except.ok.injEq] at hstep
    subst hstep
    rfl
  · rw [if_neg hres] at hstep
    rw [if_neg hres] at hev
    by_cases hgate : c.score > cfg.iouThreshold
    · rw [if_pos hgate] at hstep
      rw [if_pos hgate] at hev
      cases hl : lookupKey st.objects c.minID with
      | none =>
        simp only [hl] at hstep
        simp only [Except.ok.injEq] at hstep
        subst hstep
        rfl
      | some b0 =>
        simp only [hl] at hev
        exact Option.noConfusion hev
    · rw [if_neg hgate] at hstep
      simp only [Except.ok.injEq] at hstep
      subst hstep
      rfl

theorem iouStepEvent_some_objects {F : Type} (km : KalmanModel F) (cfg : IoUTrackerCfg)
    {st st1 : IoULoopState F} {c : IoUDistanceBlob F} {i : UUID}
    (hstep : iouProcessStep km cfg st c = .ok st1)
    (hev : iouStepEvent cfg st c = some i) :
    i = c.minID ∧ c.minID ∉ st.reserved ∧
    ∃ b0 b1, lookupKey st.objects c.minID = some b0 ∧
      (b0.predictNextPosition km).update km c.blob = some b1 ∧
      st1.objects = setKey st.objects c.minID b1.resetNoMatch := by
  unfold iouProcessStep at hstep
  unfold iouStepEvent at hev
  by_cases hres : c.minID ∈ st.reserved
  · rw [if_pos hres] at hev
    exact Option.noConfusion hev
  · rw [if_neg hres] at hstep
    rw [if_neg hres] at hev
    by_cases hgate : c.score > cfg.iouThreshold
    · rw [if_pos hgate] at hstep
      rw [if_pos hgate] at hev
      cases hl : lookupKey st.objects c.minID with
      | none =>
        simp only [hl] at hev
        exact Option.noConfusion hev
      | some b0 =>
        simp only [hl] at hstep hev
        refine ⟨(Option.some.inj hev).symm, hres, ?_⟩
        cases hu : (b0.predictNextPosition km).update km c.blob with
        | none =>
          simp only [hu] at hstep
          exact Except.noConfusion hstep
        | some b1 =>
          simp only [hu, Except.ok.injEq] at hstep
          subst hstep
          exact ⟨b0, b1, rfl, hu, rfl⟩
    · rw [if_neg hgate] at hev
      exact Option.noConfusion hev

theorem iouReserved_step_register {F : Type} (km : KalmanModel F) (cfg : IoUTrackerCfg)
    {st st1 : IoULoopState F} {c : IoUDistanceBlob F}
    (hres : c.minID ∈ st.reserved) (hstep : iouProcessStep km cfg st c = .ok st1) :
    st1.objects = st.objects ∧ st1.reserved = st.reserved ∧
    st1.blobsToRegister = setKey st.blobsToRegister c.blob.id c.blob := by
  unfold iouProcessStep at hstep
  rw [if_pos hres] at hstep
  simp only [Except.ok.injEq] at hstep
  subst hstep
  exact ⟨rfl, rfl, rfl⟩

theorem iouProcessQueueLog_fst {F : Type} (km : KalmanModel F) (cfg : IoUTrackerCfg) :
    ∀ (q : List (IoUDistanceBlob F)) (st : IoULoopState F),
      (iouProcessQueueLog km cfg st q).map Prod.fst = iouProcessQueue km cfg st q := by
  intro q
  induction q with
  | nil => intro st; rfl
  | cons c cs ih =>
    intro st
    unfold iouProcessQueueLog iouProcessQueue
    cases hstep : iouProcessStep km cfg st c with
    | error e => rfl
    | ok st1 =>
      dsimp only
      cases hlog : iouProcessQueueLog km cfg st1 cs with
      | error e =>
        have h := ih st1
        rw [hlog] at h
        rw [← h]
      | ok p =>
        obtain ⟨st2, evs⟩ := p
        have h := ih st1
        rw [hlog] at h
        rw [← h]
        rfl

theorem iouProcessQueueLog_reserved {F : Type} (km : KalmanModel F) (cfg : IoUTrackerCfg) :
    ∀ (q : List (IoUDistanceBlob F)) (st st2 : IoULoopState F) (evs : List (Option UUID)),
      iouProcessQueueLog km cfg st q = .ok (st2, evs) →
      st2.reserved = st.reserved ++ evs.filterMap id := by
  intro q
  induction q with
  | nil =>
    intro st st2 evs h
    unfold iouProcessQueueLog at h
    simp only [Except.ok.injEq, Prod.mk.injEq] at h
    obtain ⟨h1, h2⟩ := h
    subst h1
    subst h2
    simp
  | cons c cs ih =>
    intro st st2 evs h
    unfold iouProcessQueueLog at h
    cases hstep : iouProcessStep km cfg st c with
    | error e =>
      simp only [hstep] at h
      exact Except.noConfusion h
    | ok st1 =>
      simp only [hstep] at h
      cases hlog : iouProcessQueueLog km cfg st1 cs with
      | error e =>
        simp only [hlog] at h
        exact Except.noConfusion h
      | ok p =>
        obtain ⟨st2x, evsx⟩ := p
        simp only [hlog, Except.ok.injEq, Prod.mk.injEq] at h
        obtain ⟨h1, h2⟩ := h
        subst h1
        subst h2
        have hr1 := iouStepEvent_reserved km cfg hstep
        have hr2 := ih st1 st2x evsx hlog
        rw [hr2, hr1]
        cases hev : iouStepEvent cfg st c with
        | none => simp [hev, List.filterMap_cons]
        | some i => simp [hev, List.filterMap_cons]

theorem iouProcessQueueLog_nodup {F : Type} (km : KalmanModel F) (cfg : IoUTrackerCfg) :
    ∀ (q : List (IoUDistanceBlob F)) (st st2 : IoULoopState F) (evs : List (Option UUID)),
      iouProcessQueueLog km cfg st q = .ok (st2, evs) →
      st.reserved.Nodup →
      (st.reserved ++ evs.filterMap id).Nodup := by
  intro q
  induction q with
  | nil =>
    intro st st2 evs h hnd
    unfold iouProcessQueueLog at h
    simp only [Except.ok.injEq, Prod.mk.injEq] at h
    obtain ⟨h1, h2⟩ := h
    subst h1
    subst h2
    simpa using hnd
  | cons c cs ih =>
    intro st st2 evs h hnd
    unfold iouProcessQueueLog at h
    cases hstep : iouProcessStep km cfg st c with
    | error e =>
      simp only [hstep] at h
      exact Except.noConfusion h
    | ok st1 =>
      simp only [hstep] at h
      cases hlog : iouProcessQueueLog km cfg st1 cs with
      | error e =>
        simp only [hlog] at h
        exact Except.noConfusion h
      | ok p =>
        obtain ⟨st2x, evsx⟩ := p
        simp only [hlog, Except.ok.injEq, Prod.mk.injEq] at h
        obtain ⟨h1, h2⟩ := h
        subst h1
        subst h2
        have hr1 := iouStepEvent_reserved km cfg hstep
        cases hev : iouStepEvent cfg st c with
        | none =>
          have hnd1 : st1.reserved.Nodup := by
            rw [hr1, hev]
            simpa using hnd
          have hrec := ih st1 st2x evsx hlog hnd1
          rw [hr1, hev] at hrec
          simpa [List.filterMap_cons] using hrec
        | some i =>
          obtain ⟨hi, hres, _⟩ := iouStepEvent_some_objects km cfg hstep hev
          subst hi
          have hnd1 : st1.reserved.Nodup := by
            rw [hr1, hev]
            simp [List.nodup_append, hnd, hres]
          have hrec := ih st1 st2x evsx hlog hnd1
          rw [hr1, hev] at hrec
          simpa [List.filterMap_cons, List.append_assoc] using hrec

/-- C4: the claim as stated is false.  Both detections `wDetA` (distance 10)
and `wDetB` (distance 20) have best-match id 7; `wDetA` is popped first but
fails the acceptance gate, so it does NOT claim track 7 (it is registered
as a new track), and the LATER popped `wDetB` updates track 7 instead of
being registered: the registered ids are `[11]` and the reservation set is
`[7]` claimed by `wDetB`. -/
theorem C4_counterexample :
    sortByDistance (simpleCandidates wSqrt (simplePrep idKalman [(7, wTrackT)]) [wDetA, wDetB])
      = [⟨wDetA, 7, 10⟩, ⟨wDetB, 7, 20⟩] ∧
    ((simpleProcessQueue idKalman ⟨5, 75⟩
        ⟨simplePrep idKalman [(7, wTrackT)], [], [], []⟩
        [⟨wDetA, 7, 10⟩, ⟨wDetB, 7, 20⟩]).map
      (fun st => (keys st.blobsToRegister, st.reserved))) = .ok ([11], [7]) := by
  constructor
  · norm_num [sortByDistance, simpleCandidates, bestMatch, insertAscByDistance, simplePrep,
      SimpleBlob.deactivate, SimpleBlob.predictNextPosition, SimpleBlob.distanceTo,
      euclideanDistance, idKalman, wSqrt, wTrackT, wDetA, wDetB, mathMaxFloat64, minFloat64,
      List.foldl_cons, List.foldl_nil, List.foldr_cons, List.foldr_nil]
  · norm_num [simpleProcessQueue, simpleProcessStep, lookupKey, setKey, keys,
      SimpleBlob.update, SimpleBlob.setID, idKalman, wTrackT, wDetA, wDetB,
      simplePrep, SimpleBlob.deactivate, SimpleBlob.predictNextPosition, minFloat64,
      Except.map, List.map_cons, List.map_nil]

/-- C4 (amended): within one `MatchObjects` call of either single-stage
greedy tracker no two detections update the same existing track id — the
per-candidate update events of the pop loop carry pairwise distinct track
ids, which are exactly the reservation set; a candidate updates a track
only when its best-match id is unreserved and it passes the
gate/threshold (claiming = reserving the id), and every candidate popped
while its best-match id is already reserved is registered as a brand-new
track.  (The first candidate popped for an id claims it only if it passes
the gate; a gate-failing first candidate leaves the id open for a later
one — see the counterexample.) -/
theorem C4_first_claim_wins :
    (∀ (F : Type) (km : KalmanModel F) (cfg : SimpleTrackerCfg)
        (objs : Store (SimpleBlob F)) (q : List (DistanceBlob F))
        (st2 : SimpleLoopState F) (evs : List (Option UUID)),
      simpleProcessQueueLog km cfg ⟨objs, [], [], []⟩ q = .ok (st2, evs) →
      (evs.filterMap id).Nodup ∧ st2.reserved = evs.filterMap id) ∧
    (∀ (F : Type) (km : KalmanModel F) (cfg : SimpleTrackerCfg)
        (st : SimpleLoopState F) (q : List (DistanceBlob F)),
      (simpleProcessQueueLog km cfg st q).map Prod.fst = simpleProcessQueue km cfg st q) ∧
    (∀ (F : Type) (km : KalmanModel F) (cfg : SimpleTrackerCfg)
        (st st1 : SimpleLoopState F) (c : DistanceBlob F) (i : UUID),
      simpleProcessStep km cfg st c = .ok st1 → simpleStepEvent cfg st c = some i →
      i = c.id ∧ c.id ∉ st.reserved ∧
      ∃ b0 b1, lookupKey st.objects c.id = some b0 ∧
        b0.update km c.underlying = some b1 ∧ st1.objects = setKey st.objects c.id b1) ∧
    (∀ (F : Type) (km : KalmanModel F) (cfg : SimpleTrackerCfg)
        (st st1 : SimpleLoopState F) (c : DistanceBlob F),
      simpleProcessStep km cfg st c = .ok st1 → simpleStepEvent cfg st c = none →
      st1.objects = st.objects) ∧
    (∀ (F : Type) (km : KalmanModel F) (cfg : SimpleTrackerCfg)
        (st st1 : SimpleLoopState F) (c : DistanceBlob F),
      c.id ∈ st.reserved → simpleProcessStep km cfg st c = .ok st1 →
      st1.objects = st.objects ∧ st1.reserved = st.reserved ∧
      st1.blobsToRegister = setKey st.blobsToRegister c.underlying.id c.underlying) ∧
    (∀ (F : Type) (km : KalmanModel F) (cfg : IoUTrackerCfg)
        (objs : Store (SimpleBlob F)) (q : List (IoUDistanceBlob F))
        (st2 : IoULoopState F) (evs : List (Option UUID)),
      iouProcessQueueLog km cfg ⟨objs, [], [], []⟩ q = .ok (st2, evs) →
      (evs.filterMap id).Nodup ∧ st2.reserved = evs.filterMap id) ∧
    (∀ (F : Type) (km : KalmanModel F) (cfg : IoUTrackerCfg)
        (st : IoULoopState F) (q : List (IoUDistanceBlob F)),
      (iouProcessQueueLog km cfg st q).map Prod.fst = iouProcessQueue km cfg st q) ∧
    (∀ (F : Type) (km : KalmanModel F) (cfg : IoUTrackerCfg)
        (st st1 : IoULoopState F) (c : IoUDistanceBlob F) (i : UUID),
      iouProcessStep km cfg st c = .ok st1 → iouStepEvent cfg st c = some i →
      i = c.minID ∧ c.minID ∉ st.reserved ∧
      ∃ b0 b1, lookupKey st.objects c.minID = some b0 ∧
        (b0.predictNextPosition km).update km c.blob = some b1 ∧
        st1.objects = setKey st.objects c.minID b1.resetNoMatch) ∧
    (∀ (F : Type) (km : KalmanModel F) (cfg : IoUTrackerCfg)
        (st st1 : IoULoopState F) (c : IoUDistanceBlob F),
      iouProcessStep km cfg st c = .ok st1 → iouStepEvent cfg st c = none →
      st1.objects = st.objects) ∧
    (∀ (F : Type) (km : KalmanModel F) (cfg : IoUTrackerCfg)
        (st st1 : IoULoopState F) (c : IoUDistanceBlob F),
      c.minID ∈ st.reserved → iouProcessStep km cfg st c = .ok st1 →
      st1.objects = st.objects ∧ st1.reserved = st.reserved ∧
      st1.blobsToRegister = setKey st.blobsToRegister c.blob.id c.blob) := by
  refine ⟨?_, ?_, ?_, ?_, ?_, ?_, ?_, ?_, ?_, ?_⟩
  · intro F km cfg objs q st2 evs hlog
    have hnd := simpleProcessQueueLog_nodup km cfg q ⟨objs, [], [], []⟩ st2 evs hlog
      (by simp)
    have hr := simpleProcessQueueLog_reserved km cfg q ⟨objs, [], [], []⟩ st2 evs hlog
    simp only [List.nil_append] at hnd hr
    exact ⟨hnd, hr⟩
  · intro F km cfg st q
    exact simpleProcessQueueLog_fst km cfg q st
  · intro F km cfg st st1 c i hstep hev
    exact simpleStepEvent_some_objects km cfg hstep hev
  · intro F km cfg st st1 c hstep hev
    exact simpleStepEvent_none_objects km cfg hstep hev
  · intro F km cfg st st1 c hres hstep
    exact simpleReserved_step_register km cfg hres hstep
  · intro F km cfg objs q st2 evs hlog
    have hnd := iouProcessQueueLog_nodup km cfg q ⟨objs, [], [], []⟩ st2 evs hlog
      (by simp)
    have hr := iouProcessQueueLog_reserved km cfg q ⟨objs, [], [], []⟩ st2 evs hlog
    simp only [List.nil_append] at hnd hr
    exact ⟨hnd, hr⟩
  · intro F km cfg st q
    exact iouProcessQueueLog_fst km cfg q st
  · intro F km cfg st st1 c i hstep hev
    exact iouStepEvent_some_objects km cfg hstep hev
  · intro F km cfg st st1 c hstep hev
    exact iouStepEvent_none_objects km cfg hstep hev
  · intro F km cfg st st1 c hres hstep
    exact iouReserved_step_register km cfg hres hstep

/-- Witness for C4 at a concrete loop run: two candidates compete for
track 7; the event log is `[none, some 7]`, its updated ids `[7]` are
pairwise distinct and equal the reservation set. -/
theorem C4_first_claim_wins_witness :
    simpleProcessQueueLog idKalman ⟨5, 75⟩ ⟨[(7, wTrackPrep)], [], [], []⟩
        [⟨wDetA, 7, 10⟩, ⟨wDetB, 7, 20⟩] = .ok (wLogSt2, [none, some 7]) ∧
    (([none, some 7].filterMap (id : Option UUID → Option UUID)).Nodup ∧
      wLogSt2.reserved = [none, some 7].filterMap (id : Option UUID → Option UUID)) := by
  have hrun : simpleProcessQueueLog idKalman ⟨5, 75⟩ ⟨[(7, wTrackPrep)], [], [], []⟩
      [⟨wDetA, 7, 10⟩, ⟨wDetB, 7, 20⟩] = .ok (wLogSt2, [none, some 7]) := by
    norm_num [simpleProcessQueueLog, simpleProcessStep, simpleStepEvent, lookupKey, setKey,
      SimpleBlob.update, SimpleBlob.setID, idKalman, wTrackPrep, wDetA, wDetB, wLogSt2,
      wTrackUpd, minFloat64]
  exact ⟨hrun,
    C4_first_claim_wins.1 Point idKalman ⟨5, 75⟩ [(7, wTrackPrep)]
      [⟨wDetA, 7, 10⟩, ⟨wDetB, 7, 20⟩] wLogSt2 [none, some 7] hrun⟩

/-! ## Theorems: eviction timing on detection-free frames (C3) -/

theorem lookupKey_map_fst {β : Type} (h : UUID × β → UUID × β)
    (hfst : ∀ p, (h p).1 = p.1) (s : Store β) (i : UUID) :
    lookupKey (s.map h) i = (lookupKey s i).map (fun b => (h (i, b)).2) := by
  induction s with
  | nil => simp [lookupKey]
  | cons p s ih =>
    obtain ⟨k, c⟩ := p
    rw [List.map_cons]
    have hpair : h (k, c) = ((h (k, c)).1, (h (k, c)).2) := rfl
    by_cases hk : k = i
    · subst hk
      rw [hpair]
      simp [lookupKey, hfst (k, c)]
    · rw [hpair]
      simp [lookupKey, hfst (k, c), hk, ih]

theorem keys_map_fst {β : Type} (h : UUID × β → UUID × β)
    (hfst : ∀ p, (h p).1 = p.1) (s : Store β) :
    keys (s.map h) = keys s := by
  induction s with
  | nil => rfl
  | cons p s ih =>
    rw [List.map_cons, keys_cons]
    have hpair : h p = ((h p).1, (h p).2) := rfl
    rw [hpair, keys_cons, hfst p, ih]

theorem keys_filter_sublist {β : Type} (q : UUID × β → Bool) (s : Store β) :
    (keys (s.filter q)).Sublist (keys s) :=
  (List.filter_sublist s).map Prod.fst

theorem simpleMatchObjects_nil {F : Type} (sq : ℚ → ℚ) (km : KalmanModel F)
    (cfg : SimpleTrackerCfg) (objects : Store (SimpleBlob F)) :
    simpleMatchObjects sq km cfg objects [] = .ok (simpleEmptyFrame km cfg objects, []) := rfl

theorem iouMatchObjects_nil {F : Type} (sq : ℚ → ℚ) (km : KalmanModel F)
    (cfg : IoUTrackerCfg) (objects : Store (SimpleBlob F)) :
    iouMatchObjects sq km cfg objects [] = .ok (iouEmptyFrame km cfg objects, []) := by
  unfold iouMatchObjects iouEmptyFrame
  have hmap :
      (objects.map (fun p => (p.1, p.2.deactivate))).map
          (fun p => if p.1 ∈ ([] : List UUID) then p
                    else (p.1, (p.2.predictNextPosition km).incNoMatch)) =
      (objects.map (fun p => (p.1, p.2.deactivate))).map
          (fun p => (p.1, (p.2.predictNextPosition km).incNoMatch)) := by
    apply List.map_congr_left
    intro p _
    simp
  simp only [List.map_nil, List.foldl_nil, hmap]
  rfl

theorem byteRun_nil {F : Type} (km : KalmanModel F) (cfg : ByteTrackerCfg)
    (solver : List (List ℚ) → List (ℕ × ℕ)) (objects : Store (SimpleBlob F)) :
    byteMatchObjects km cfg solver objects [] [] = .ok (byteEmptyFrame km cfg objects, []) := by
  unfold byteMatchObjects byteRun byteEmptyFrame
  have hmap :
      (objects.map (fun p => (p.1, p.2.predictNextPosition km))).map
          (fun p => if p.1 ∈ ([] : List UUID) then p else (p.1, p.2.incNoMatch)) =
      (objects.map (fun p => (p.1, p.2.predictNextPosition km))).map
          (fun p => (p.1, p.2.incNoMatch)) := by
    apply List.map_congr_left
    intro p _
    simp
  simp [List.range_zero, List.filter_nil, hmap, Except.map]

theorem simpleEmptyFrame_lookup {F : Type} (km : KalmanModel F) (cfg : SimpleTrackerCfg)
    {objects : Store (SimpleBlob F)} (hnd : (keys objects).Nodup) {i : UUID}
    {b : SimpleBlob F} (hb : lookupKey objects i = some b) :
    if b.noMatchTimes + 1 > cfg.maxNoMatch
    then lookupKey (simpleEmptyFrame km cfg objects) i = none
    else ∃ b', lookupKey (simpleEmptyFrame km cfg objects) i = some b' ∧
      b'.noMatchTimes = b.noMatchTimes + 1 := by
  unfold simpleEmptyFrame simpleCleanup simplePrep
  have h1 : lookupKey (objects.map
      (fun p => (p.1, (p.2.deactivate).predictNextPosition km))) i =
      some ((b.deactivate).predictNextPosition km) := by
    rw [lookupKey_map_fst
      (fun p : UUID × SimpleBlob F => (p.1, (p.2.deactivate).predictNextPosition km))
      (fun p => rfl), hb]
    rfl
  have h2 : lookupKey ((objects.map
      (fun p => (p.1, (p.2.deactivate).predictNextPosition km))).map
      (fun p => (p.1, p.2.incNoMatch))) i =
      some (((b.deactivate).predictNextPosition km).incNoMatch) := by
    rw [lookupKey_map_fst
      (fun p : UUID × SimpleBlob F => (p.1, p.2.incNoMatch)) (fun p => rfl), h1]
    rfl
  have hnd2 : (keys ((objects.map
      (fun p => (p.1, (p.2.deactivate).predictNextPosition km))).map
      (fun p => (p.1, p.2.incNoMatch)))).Nodup := by
    rw [keys_map_fst (fun p : UUID × SimpleBlob F => (p.1, p.2.incNoMatch)) (fun p => rfl),
      keys_map_fst
        (fun p : UUID × SimpleBlob F => (p.1, (p.2.deactivate).predictNextPosition km))
        (fun p => rfl)]
    exact hnd
  have h3 := lookupKey_filter
    (fun p => !(p.2.noMatchTimes > cfg.maxNoMatch)) hnd2 h2
  have hcount : (((b.deactivate).predictNextPosition km).incNoMatch).noMatchTimes
      = b.noMatchTimes + 1 := rfl
  by_cases hc : b.noMatchTimes + 1 > cfg.maxNoMatch
  · rw [if_pos hc]
    rw [h3, if_neg]
    simp only [Bool.not_eq_true', decide_eq_false_iff_not, Decidable.not_not]
    rw [hcount]
    exact hc
  · rw [if_neg hc]
    refine ⟨((b.deactivate).predictNextPosition km).incNoMatch, ?_, hcount⟩
    rw [h3, if_pos]
    simp only [Bool.not_eq_true', decide_eq_false_iff_not]
    rw [hcount]
    exact hc

theorem lookupKey_none_iff {β : Type} (s : Store β) (i : UUID) :
    lookupKey s i = none ↔ i ∉ keys s := by
  constructor
  · intro h hmem
    have := (lookupKey_isSome_iff_mem s i).mpr hmem
    rw [h] at this
    simp at this
  · exact lookupKey_eq_none_of_not_mem

theorem keys_simpleEmptyFrame {F : Type} (km : KalmanModel F) (cfg : SimpleTrackerCfg)
    (objects : Store (SimpleBlob F)) :
    (keys (simpleEmptyFrame km cfg objects)).Sublist (keys objects) := by
  unfold simpleEmptyFrame simpleCleanup simplePrep
  have h := keys_filter_sublist
    (fun p => !(p.2.noMatchTimes > cfg.maxNoMatch))
    ((objects.map (fun p => (p.1, (p.2.deactivate).predictNextPosition km))).map
      (fun p => (p.1, p.2.incNoMatch)))
  rw [keys_map_fst (fun p : UUID × SimpleBlob F => (p.1, p.2.incNoMatch)) (fun p => rfl),
    keys_map_fst
      (fun p : UUID × SimpleBlob F => (p.1, (p.2.deactivate).predictNextPosition km))
      (fun p => rfl)] at h
  exact h

theorem keys_iouEmptyFrame {F : Type} (km : KalmanModel F) (cfg : IoUTrackerCfg)
    (objects : Store (SimpleBlob F)) :
    (keys (iouEmptyFrame km cfg objects)).Sublist (keys objects) := by
  unfold iouEmptyFrame
  have h := keys_filter_sublist
    (fun p => !(p.2.noMatchTimes > cfg.maxNoMatch))
    ((objects.map (fun p => (p.1, p.2.deactivate))).map
      (fun p => (p.1, (p.2.predictNextPosition km).incNoMatch)))
  rw [keys_map_fst
      (fun p : UUID × SimpleBlob F => (p.1, (p.2.predictNextPosition km).incNoMatch))
      (fun p => rfl),
    keys_map_fst (fun p : UUID × SimpleBlob F => (p.1, p.2.deactivate)) (fun p => rfl)] at h
  exact h

theorem keys_byteEmptyFrame {F : Type} (km : KalmanModel F) (cfg : ByteTrackerCfg)
    (objects : Store (SimpleBlob F)) :
    (keys (byteEmptyFrame km cfg objects)).Sublist (keys objects) := by
  unfold byteEmptyFrame
  have h := keys_filter_sublist
    (fun p => !(p.2.noMatchTimes ≥ cfg.maxDisappeared))
    ((objects.map (fun p => (p.1, p.2.predictNextPosition km))).map
      (fun p => (p.1, p.2.incNoMatch)))
  rw [keys_map_fst (fun p : UUID × SimpleBlob F => (p.1, p.2.incNoMatch)) (fun p => rfl),
    keys_map_fst (fun p : UUID × SimpleBlob F => (p.1, p.2.predictNextPosition km))
      (fun p => rfl)] at h
  exact h

theorem simpleEmptyFrames_not_mem {F : Type} (km : KalmanModel F) (cfg : SimpleTrackerCfg) :
    ∀ (k : ℕ) (objects : Store (SimpleBlob F)) (i : UUID), i ∉ keys objects →
      lookupKey (simpleEmptyFrames km cfg objects k) i = none := by
  intro k
  induction k with
  | zero => intro objects i h; exact lookupKey_eq_none_of_not_mem h
  | succ k ih =>
    intro objects i h
    exact ih (simpleEmptyFrame km cfg objects) i
      (fun hmem => h ((keys_simpleEmptyFrame km cfg objects).mem hmem))

theorem iouEmptyFrames_not_mem {F : Type} (km : KalmanModel F) (cfg : IoUTrackerCfg) :
    ∀ (k : ℕ) (objects : Store (SimpleBlob F)) (i : UUID), i ∉ keys objects →
      lookupKey (iouEmptyFrames km cfg objects k) i = none := by
  intro k
  induction k with
  | zero => intro objects i h; exact lookupKey_eq_none_of_not_mem h
  | succ k ih =>
    intro objects i h
    exact ih (iouEmptyFrame km cfg objects) i
      (fun hmem => h ((keys_iouEmptyFrame km cfg objects).mem hmem))

theorem byteEmptyFrames_not_mem {F : Type} (km : KalmanModel F) (cfg : ByteTrackerCfg) :
    ∀ (k : ℕ) (objects : Store (SimpleBlob F)) (i : UUID), i ∉ keys objects →
      lookupKey (byteEmptyFrames km cfg objects k) i = none := by
  intro k
  induction k with
  | zero => intro objects i h; exact lookupKey_eq_none_of_not_mem h
  | succ k ih =>
    intro objects i h
    exact ih (byteEmptyFrame km cfg objects) i
      (fun hmem => h ((keys_byteEmptyFrame km cfg objects).mem hmem))

theorem simpleEmptyFrames_lookup {F : Type} (km : KalmanModel F) (cfg : SimpleTrackerCfg) :
    ∀ (k : ℕ) (objects : Store (SimpleBlob F)), (keys objects).Nodup →
      ∀ (i : UUID) (b : SimpleBlob F), lookupKey objects i = some b →
      b.noMatchTimes ≤ cfg.maxNoMatch →
      if b.noMatchTimes + (k : ℤ) ≤ cfg.maxNoMatch
      then ∃ b', lookupKey (simpleEmptyFrames km cfg objects k) i = some b' ∧
             b'.noMatchTimes = b.noMatchTimes + (k : ℤ)
      else lookupKey (simpleEmptyFrames km cfg objects k) i = none := by
  intro k
  induction k with
  | zero =>
    intro objects hnd i b hb hle
    rw [if_pos (by push_cast; omega)]
    exact ⟨b, hb, by push_cast; ring⟩
  | succ k ih =>
    intro objects hnd i b hb hle
    have hstep := simpleEmptyFrame_lookup km cfg hnd hb
    have hframes : simpleEmptyFrames km cfg objects (k + 1)
        = simpleEmptyFrames km cfg (simpleEmptyFrame km cfg objects) k := rfl
    by_cases hc : b.noMatchTimes + 1 > cfg.maxNoMatch
    · rw [if_pos hc] at hstep
      rw [if_neg (by push_cast; omega), hframes]
      exact simpleEmptyFrames_not_mem km cfg k _ i ((lookupKey_none_iff _ _).mp hstep)
    · rw [if_neg hc] at hstep
      obtain ⟨b1, hb1, hcnt⟩ := hstep
      have hnd1 : (keys (simpleEmptyFrame km cfg objects)).Nodup :=
        hnd.sublist (keys_simpleEmptyFrame km cfg objects)
      have hrec := ih (simpleEmptyFrame km cfg objects) hnd1 i b1 hb1 (by omega)
      rw [hcnt] at hrec
      rw [hframes]
      by_cases hcc : b.noMatchTimes + ((k : ℤ) + 1) ≤ cfg.maxNoMatch
      · rw [if_pos (by push_cast; omega)]
        rw [if_pos (by omega)] at hrec
        obtain ⟨b2, hb2, hcnt2⟩ := hrec
        exact ⟨b2, hb2, by rw [hcnt2]; push_cast; ring⟩
      · rw [if_neg (by push_cast; omega)]
        rw [if_neg (by omega)] at hrec
        exact hrec

theorem iouEmptyFrame_lookup {F : Type} (km : KalmanModel F) (cfg : IoUTrackerCfg)
    {objects : Store (SimpleBlob F)} (hnd : (keys objects).Nodup) {i : UUID}
    {b : SimpleBlob F} (hb : lookupKey objects i = some b) :
    if b.noMatchTimes + 1 > cfg.maxNoMatch
    then lookupKey (iouEmptyFrame km cfg objects) i = none
    else ∃ b', lookupKey (iouEmptyFrame km cfg objects) i = some b' ∧
      b'.noMatchTimes = b.noMatchTimes + 1 := by
  unfold iouEmptyFrame
  have h1 : lookupKey (objects.map (fun p => (p.1, p.2.deactivate))) i
      = some b.deactivate := by
    rw [lookupKey_map_fst (fun p : UUID × SimpleBlob F => (p.1, p.2.deactivate))
      (fun p => rfl), hb]
    rfl
  have h2 : lookupKey ((objects.map (fun p => (p.1, p.2.deactivate))).map
      (fun p => (p.1, (p.2.predictNextPosition km).incNoMatch))) i =
      some ((b.deactivate.predictNextPosition km).incNoMatch) := by
    rw [lookupKey_map_fst
      (fun p : UUID × SimpleBlob F => (p.1, (p.2.predictNextPosition km).incNoMatch))
      (fun p => rfl), h1]
    rfl
  have hnd2 : (keys ((objects.map (fun p => (p.1, p.2.deactivate))).map
      (fun p => (p.1, (p.2.predictNextPosition km).incNoMatch)))).Nodup := by
    rw [keys_map_fst
        (fun p : UUID × SimpleBlob F => (p.1, (p.2.predictNextPosition km).incNoMatch))
        (fun p => rfl),
      keys_map_fst (fun p : UUID × SimpleBlob F => (p.1, p.2.deactivate)) (fun p => rfl)]
    exact hnd
  have h3 := lookupKey_filter
    (fun p => !(p.2.noMatchTimes > cfg.maxNoMatch)) hnd2 h2
  have hcount : ((b.deactivate.predictNextPosition km).incNoMatch).noMatchTimes
      = b.noMatchTimes + 1 := rfl
  by_cases hc : b.noMatchTimes + 1 > cfg.maxNoMatch
  · rw [if_pos hc]
    rw [h3, if_neg]
    simp only [Bool.not_eq_true', decide_eq_false_iff_not, Decidable.not_not]
    rw [hcount]
    exact hc
  · rw [if_neg hc]
    refine ⟨(b.deactivate.predictNextPosition km).incNoMatch, ?_, hcount⟩
    rw [h3, if_pos]
    simp only [Bool.not_eq_true', decide_eq_false_iff_not]
    rw [hcount]
    exact hc

theorem byteEmptyFrame_lookup {F : Type} (km : KalmanModel F) (cfg : ByteTrackerCfg)
    {objects : Store (SimpleBlob F)} (hnd : (keys objects).Nodup) {i : UUID}
    {b : SimpleBlob F} (hb : lookupKey objects i = some b) :
    if b.noMatchTimes + 1 ≥ cfg.maxDisappeared
    then lookupKey (byteEmptyFrame km cfg objects) i = none
    else ∃ b', lookupKey (byteEmptyFrame km cfg objects) i = some b' ∧
      b'.noMatchTimes = b.noMatchTimes + 1 := by
  unfold byteEmptyFrame
  have h1 : lookupKey (objects.map (fun p => (p.1, p.2.predictNextPosition km))) i
      = some (b.predictNextPosition km) := by
    rw [lookupKey_map_fst (fun p : UUID × SimpleBlob F => (p.1, p.2.predictNextPosition km))
      (fun p => rfl), hb]
    rfl
  have h2 : lookupKey ((objects.map (fun p => (p.1, p.2.predictNextPosition km))).map
      (fun p => (p.1, p.2.incNoMatch))) i =
      some ((b.predictNextPosition km).incNoMatch) := by
    rw [lookupKey_map_fst (fun p : UUID × SimpleBlob F => (p.1, p.2.incNoMatch))
      (fun p => rfl), h1]
    rfl
  have hnd2 : (keys ((objects.map (fun p => (p.1, p.2.predictNextPosition km))).map
      (fun p => (p.1, p.2.incNoMatch)))).Nodup := by
    rw [keys_map_fst (fun p : UUID × SimpleBlob F => (p.1, p.2.incNoMatch)) (fun p => rfl),
      keys_map_fst (fun p : UUID × SimpleBlob F => (p.1, p.2.predictNextPosition km))
        (fun p => rfl)]
    exact hnd
  have h3 := lookupKey_filter
    (fun p => !(p.2.noMatchTimes ≥ cfg.maxDisappeared)) hnd2 h2
  have hcount : ((b.predictNextPosition km).incNoMatch).noMatchTimes
      = b.noMatchTimes + 1 := rfl
  by_cases hc : b.noMatchTimes + 1 ≥ cfg.maxDisappeared
  · rw [if_pos hc]
    rw [h3, if_neg]
    simp only [Bool.not_eq_true', decide_eq_false_iff_not, Decidable.not_not]
    rw [hcount]
    exact hc
  · rw [if_neg hc]
    refine ⟨(b.predictNextPosition km).incNoMatch, ?_, hcount⟩
    rw [h3, if_pos]
    simp only [Bool.not_eq_true', decide_eq_false_iff_not]
    rw [hcount]
    exact hc

theorem iouEmptyFrames_lookup {F : Type} (km : KalmanModel F) (cfg : IoUTrackerCfg) :
    ∀ (k : ℕ) (objects : Store (SimpleBlob F)), (keys objects).Nodup →
      ∀ (i : UUID) (b : SimpleBlob F), lookupKey objects i = some b →
      b.noMatchTimes ≤ cfg.maxNoMatch →
      if b.noMatchTimes + (k : ℤ) ≤ cfg.maxNoMatch
      then ∃ b', lookupKey (iouEmptyFrames km cfg objects k) i = some b' ∧
             b'.noMatchTimes = b.noMatchTimes + (k : ℤ)
      else lookupKey (iouEmptyFrames km cfg objects k) i = none := by
  intro k
  induction k with
  | zero =>
    intro objects hnd i b hb hle
    rw [if_pos (by push_cast; omega)]
    exact ⟨b, hb, by push_cast; ring⟩
  | succ k ih =>
    intro objects hnd i b hb hle
    have hstep := iouEmptyFrame_lookup km cfg hnd hb
    have hframes : iouEmptyFrames km cfg objects (k + 1)
        = iouEmptyFrames km cfg (iouEmptyFrame km cfg objects) k := rfl
    by_cases hc : b.noMatchTimes + 1 > cfg.maxNoMatch
    · rw [if_pos hc] at hstep
      rw [if_neg (by push_cast; omega), hframes]
      exact iouEmptyFrames_not_mem km cfg k _ i ((lookupKey_none_iff _ _).mp hstep)
    · rw [if_neg hc] at hstep
      obtain ⟨b1, hb1, hcnt⟩ := hstep
      have hnd1 : (keys (iouEmptyFrame km cfg objects)).Nodup :=
        hnd.sublist (keys_iouEmptyFrame km cfg objects)
      have hrec := ih (iouEmptyFrame km cfg objects) hnd1 i b1 hb1 (by omega)
      rw [hcnt] at hrec
      rw [hframes]
      by_cases hcc : b.noMatchTimes + ((k : ℤ) + 1) ≤ cfg.maxNoMatch
      · rw [if_pos (by push_cast; omega)]
        rw [if_pos (by omega)] at hrec
        obtain ⟨b2, hb2, hcnt2⟩ := hrec
        exact ⟨b2, hb2, by rw [hcnt2]; push_cast; ring⟩
      · rw [if_neg (by push_cast; omega)]
        rw [if_neg (by omega)] at hrec
        exact hrec

theorem byteEmptyFrames_lookup {F : Type} (km : KalmanModel F) (cfg : ByteTrackerCfg) :
    ∀ (k : ℕ) (objects : Store (SimpleBlob F)), (keys objects).Nodup →
      ∀ (i : UUID) (b : SimpleBlob F), lookupKey objects i = some b →
      b.noMatchTimes < cfg.maxDisappeared →
      if b.noMatchTimes + (k : ℤ) < cfg.maxDisappeared
      then ∃ b', lookupKey (byteEmptyFrames km cfg objects k) i = some b' ∧
             b'.noMatchTimes = b.noMatchTimes + (k : ℤ)
      else lookupKey (byteEmptyFrames km cfg objects k) i = none := by
  intro k
  induction k with
  | zero =>
    intro objects hnd i b hb hle
    rw [if_pos (by push_cast; omega)]
    exact ⟨b, hb, by push_cast; ring⟩
  | succ k ih =>
    intro objects hnd i b hb hle
    have hstep := byteEmptyFrame_lookup km cfg hnd hb
    have hframes : byteEmptyFrames km cfg objects (k + 1)
        = byteEmptyFrames km cfg (byteEmptyFrame km cfg objects) k := rfl
    by_cases hc : b.noMatchTimes + 1 ≥ cfg.maxDisappeared
    · rw [if_pos hc] at hstep
      rw [if_neg (by push_cast; omega), hframes]
      exact byteEmptyFrames_not_mem km cfg k _ i ((lookupKey_none_iff _ _).mp hstep)
    · rw [if_neg hc] at hstep
      obtain ⟨b1, hb1, hcnt⟩ := hstep
      have hnd1 : (keys (byteEmptyFrame km cfg objects)).Nodup :=
        hnd.sublist (keys_byteEmptyFrame km cfg objects)
      have hrec := ih (byteEmptyFrame km cfg objects) hnd1 i b1 hb1 (by omega)
      rw [hcnt] at hrec
      rw [hframes]
      by_cases hcc : b.noMatchTimes + ((k : ℤ) + 1) < cfg.maxDisappeared
      · rw [if_pos (by push_cast; omega)]
        rw [if_pos (by omega)] at hrec
        obtain ⟨b2, hb2, hcnt2⟩ := hrec
        exact ⟨b2, hb2, by rw [hcnt2]; push_cast; ring⟩
      · rw [if_neg (by push_cast; omega)]
        rw [if_neg (by omega)] at hrec
        exact hrec

/-- C3: the claim as stated is false for the nearest-centroid tracker.
With `maxMiss = 1`, a track that receives a matching detection leaves that
very frame with `missCount = 1` (reset by the update, then the
unconditional end-of-frame increment), so after exactly ONE further
detection-free frame — exactly `maxMiss` consecutive missed frames — its
count is 2 > 1 and it is already evicted, not "still present". -/
theorem C3_counterexample :
    ((simpleMatchObjects wSqrt idKalman ⟨30, 1⟩ [(7, wTrackT)] [wDetB]).map Prod.fst)
      = .ok [(7, wTrackMissed1)] ∧
    wTrackMissed1.noMatchTimes = 1 ∧
    ((simpleMatchObjects wSqrt idKalman ⟨30, 1⟩ [(7, wTrackMissed1)] []).map Prod.fst)
      = .ok [] := by
  refine ⟨?_, rfl, ?_⟩
  · norm_num [simpleMatchObjects, simplePrep, simpleCandidates, bestMatch, sortByDistance,
      insertAscByDistance, simpleProcessQueue, simpleProcessStep, simpleRegister,
      simpleCleanup, setKey, lookupKey, SimpleBlob.distanceTo, euclideanDistance,
      SimpleBlob.deactivate, SimpleBlob.predictNextPosition, SimpleBlob.update,
      SimpleBlob.incNoMatch, SimpleBlob.setID, idKalman, wSqrt, wTrackT, wDetB,
      wTrackMissed1, mathMaxFloat64, minFloat64, List.foldl_cons, List.foldl_nil,
      List.foldr_cons, List.foldr_nil, Except.map]
  · rw [simpleMatchObjects_nil]
    norm_num [simpleEmptyFrame, simpleCleanup, simplePrep, SimpleBlob.deactivate,
      SimpleBlob.predictNextPosition, SimpleBlob.incNoMatch, idKalman, wTrackMissed1,
      Except.map]

/-- C3 (amended): on detection-free frames each tracker advances every
stored track's miss counter by one and evicts past its budget, with the
per-tracker off-by-one behaviour made explicit.  IoU tracker: a track that
left its matching frame at `missCount = 0` is still present after exactly
`maxMiss` detection-free frames and absent after `maxMiss + 1`, as the
claim states.  SimpleTracker: an updated track leaves its matching frame
at `missCount = 1` (unconditional end-of-frame increment), so it is
present after `k` detection-free frames iff `k + 1 ≤ maxMiss` — absent
already after exactly `maxMiss` misses.  ByteTracker: eviction fires at
`missCount ≥ maxDisappeared`, so a track that left its matching frame at 0
is present iff `k < maxDisappeared` — absent after exactly
`maxDisappeared` misses. -/
theorem C3_eviction :
    (∀ (F : Type) (sq : ℚ → ℚ) (km : KalmanModel F) (cfg : SimpleTrackerCfg)
        (objects : Store (SimpleBlob F)),
      simpleMatchObjects sq km cfg objects [] = .ok (simpleEmptyFrame km cfg objects, [])) ∧
    (∀ (F : Type) (sq : ℚ → ℚ) (km : KalmanModel F) (cfg : IoUTrackerCfg)
        (objects : Store (SimpleBlob F)),
      iouMatchObjects sq km cfg objects [] = .ok (iouEmptyFrame km cfg objects, [])) ∧
    (∀ (F : Type) (km : KalmanModel F) (cfg : ByteTrackerCfg)
        (solver : List (List ℚ) → List (ℕ × ℕ)) (objects : Store (SimpleBlob F)),
      byteMatchObjects km cfg solver objects [] [] = .ok (byteEmptyFrame km cfg objects, [])) ∧
    (∀ (F : Type) (km : KalmanModel F) (cfg : IoUTrackerCfg)
        (objects : Store (SimpleBlob F)), (keys objects).Nodup →
      ∀ (i : UUID) (b : SimpleBlob F), lookupKey objects i = some b →
      b.noMatchTimes = 0 → 0 ≤ cfg.maxNoMatch →
      ∀ k : ℕ, (lookupKey (iouEmptyFrames km cfg objects k) i).isSome
        ↔ (k : ℤ) ≤ cfg.maxNoMatch) ∧
    (∀ (F : Type) (km : KalmanModel F) (cfg : SimpleTrackerCfg)
        (objects : Store (SimpleBlob F)), (keys objects).Nodup →
      ∀ (i : UUID) (b : SimpleBlob F), lookupKey objects i = some b →
      b.noMatchTimes = 1 → 1 ≤ cfg.maxNoMatch →
      ∀ k : ℕ, (lookupKey (simpleEmptyFrames km cfg objects k) i).isSome
        ↔ (k : ℤ) + 1 ≤ cfg.maxNoMatch) ∧
    (∀ (F : Type) (km : KalmanModel F) (cfg : ByteTrackerCfg)
        (objects : Store (SimpleBlob F)), (keys objects).Nodup →
      ∀ (i : UUID) (b : SimpleBlob F), lookupKey objects i = some b →
      b.noMatchTimes = 0 → 0 < cfg.maxDisappeared →
      ∀ k : ℕ, (lookupKey (byteEmptyFrames km cfg objects k) i).isSome
        ↔ (k : ℤ) < cfg.maxDisappeared) := by
  refine ⟨?_, ?_, ?_, ?_, ?_, ?_⟩
  · intro F sq km cfg objects
    exact simpleMatchObjects_nil sq km cfg objects
  · intro F sq km cfg objects
    exact iouMatchObjects_nil sq km cfg objects
  · intro F km cfg solver objects
    exact byteRun_nil km cfg solver objects
  · intro F km cfg objects hnd i b hb hzero hmax k
    have h := iouEmptyFrames_lookup km cfg k objects hnd i b hb (by omega)
    rw [hzero] at h
    by_cases hc : (0 : ℤ) + (k : ℤ) ≤ cfg.maxNoMatch
    · rw [if_pos hc] at h
      obtain ⟨b', hb', _⟩ := h
      simp only [hb', Option.isSome_some, true_iff]
      omega
    · rw [if_neg hc] at h
      simp only [h, Option.isSome_none, Bool.false_eq_true, false_iff]
      omega
  · intro F km cfg objects hnd i b hb hone hmax k
    have h := simpleEmptyFrames_lookup km cfg k objects hnd i b hb (by omega)
    rw [hone] at h
    by_cases hc : (1 : ℤ) + (k : ℤ) ≤ cfg.maxNoMatch
    · rw [if_pos hc] at h
      obtain ⟨b', hb', _⟩ := h
      simp only [hb', Option.isSome_some, true_iff]
      omega
    · rw [if_neg hc] at h
      simp only [h, Option.isSome_none, Bool.false_eq_true, false_iff]
      omega
  · intro F km cfg objects hnd i b hb hzero hmax k
    have h := byteEmptyFrames_lookup km cfg k objects hnd i b hb (by omega)
    rw [hzero] at h
    by_cases hc : (0 : ℤ) + (k : ℤ) < cfg.maxDisappeared
    · rw [if_pos hc] at h
      obtain ⟨b', hb', _⟩ := h
      simp only [hb', Option.isSome_some, true_iff]
      omega
    · rw [if_neg hc] at h
      simp only [h, Option.isSome_none, Bool.false_eq_true, false_iff]
      omega

/-- Witness for C3 at a concrete store: with `maxMiss = 2` a track that
left its matching frame at `missCount = 1` is still present after one
detection-free frame. -/
theorem C3_eviction_witness :
    (keys [(7, wTrackMissed1)]).Nodup ∧
    lookupKey [(7, wTrackMissed1)] 7 = some wTrackMissed1 ∧
    wTrackMissed1.noMatchTimes = 1 ∧ (1 : ℤ) ≤ (2 : ℤ) ∧
    ((lookupKey (simpleEmptyFrames idKalman ⟨30, 2⟩ [(7, wTrackMissed1)] 1) 7).isSome
      ↔ ((1 : ℕ) : ℤ) + 1 ≤ (2 : ℤ)) := by
  refine ⟨by simp [keys], by simp [lookupKey], rfl, by norm_num, ?_⟩
  exact C3_eviction.2.2.2.2.1 Point idKalman ⟨30, 2⟩ [(7, wTrackMissed1)]
    (by simp [keys]) 7 wTrackMissed1 (by simp [lookupKey]) rfl (by norm_num) 1

/-! ## Theorems: miss-count bookkeeping (C2) -/

theorem simpleBlob_update_count {F : Type} (km : KalmanModel F)
    {b nb b' : SimpleBlob F} (h : b.update km nb = some b') : b'.noMatchTimes = 0 := by
  cases hu : km.update b.tracker nb.currentCenter.x nb.currentCenter.y with
  | none => simp [SimpleBlob.update, hu] at h
  | some t =>
    simp only [SimpleBlob.update, hu, Option.some.injEq] at h
    subst h
    rfl

theorem keys_setKey_of_not_mem {β : Type} {s : Store β} {i : UUID} (b : β)
    (h : i ∉ keys s) : keys (setKey s i b) = keys s ++ [i] := by
  induction s with
  | nil => simp [setKey, keys]
  | cons p s ih =>
    obtain ⟨k, c⟩ := p
    rw [keys_cons, List.mem_cons] at h
    push_neg at h
    unfold setKey
    rw [if_neg (fun he => h.1 he.symm), keys_cons, keys_cons, ih h.2,
      List.cons_append]

theorem keys_setKey_nodup {β : Type} {s : Store β} (i : UUID) (b : β)
    (h : (keys s).Nodup) : (keys (setKey s i b)).Nodup := by
  by_cases hm : i ∈ keys s
  · rw [keys_setKey_of_mem b hm]
    exact h
  · rw [keys_setKey_of_not_mem b hm]
    simp [List.nodup_append, h, hm]

theorem simpleRegister_keys_nodup {F : Type} :
    ∀ (R A : Store (SimpleBlob F)), (keys A).Nodup →
      (keys (simpleRegister A R)).Nodup := by
  intro R
  induction R with
  | nil => intro A h; exact h
  | cons p R ih =>
    intro A h
    obtain ⟨j, b⟩ := p
    exact ih (setKey A j b) (keys_setKey_nodup j b h)

theorem simpleRegister_lookup_not_mem {F : Type} :
    ∀ (R A : Store (SimpleBlob F)) (i : UUID), i ∉ keys R →
      lookupKey (simpleRegister A R) i = lookupKey A i := by
  intro R
  induction R with
  | nil => intro A i _; rfl
  | cons p R ih =>
    intro A i h
    obtain ⟨j, b⟩ := p
    rw [keys_cons, List.mem_cons] at h
    push_neg at h
    unfold simpleRegister at ih ⊢
    rw [List.foldl_cons]
    rw [ih (setKey A j b) i h.2]
    exact lookupKey_setKey_ne A b h.1

theorem simpleCleanup_lookup {F : Type} (cfg : SimpleTrackerCfg)
    {A : Store (SimpleBlob F)} (hnd : (keys A).Nodup) {i : UUID} {b : SimpleBlob F}
    (hb : lookupKey A i = some b) :
    lookupKey (simpleCleanup cfg A) i =
      if b.noMatchTimes + 1 > cfg.maxNoMatch then none else some b.incNoMatch := by
  unfold simpleCleanup
  have h1 : lookupKey (A.map (fun p => (p.1, p.2.incNoMatch))) i = some b.incNoMatch := by
    rw [lookupKey_map_fst (fun p : UUID × SimpleBlob F => (p.1, p.2.incNoMatch))
      (fun p => rfl), hb]
    rfl
  have hnd1 : (keys (A.map (fun p => (p.1, p.2.incNoMatch)))).Nodup := by
    rw [keys_map_fst (fun p : UUID × SimpleBlob F => (p.1, p.2.incNoMatch)) (fun p => rfl)]
    exact hnd
  have h2 := lookupKey_filter (fun p => !(p.2.noMatchTimes > cfg.maxNoMatch)) hnd1 h1
  rw [h2]
  have hcnt : (b.incNoMatch).noMatchTimes = b.noMatchTimes + 1 := rfl
  by_cases hc : b.noMatchTimes + 1 > cfg.maxNoMatch
  · rw [if_pos hc, if_neg]
    simp only [Bool.not_eq_true', decide_eq_false_iff_not, Decidable.not_not]
    rw [hcnt]
    exact hc
  · rw [if_neg hc, if_pos]
    simp only [Bool.not_eq_true', decide_eq_false_iff_not]
    rw [hcnt]
    exact hc

theorem simpleQueue_ok_log {F : Type} (km : KalmanModel F) (cfg : SimpleTrackerCfg)
    {q : List (DistanceBlob F)} {st0 st : SimpleLoopState F}
    (h : simpleProcessQueue km cfg st0 q = .ok st) :
    ∃ evs, simpleProcessQueueLog km cfg st0 q = .ok (st, evs) := by
  have hfst := simpleProcessQueueLog_fst km cfg q st0
  cases hl : simpleProcessQueueLog km cfg st0 q with
  | error e =>
    rw [hl] at hfst
    rw [← hfst] at h
    exact Except.noConfusion h
  | ok p =>
    obtain ⟨st2, evs⟩ := p
    rw [hl] at hfst
    rw [← hfst] at h
    have : st2 = st := Except.ok.inj h
    subst this
    exact ⟨evs, rfl⟩

theorem simpleQueue_keys {F : Type} (km : KalmanModel F) (cfg : SimpleTrackerCfg) :
    ∀ (q : List (DistanceBlob F)) (st0 st : SimpleLoopState F),
      simpleProcessQueue km cfg st0 q = .ok st →
      keys st.objects = keys st0.objects := by
  intro q
  induction q with
  | nil =>
    intro st0 st h
    unfold simpleProcessQueue at h
    rw [Except.ok.inj h]
  | cons c cs ih =>
    intro st0 st h
    unfold simpleProcessQueue at h
    cases hstep : simpleProcessStep km cfg st0 c with
    | error e =>
      simp only [hstep] at h
      exact Except.noConfusion h
    | ok st1 =>
      simp only [hstep] at h
      rw [ih st1 st h, simpleProcessStep_keys km cfg hstep]

theorem simpleLog_untouched {F : Type} (km : KalmanModel F) (cfg : SimpleTrackerCfg) :
    ∀ (q : List (DistanceBlob F)) (st st2 : SimpleLoopState F) (evs : List (Option UUID)),
      simpleProcessQueueLog km cfg st q = .ok (st2, evs) →
      ∀ i, i ∉ st2.reserved → lookupKey st2.objects i = lookupKey st.objects i := by
  intro q
  induction q with
  | nil =>
    intro st st2 evs h i _
    unfold simpleProcessQueueLog at h
    simp only [Except.ok.injEq, Prod.mk.injEq] at h
    rw [h.1]
  | cons c cs ih =>
    intro st st2 evs h i hres
    unfold simpleProcessQueueLog at h
    cases hstep : simpleProcessStep km cfg st c with
    | error e =>
      simp only [hstep] at h
      exact Except.noConfusion h
    | ok st1 =>
      simp only [hstep] at h
      cases hlog : simpleProcessQueueLog km cfg st1 cs with
      | error e =>
        simp only [hlog] at h
        exact Except.noConfusion h
      | ok p =>
        obtain ⟨st2x, evsx⟩ := p
        simp only [hlog, Except.ok.injEq, Prod.mk.injEq] at h
        obtain ⟨h1, h2⟩ := h
        subst h1
        have hmono := simpleProcessQueueLog_reserved km cfg cs st1 st2x evsx hlog
        have hstep_res := simpleStepEvent_reserved km cfg hstep
        have hrec := ih st1 st2x evsx hlog i hres
        rw [hrec]
        cases hev : simpleStepEvent cfg st c with
        | none => rw [simpleStepEvent_none_objects km cfg hstep hev]
        | some j =>
          obtain ⟨hj, hjres, b0, b1, hl, hu, hobj⟩ :=
            simpleStepEvent_some_objects km cfg hstep hev
          subst hj
          rw [hobj]
          apply lookupKey_setKey_ne
          intro hij
          subst hij
          apply hres
          rw [hmono, hstep_res, hev]
          simp

theorem simpleLog_reserved_zero {F : Type} (km : KalmanModel F) (cfg : SimpleTrackerCfg) :
    ∀ (q : List (DistanceBlob F)) (st st2 : SimpleLoopState F) (evs : List (Option UUID)),
      simpleProcessQueueLog km cfg st q = .ok (st2, evs) →
      (∀ i ∈ st.reserved, ∃ v, lookupKey st.objects i = some v ∧ v.noMatchTimes = 0) →
      ∀ i ∈ st2.reserved, ∃ v, lookupKey st2.objects i = some v ∧ v.noMatchTimes = 0 := by
  intro q
  induction q with
  | nil =>
    intro st st2 evs h hinv
    unfold simpleProcessQueueLog at h
    simp only [Except.ok.injEq, Prod.mk.injEq] at h
    rw [← h.1]
    exact hinv
  | cons c cs ih =>
    intro st st2 evs h hinv
    unfold simpleProcessQueueLog at h
    cases hstep : simpleProcessStep km cfg st c with
    | error e =>
      simp only [hstep] at h
      exact Except.noConfusion h
    | ok st1 =>
      simp only [hstep] at h
      cases hlog : simpleProcessQueueLog km cfg st1 cs with
      | error e =>
        simp only [hlog] at h
        exact Except.noConfusion h
      | ok p =>
        obtain ⟨st2x, evsx⟩ := p
        simp only [hlog, Except.ok.injEq, Prod.mk.injEq] at h
        obtain ⟨h1, h2⟩ := h
        subst h1
        apply ih st1 st2x evsx hlog
        have hstep_res := simpleStepEvent_reserved km cfg hstep
        cases hev : simpleStepEvent cfg st c with
        | none =>
          rw [simpleStepEvent_none_objects km cfg hstep hev]
          rw [hstep_res, hev]
          simpa using hinv
        | some j =>
          obtain ⟨hj, hjres, b0, b1, hl, hu, hobj⟩ :=
            simpleStepEvent_some_objects km cfg hstep hev
          subst hj
          rw [hobj, hstep_res, hev]
          intro i hi
          simp only [Option.toList_some, List.mem_append, List.mem_singleton] at hi
          rcases hi with hi | hi
          · have hne : i ≠ c.id := fun he => hjres (he ▸ hi)
            rw [lookupKey_setKey_ne _ _ hne]
            exact hinv i hi
          · subst hi
            exact ⟨b1, lookupKey_setKey_self _ _ _, simpleBlob_update_count km hu⟩

theorem simpleStep_register_cases {F : Type} (km : KalmanModel F) (cfg : SimpleTrackerCfg)
    {st st1 : SimpleLoopState F} {c : DistanceBlob F}
    (hstep : simpleProcessStep km cfg st c = .ok st1) :
    st1.blobsToRegister = st.blobsToRegister ∨
    st1.blobsToRegister = setKey st.blobsToRegister c.underlying.id c.underlying := by
  unfold simpleProcessStep at hstep
  by_cases hres : c.id ∈ st.reserved
  · rw [if_pos hres] at hstep
    simp only [Except.ok.injEq] at hstep
    subst hstep
    exact Or.inr rfl
  · rw [if_neg hres] at hstep
    by_cases hgate : c.distance < c.underlying.diagonal * 0.5 ∨
        c.distance < cfg.minDistThreshold
    · rw [if_pos hgate] at hstep
      cases hl : lookupKey st.objects c.id with
      | none =>
        simp only [hl] at hstep
        exact Except.noConfusion hstep
      | some b0 =>
        simp only [hl] at hstep
        cases hu : b0.update km c.underlying with
        | none =>
          simp only [hu] at hstep
          exact Except.noConfusion hstep
        | some b1 =>
          simp only [hu, Except.ok.injEq] at hstep
          subst hstep
          exact Or.inl rfl
    · rw [if_neg hgate] at hstep
      simp only [Except.ok.injEq] at hstep
      subst hstep
      exact Or.inr rfl

theorem simpleLog_register_keys {F : Type} (km : KalmanModel F) (cfg : SimpleTrackerCfg) :
    ∀ (q : List (DistanceBlob F)) (st st2 : SimpleLoopState F) (evs : List (Option UUID)),
      simpleProcessQueueLog km cfg st q = .ok (st2, evs) →
      ∀ j ∈ keys st2.blobsToRegister,
        j ∈ keys st.blobsToRegister ∨ ∃ c ∈ q, j = c.underlying.id := by
  intro q
  induction q with
  | nil =>
    intro st st2 evs h j hj
    unfold simpleProcessQueueLog at h
    simp only [Except.ok.injEq, Prod.mk.injEq] at h
    rw [← h.1] at hj
    exact Or.inl hj
  | cons c cs ih =>
    intro st st2 evs h j hj
    unfold simpleProcessQueueLog at h
    cases hstep : simpleProcessStep km cfg st c with
    | error e =>
      simp only [hstep] at h
      exact Except.noConfusion h
    | ok st1 =>
      simp only [hstep] at h
      cases hlog : simpleProcessQueueLog km cfg st1 cs with
      | error e =>
        simp only [hlog] at h
        exact Except.noConfusion h
      | ok p =>
        obtain ⟨st2x, evsx⟩ := p
        simp only [hlog, Except.ok.injEq, Prod.mk.injEq] at h
        obtain ⟨h1, h2⟩ := h
        subst h1
        rcases ih st1 st2x evsx hlog j hj with hmem | ⟨cx, hcx, hje⟩
        · rcases simpleStep_register_cases km cfg hstep with hreg | hreg
          · rw [hreg] at hmem
            exact Or.inl hmem
          · rw [hreg, mem_keys_setKey] at hmem
            rcases hmem with hmem | hmem
            · exact Or.inl hmem
            · exact Or.inr ⟨c, List.mem_cons_self _ _, hmem⟩
        · exact Or.inr ⟨cx, List.mem_cons_of_mem _ hcx, hje⟩

theorem simpleLog_events_mem {F : Type} (km : KalmanModel F) (cfg : SimpleTrackerCfg) :
    ∀ (q : List (DistanceBlob F)) (st st2 : SimpleLoopState F) (evs : List (Option UUID)),
      simpleProcessQueueLog km cfg st q = .ok (st2, evs) →
      ∀ j, some j ∈ evs → j ∈ keys st.objects := by
  intro q
  induction q with
  | nil =>
    intro st st2 evs h j hj
    unfold simpleProcessQueueLog at h
    simp only [Except.ok.injEq, Prod.mk.injEq] at h
    rw [← h.2] at hj
    exact absurd hj (List.not_mem_nil _)
  | cons c cs ih =>
    intro st st2 evs h j hj
    unfold simpleProcessQueueLog at h
    cases hstep : simpleProcessStep km cfg st c with
    | error e =>
      simp only [hstep] at h
      exact Except.noConfusion h
    | ok st1 =>
      simp only [hstep] at h
      cases hlog : simpleProcessQueueLog km cfg st1 cs with
      | error e =>
        simp only [hlog] at h
        exact Except.noConfusion h
      | ok p =>
        obtain ⟨st2x, evsx⟩ := p
        simp only [hlog, Except.ok.injEq, Prod.mk.injEq] at h
        obtain ⟨h1, h2⟩ := h
        rw [← h2] at hj
        rw [List.mem_cons] at hj
        rcases hj with hj | hj
        · obtain ⟨hji, hres, b0, b1, hl, hu, hobj⟩ :=
            simpleStepEvent_some_objects km cfg hstep hj.symm
          subst hji
          rw [← lookupKey_isSome_iff_mem, hl]
          rfl
        · have hmem := ih st1 st2x evsx hlog j hj
          rw [simpleProcessStep_keys km cfg hstep] at hmem
          exact hmem

theorem simpleMissCount {F : Type} (sq : ℚ → ℚ) (km : KalmanModel F)
    (cfg : SimpleTrackerCfg) (objects : Store (SimpleBlob F))
    (newObjects : List (SimpleBlob F)) (final : Store (SimpleBlob F))
    (processed : List (SimpleBlob F))
    (hnd : (keys objects).Nodup)
    (hfresh : ∀ d ∈ newObjects, d.id ∉ keys objects)
    (hm : simpleMatchObjects sq km cfg objects newObjects = .ok (final, processed)) :
    ∃ S : List UUID, (∀ j ∈ S, j ∈ keys objects) ∧
      ∀ i b, lookupKey objects i = some b →
        (i ∈ S → missOutcome cfg.maxNoMatch 1 final i) ∧
        (i ∉ S → missOutcome cfg.maxNoMatch (b.noMatchTimes + 1) final i) := by
  unfold simpleMatchObjects at hm
  cases hq : simpleProcessQueue km cfg ⟨simplePrep km objects, [], [], []⟩
      (sortByDistance (simpleCandidates sq (simplePrep km objects) newObjects)) with
  | error e =>
    simp only [hq] at hm
    exact Except.noConfusion hm
  | ok st =>
    simp only [hq, Except.ok.injEq, Prod.mk.injEq] at hm
    obtain ⟨hfinal, hproc⟩ := hm
    obtain ⟨evs, hlog⟩ := simpleQueue_ok_log km cfg hq
    have hkeysPrep : keys (simplePrep km objects) = keys objects := by
      unfold simplePrep
      exact keys_map_fst
        (fun p : UUID × SimpleBlob F => (p.1, (p.2.deactivate).predictNextPosition km))
        (fun p => rfl) objects
    have hkeysSt : keys st.objects = keys objects := by
      rw [simpleQueue_keys km cfg _ _ _ hq]
      exact hkeysPrep
    have hresEq : st.reserved = evs.filterMap id := by
      have hr := simpleProcessQueueLog_reserved km cfg _ _ _ _ hlog
      simpa using hr
    have hSsub : ∀ j ∈ st.reserved, j ∈ keys objects := by
      intro j hj
      rw [hresEq, List.mem_filterMap] at hj
      obtain ⟨o, ho, hoj⟩ := hj
      cases o with
      | none => exact Option.noConfusion hoj
      | some j2 =>
        have hjj : j2 = j := Option.some.inj hoj
        subst hjj
        have hmem := simpleLog_events_mem km cfg _ _ _ _ hlog j2 ho
        rw [hkeysPrep] at hmem
        exact hmem
    have hregKeys : ∀ j ∈ keys st.blobsToRegister, j ∉ keys objects := by
      intro j hj
      rcases simpleLog_register_keys km cfg _ _ _ _ hlog j hj with hmem | ⟨c, hc, hje⟩
      · exact absurd hmem (List.not_mem_nil j)
      · rw [mem_sortByDistance] at hc
        unfold simpleCandidates at hc
        rw [List.mem_map] at hc
        obtain ⟨d, hd, hdc⟩ := hc
        subst hdc
        have hjd : j = d.id := hje
        rw [hjd]
        exact hfresh d hd
    have hndSt : (keys st.objects).Nodup := by
      rw [hkeysSt]
      exact hnd
    have hndReg : (keys (simpleRegister st.objects st.blobsToRegister)).Nodup :=
      simpleRegister_keys_nodup st.blobsToRegister st.objects hndSt
    refine ⟨st.reserved, hSsub, ?_⟩
    intro i b hb
    have hiMem : i ∈ keys objects := by
      rw [← lookupKey_isSome_iff_mem, hb]
      rfl
    have hiRegFree : i ∉ keys st.blobsToRegister := fun hmem => hregKeys i hmem hiMem
    constructor
    · intro hiS
      obtain ⟨v, hv, hv0⟩ := simpleLog_reserved_zero km cfg _ _ _ _ hlog
        (fun x hx => absurd hx (List.not_mem_nil x)) i hiS
      have hreg : lookupKey (simpleRegister st.objects st.blobsToRegister) i = some v := by
        rw [simpleRegister_lookup_not_mem st.blobsToRegister st.objects i hiRegFree]
        exact hv
      have hclean := simpleCleanup_lookup cfg hndReg hreg
      rw [hv0] at hclean
      unfold missOutcome
      by_cases hcfg : (1 : ℤ) > cfg.maxNoMatch
      · rw [if_pos hcfg, ← hfinal, hclean, if_pos (by omega)]
      · rw [if_neg hcfg]
        refine ⟨v.incNoMatch, ?_, ?_⟩
        · rw [← hfinal, hclean, if_neg (by omega)]
        · show v.noMatchTimes + 1 = 1
          rw [hv0]
          omega
    · intro hiS
      have hunt := simpleLog_untouched km cfg _ _ _ _ hlog i hiS
      have hprep : lookupKey (simplePrep km objects) i
          = some ((b.deactivate).predictNextPosition km) := by
        unfold simplePrep
        rw [lookupKey_map_fst
          (fun p : UUID × SimpleBlob F => (p.1, (p.2.deactivate).predictNextPosition km))
          (fun p => rfl) objects i, hb]
        rfl
      have hst : lookupKey st.objects i = some ((b.deactivate).predictNextPosition km) := by
        rw [hunt]
        exact hprep
      have hreg : lookupKey (simpleRegister st.objects st.blobsToRegister) i
          = some ((b.deactivate).predictNextPosition km) := by
        rw [simpleRegister_lookup_not_mem st.blobsToRegister st.objects i hiRegFree]
        exact hst
      have hclean := simpleCleanup_lookup cfg hndReg hreg
      have hcnt : ((b.deactivate).predictNextPosition km).noMatchTimes = b.noMatchTimes := rfl
      rw [hcnt] at hclean
      unfold missOutcome
      by_cases hcfg : b.noMatchTimes + 1 > cfg.maxNoMatch
      · rw [if_pos hcfg, ← hfinal, hclean, if_pos hcfg]
      · rw [if_neg hcfg]
        refine ⟨((b.deactivate).predictNextPosition km).incNoMatch, ?_, ?_⟩
        · rw [← hfinal, hclean, if_neg hcfg]
        · show ((b.deactivate).predictNextPosition km).noMatchTimes + 1 = b.noMatchTimes + 1
          rw [hcnt]

theorem iouProcessStep_keys {F : Type} (km : KalmanModel F) (cfg : IoUTrackerCfg)
    {st st1 : IoULoopState F} {c : IoUDistanceBlob F}
    (hstep : iouProcessStep km cfg st c = .ok st1) :
    keys st1.objects = keys st.objects := by
  unfold iouProcessStep at hstep
  by_cases hres : c.minID ∈ st.reserved
  · rw [if_pos hres] at hstep
    simp only [Except.ok.injEq] at hstep
    subst hstep
    rfl
  · rw [if_neg hres] at hstep
    by_cases hsc : c.score > cfg.iouThreshold
    · rw [if_pos hsc] at hstep
      cases hl : lookupKey st.objects c.minID with
      | none =>
        simp only [hl, Except.ok.injEq] at hstep
        subst hstep
        rfl
      | some b0 =>
        simp only [hl] at hstep
        cases hu : (b0.predictNextPosition km).update km c.blob with
        | none =>
          simp only [hu] at hstep
          exact Except.noConfusion hstep
        | some b1 =>
          simp only [hu, Except.ok.injEq] at hstep
          subst hstep
          show keys (setKey st.objects c.minID b1.resetNoMatch) = keys st.objects
          apply keys_setKey_of_mem
          rw [← lookupKey_isSome_iff_mem, hl]
          rfl
    · rw [if_neg hsc] at hstep
      simp only [Except.ok.injEq] at hstep
      subst hstep
      rfl

theorem iouQueue_keys {F : Type} (km : KalmanModel F) (cfg : IoUTrackerCfg) :
    ∀ (q : List (IoUDistanceBlob F)) (st0 st : IoULoopState F),
      iouProcessQueue km cfg st0 q = .ok st →
      keys st.objects = keys st0.objects := by
  intro q
  induction q with
  | nil =>
    intro st0 st h
    unfold iouProcessQueue at h
    rw [Except.ok.inj h]
  | cons c cs ih =>
    intro st0 st h
    unfold iouProcessQueue at h
    cases hstep : iouProcessStep km cfg st0 c with
    | error e =>
      simp only [hstep] at h
      exact Except.noConfusion h
    | ok st1 =>
      simp only [hstep] at h
      rw [ih st1 st h, iouProcessStep_keys km cfg hstep]

theorem iouQueue_ok_log {F : Type} (km : KalmanModel F) (cfg : IoUTrackerCfg)
    {q : List (IoUDistanceBlob F)} {st0 st : IoULoopState F}
    (h : iouProcessQueue km cfg st0 q = .ok st) :
    ∃ evs, iouProcessQueueLog km cfg st0 q = .ok (st, evs) := by
  have hfst := iouProcessQueueLog_fst km cfg q st0
  cases hl : iouProcessQueueLog km cfg st0 q with
  | error e =>
    rw [hl] at hfst
    rw [← hfst] at h
    exact Except.noConfusion h
  | ok p =>
    obtain ⟨st2, evs⟩ := p
    rw [hl] at hfst
    rw [← hfst] at h
    have hst : st2 = st := Except.ok.inj h
    subst hst
    exact ⟨evs, rfl⟩

theorem iouLog_untouched {F : Type} (km : KalmanModel F) (cfg : IoUTrackerCfg) :
    ∀ (q : List (IoUDistanceBlob F)) (st st2 : IoULoopState F) (evs : List (Option UUID)),
      iouProcessQueueLog km cfg st q = .ok (st2, evs) →
      ∀ i, i ∉ st2.reserved → lookupKey st2.objects i = lookupKey st.objects i := by
  intro q
  induction q with
  | nil =>
    intro st st2 evs h i _
    unfold iouProcessQueueLog at h
    simp only [Except.ok.injEq, Prod.mk.injEq] at h
    rw [h.1]
  | cons c cs ih =>
    intro st st2 evs h i hres
    unfold iouProcessQueueLog at h
    cases hstep : iouProcessStep km cfg st c with
    | error e =>
      simp only [hstep] at h
      exact Except.noConfusion h
    | ok st1 =>
      simp only [hstep] at h
      cases hlog : iouProcessQueueLog km cfg st1 cs with
      | error e =>
        simp only [hlog] at h
        exact Except.noConfusion h
      | ok p =>
        obtain ⟨st2x, evsx⟩ := p
        simp only [hlog, Except.ok.injEq, Prod.mk.injEq] at h
        obtain ⟨h1, h2⟩ := h
        subst h1
        have hmono := iouProcessQueueLog_reserved km cfg cs st1 st2x evsx hlog
        have hstep_res := iouStepEvent_reserved km cfg hstep
        have hrec := ih st1 st2x evsx hlog i hres
        rw [hrec]
        cases hev : iouStepEvent cfg st c with
        | none => rw [iouStepEvent_none_objects km cfg hstep hev]
        | some j =>
          obtain ⟨hj, hjres, b0, b1, hl, hu, hobj⟩ :=
            iouStepEvent_some_objects km cfg hstep hev
          subst hj
          rw [hobj]
          apply lookupKey_setKey_ne
          intro hij
          subst hij
          apply hres
          rw [hmono, hstep_res, hev]
          simp

theorem iouLog_reserved_zero {F : Type} (km : KalmanModel F) (cfg : IoUTrackerCfg) :
    ∀ (q : List (IoUDistanceBlob F)) (st st2 : IoULoopState F) (evs : List (Option UUID)),
      iouProcessQueueLog km cfg st q = .ok (st2, evs) →
      (∀ i ∈ st.reserved, ∃ v, lookupKey st.objects i = some v ∧ v.noMatchTimes = 0) →
      ∀ i ∈ st2.reserved, ∃ v, lookupKey st2.objects i = some v ∧ v.noMatchTimes = 0 := by
  intro q
  induction q with
  | nil =>
    intro st st2 evs h hinv
    unfold iouProcessQueueLog at h
    simp only [Except.ok.injEq, Prod.mk.injEq] at h
    rw [← h.1]
    exact hinv
  | cons c cs ih =>
    intro st st2 evs h hinv
    unfold iouProcessQueueLog at h
    cases hstep : iouProcessStep km cfg st c with
    | error e =>
      simp only [hstep] at h
      exact Except.noConfusion h
    | ok st1 =>
      simp only [hstep] at h
      cases hlog : iouProcessQueueLog km cfg st1 cs with
      | error e =>
        simp only [hlog] at h
        exact Except.noConfusion h
      | ok p =>
        obtain ⟨st2x, evsx⟩ := p
        simp only [hlog, Except.ok.injEq, Prod.mk.injEq] at h
        obtain ⟨h1, h2⟩ := h
        subst h1
        apply ih st1 st2x evsx hlog
        have hstep_res := iouStepEvent_reserved km cfg hstep
        cases hev : iouStepEvent cfg st c with
        | none =>
          rw [iouStepEvent_none_objects km cfg hstep hev]
          rw [hstep_res, hev]
          simpa using hinv
        | some j =>
          obtain ⟨hj, hjres, b0, b1, hl, hu, hobj⟩ :=
            iouStepEvent_some_objects km cfg hstep hev
          subst hj
          rw [hobj, hstep_res, hev]
          intro i hi
          simp only [Option.toList_some, List.mem_append, List.mem_singleton] at hi
          rcases hi with hi | hi
          · have hne : i ≠ c.minID := fun he => hjres (he ▸ hi)
            rw [lookupKey_setKey_ne _ _ hne]
            exact hinv i hi
          · subst hi
            exact ⟨b1.resetNoMatch, lookupKey_setKey_self _ _ _, rfl⟩

theorem iouStep_register_cases {F : Type} (km : KalmanModel F) (cfg : IoUTrackerCfg)
    {st st1 : IoULoopState F} {c : IoUDistanceBlob F}
    (hstep : iouProcessStep km cfg st c = .ok st1) :
    st1.blobsToRegister = st.blobsToRegister ∨
    st1.blobsToRegister = setKey st.blobsToRegister c.blob.id c.blob := by
  unfold iouProcessStep at hstep
  by_cases hres : c.minID ∈ st.reserved
  · rw [if_pos hres] at hstep
    simp only [Except.ok.injEq] at hstep
    subst hstep
    exact Or.inr rfl
  · rw [if_neg hres] at hstep
    by_cases hsc : c.score > cfg.iouThreshold
    · rw [if_pos hsc] at hstep
      cases hl : lookupKey st.objects c.minID with
      | none =>
        simp only [hl, Except.ok.injEq] at hstep
        subst hstep
        exact Or.inl rfl
      | some b0 =>
        simp only [hl] at hstep
        cases hu : (b0.predictNextPosition km).update km c.blob with
        | none =>
          simp only [hu] at hstep
          exact Except.noConfusion hstep
        | some b1 =>
          simp only [hu, Except.ok.injEq] at hstep
          subst hstep
          exact Or.inl rfl
    · rw [if_neg hsc] at hstep
      simp only [Except.ok.injEq] at hstep
      subst hstep
      exact Or.inr rfl

theorem iouLog_register_keys {F : Type} (km : KalmanModel F) (cfg : IoUTrackerCfg) :
    ∀ (q : List (IoUDistanceBlob F)) (st st2 : IoULoopState F) (evs : List (Option UUID)),
      iouProcessQueueLog km cfg st q = .ok (st2, evs) →
      ∀ j ∈ keys st2.blobsToRegister,
        j ∈ keys st.blobsToRegister ∨ ∃ c ∈ q, j = c.blob.id := by
  intro q
  induction q with
  | nil =>
    intro st st2 evs h j hj
    unfold iouProcessQueueLog at h
    simp only [Except.ok.injEq, Prod.mk.injEq] at h
    rw [← h.1] at hj
    exact Or.inl hj
  | cons c cs ih =>
    intro st st2 evs h j hj
    unfold iouProcessQueueLog at h
    cases hstep : iouProcessStep km cfg st c with
    | error e =>
      simp only [hstep] at h
      exact Except.noConfusion h
    | ok st1 =>
      simp only [hstep] at h
      cases hlog : iouProcessQueueLog km cfg st1 cs with
      | error e =>
        simp only [hlog] at h
        exact Except.noConfusion h
      | ok p =>
        obtain ⟨st2x, evsx⟩ := p
        simp only [hlog, Except.ok.injEq, Prod.mk.injEq] at h
        obtain ⟨h1, h2⟩ := h
        subst h1
        rcases ih st1 st2x evsx hlog j hj with hmem | ⟨cx, hcx, hje⟩
        · rcases iouStep_register_cases km cfg hstep with hreg | hreg
          · rw [hreg] at hmem
            exact Or.inl hmem
          · rw [hreg, mem_keys_setKey] at hmem
            rcases hmem with hmem | hmem
            · exact Or.inl hmem
            · exact Or.inr ⟨c, List.mem_cons_self _ _, hmem⟩
        · exact Or.inr ⟨cx, List.mem_cons_of_mem _ hcx, hje⟩

theorem iouLog_events_mem {F : Type} (km : KalmanModel F) (cfg : IoUTrackerCfg) :
    ∀ (q : List (IoUDistanceBlob F)) (st st2 : IoULoopState F) (evs : List (Option UUID)),
      iouProcessQueueLog km cfg st q = .ok (st2, evs) →
      ∀ j, some j ∈ evs → j ∈ keys st.objects := by
  intro q
  induction q with
  | nil =>
    intro st st2 evs h j hj
    unfold iouProcessQueueLog at h
    simp only [Except.ok.injEq, Prod.mk.injEq] at h
    rw [← h.2] at hj
    exact absurd hj (List.not_mem_nil _)
  | cons c cs ih =>
    intro st st2 evs h j hj
    unfold iouProcessQueueLog at h
    cases hstep : iouProcessStep km cfg st c with
    | error e =>
      simp only [hstep] at h
      exact Except.noConfusion h
    | ok st1 =>
      simp only [hstep] at h
      cases hlog : iouProcessQueueLog km cfg st1 cs with
      | error e =>
        simp only [hlog] at h
        exact Except.noConfusion h
      | ok p =>
        obtain ⟨st2x, evsx⟩ := p
        simp only [hlog, Except.ok.injEq, Prod.mk.injEq] at h
        obtain ⟨h1, h2⟩ := h
        rw [← h2] at hj
        rw [List.mem_cons] at hj
        rcases hj with hj | hj
        · obtain ⟨hji, hjres, b0, b1, hl, hu, hobj⟩ :=
            iouStepEvent_some_objects km cfg hstep hj.symm
          subst hji
          rw [← lookupKey_isSome_iff_mem, hl]
          rfl
        · have hmem := ih st1 st2x evsx hlog j hj
          rw [iouProcessStep_keys km cfg hstep] at hmem
          exact hmem

theorem iouMiss_lookup {F : Type} (km : KalmanModel F) (cfg : IoUTrackerCfg)
    (reserved : List UUID) {A : Store (SimpleBlob F)} (hnd : (keys A).Nodup)
    {i : UUID} {v : SimpleBlob F} (hv : lookupKey A i = some v) :
    lookupKey
      ((A.map (fun p => if p.1 ∈ reserved then p
          else (p.1, (p.2.predictNextPosition km).incNoMatch))).filter
        (fun p => !(p.2.noMatchTimes > cfg.maxNoMatch))) i =
    if i ∈ reserved then
      (if v.noMatchTimes > cfg.maxNoMatch then none else some v)
    else
      (if v.noMatchTimes + 1 > cfg.maxNoMatch then none
       else some ((v.predictNextPosition km).incNoMatch)) := by
  have hfst : ∀ p : UUID × SimpleBlob F,
      ((fun p : UUID × SimpleBlob F => if p.1 ∈ reserved then p
        else (p.1, (p.2.predictNextPosition km).incNoMatch)) p).1 = p.1 := by
    intro p
    dsimp only
    split <;> rfl
  have hnd1 : (keys (A.map (fun p : UUID × SimpleBlob F => if p.1 ∈ reserved then p
      else (p.1, (p.2.predictNextPosition km).incNoMatch)))).Nodup := by
    rw [keys_map_fst _ hfst]
    exact hnd
  have h1 := lookupKey_map_fst
    (fun p : UUID × SimpleBlob F => if p.1 ∈ reserved then p
      else (p.1, (p.2.predictNextPosition km).incNoMatch)) hfst A i
  rw [hv] at h1
  by_cases hres : i ∈ reserved
  · have h1v : lookupKey (A.map (fun p : UUID × SimpleBlob F => if p.1 ∈ reserved then p
        else (p.1, (p.2.predictNextPosition km).incNoMatch))) i = some v := by
      rw [h1]
      simp [hres]
    rw [lookupKey_filter _ hnd1 h1v, if_pos hres]
    by_cases hc : v.noMatchTimes > cfg.maxNoMatch
    · rw [if_pos hc, if_neg]
      simp only [Bool.not_eq_true', decide_eq_false_iff_not, Decidable.not_not]
      exact hc
    · rw [if_neg hc, if_pos]
      simp only [Bool.not_eq_true', decide_eq_false_iff_not]
      exact hc
  · have h1v : lookupKey (A.map (fun p : UUID × SimpleBlob F => if p.1 ∈ reserved then p
        else (p.1, (p.2.predictNextPosition km).incNoMatch))) i
        = some ((v.predictNextPosition km).incNoMatch) := by
      rw [h1]
      simp [hres]
    rw [lookupKey_filter _ hnd1 h1v, if_neg hres]
    have hcnt : ((v.predictNextPosition km).incNoMatch).noMatchTimes
        = v.noMatchTimes + 1 := rfl
    by_cases hc : v.noMatchTimes + 1 > cfg.maxNoMatch
    · rw [if_pos hc, if_neg]
      simp only [Bool.not_eq_true', decide_eq_false_iff_not, Decidable.not_not]
      rw [hcnt]
      exact hc
    · rw [if_neg hc, if_pos]
      simp only [Bool.not_eq_true', decide_eq_false_iff_not]
      rw [hcnt]
      exact hc

theorem mem_insertDescByScore {F : Type} (c x : IoUDistanceBlob F)
    (l : List (IoUDistanceBlob F)) :
    x ∈ insertDescByScore c l ↔ x = c ∨ x ∈ l := by
  induction l with
  | nil => simp [insertDescByScore]
  | cons d ds ih =>
    unfold insertDescByScore
    by_cases hle : c.score ≥ d.score
    · rw [if_pos hle]
      simp [List.mem_cons]
    · rw [if_neg hle]
      simp only [List.mem_cons, ih]
      tauto

theorem mem_sortByScoreDesc {F : Type} (x : IoUDistanceBlob F)
    (l : List (IoUDistanceBlob F)) :
    x ∈ sortByScoreDesc l ↔ x ∈ l := by
  unfold sortByScoreDesc
  induction l with
  | nil => simp
  | cons d ds ih =>
    rw [List.foldr_cons, mem_insertDescByScore, List.mem_cons, ih]

theorem iouMissCount {F : Type} (sq : ℚ → ℚ) (km : KalmanModel F)
    (cfg : IoUTrackerCfg) (objects : Store (SimpleBlob F))
    (newObjects : List (SimpleBlob F)) (final : Store (SimpleBlob F))
    (processed : List (SimpleBlob F))
    (hnd : (keys objects).Nodup)
    (hfresh : ∀ d ∈ newObjects, d.id ∉ keys objects)
    (hm : iouMatchObjects sq km cfg objects newObjects = .ok (final, processed)) :
    ∃ S : List UUID, (∀ j ∈ S, j ∈ keys objects) ∧
      ∀ i b, lookupKey objects i = some b →
        (i ∈ S → missOutcome cfg.maxNoMatch 0 final i) ∧
        (i ∉ S → missOutcome cfg.maxNoMatch (b.noMatchTimes + 1) final i) := by
  unfold iouMatchObjects at hm
  cases hq : iouProcessQueue km cfg ⟨objects.map (fun p => (p.1, p.2.deactivate)), [], [], []⟩
      (sortByScoreDesc (newObjects.map (fun d =>
        let best := iouBestMatch sq (objects.map (fun p => (p.1, p.2.deactivate))) d
        ({ score := best.1, minID := best.2, blob := d } : IoUDistanceBlob F)))) with
  | error e =>
    simp only [hq] at hm
    exact Except.noConfusion hm
  | ok st =>
    simp only [hq, Except.ok.injEq, Prod.mk.injEq] at hm
    obtain ⟨hfinal, hproc⟩ := hm
    obtain ⟨evs, hlog⟩ := iouQueue_ok_log km cfg hq
    have hkeysPrep : keys (objects.map (fun p : UUID × SimpleBlob F => (p.1, p.2.deactivate)))
        = keys objects :=
      keys_map_fst (fun p : UUID × SimpleBlob F => (p.1, p.2.deactivate)) (fun p => rfl)
        objects
    have hkeysSt : keys st.objects = keys objects := by
      rw [iouQueue_keys km cfg _ _ _ hq]
      exact hkeysPrep
    have hresEq : st.reserved = evs.filterMap id := by
      have hr := iouProcessQueueLog_reserved km cfg _ _ _ _ hlog
      simpa using hr
    have hSsub : ∀ j ∈ st.reserved, j ∈ keys objects := by
      intro j hj
      rw [hresEq, List.mem_filterMap] at hj
      obtain ⟨o, ho, hoj⟩ := hj
      cases o with
      | none => exact Option.noConfusion hoj
      | some j2 =>
        have hjj : j2 = j := Option.some.inj hoj
        subst hjj
        have hmem := iouLog_events_mem km cfg _ _ _ _ hlog j2 ho
        rw [hkeysPrep] at hmem
        exact hmem
    have hregKeys : ∀ j ∈ keys st.blobsToRegister, j ∉ keys objects := by
      intro j hj
      rcases iouLog_register_keys km cfg _ _ _ _ hlog j hj with hmem | ⟨c, hc, hje⟩
      · exact absurd hmem (List.not_mem_nil j)
      · rw [mem_sortByScoreDesc] at hc
        rw [List.mem_map] at hc
        obtain ⟨d, hd, hdc⟩ := hc
        subst hdc
        have hjd : j = d.id := hje
        rw [hjd]
        exact hfresh d hd
    have hndSt : (keys st.objects).Nodup := by
      rw [hkeysSt]
      exact hnd
    have hndReg : (keys (simpleRegister st.objects st.blobsToRegister)).Nodup :=
      simpleRegister_keys_nodup st.blobsToRegister st.objects hndSt
    have hmerged : st.blobsToRegister.foldl (fun os p => setKey os p.1 p.2) st.objects
        = simpleRegister st.objects st.blobsToRegister := rfl
    rw [hmerged] at hfinal
    refine ⟨st.reserved, hSsub, ?_⟩
    intro i b hb
    have hiMem : i ∈ keys objects := by
      rw [← lookupKey_isSome_iff_mem, hb]
      rfl
    have hiRegFree : i ∉ keys st.blobsToRegister := fun hmem => hregKeys i hmem hiMem
    constructor
    · intro hiS
      obtain ⟨v, hv, hv0⟩ := iouLog_reserved_zero km cfg _ _ _ _ hlog
        (fun x hx => absurd hx (List.not_mem_nil x)) i hiS
      have hreg : lookupKey (simpleRegister st.objects st.blobsToRegister) i = some v := by
        rw [simpleRegister_lookup_not_mem st.blobsToRegister st.objects i hiRegFree]
        exact hv
      have hclean := iouMiss_lookup km cfg st.reserved hndReg hreg
      rw [if_pos hiS, hv0] at hclean
      unfold missOutcome
      by_cases hcfg : (0 : ℤ) > cfg.maxNoMatch
      · rw [if_pos hcfg, ← hfinal, hclean, if_pos hcfg]
      · rw [if_neg hcfg]
        exact ⟨v, by rw [← hfinal, hclean, if_neg hcfg], hv0⟩
    · intro hiS
      have hunt := iouLog_untouched km cfg _ _ _ _ hlog i hiS
      have hprep : lookupKey (objects.map (fun p : UUID × SimpleBlob F => (p.1, p.2.deactivate))) i
          = some b.deactivate := by
        rw [lookupKey_map_fst (fun p : UUID × SimpleBlob F => (p.1, p.2.deactivate))
          (fun p => rfl) objects i, hb]
        rfl
      have hst : lookupKey st.objects i = some b.deactivate := by
        rw [hunt]
        exact hprep
      have hreg : lookupKey (simpleRegister st.objects st.blobsToRegister) i
          = some b.deactivate := by
        rw [simpleRegister_lookup_not_mem st.blobsToRegister st.objects i hiRegFree]
        exact hst
      have hclean := iouMiss_lookup km cfg st.reserved hndReg hreg
      have hcnt : (b.deactivate).noMatchTimes = b.noMatchTimes := rfl
      rw [if_neg hiS, hcnt] at hclean
      unfold missOutcome
      by_cases hcfg : b.noMatchTimes + 1 > cfg.maxNoMatch
      · rw [if_pos hcfg, ← hfinal, hclean, if_pos hcfg]
      · rw [if_neg hcfg]
        refine ⟨((b.deactivate).predictNextPosition km).incNoMatch, ?_, ?_⟩
        · rw [← hfinal, hclean, if_neg hcfg]
        · show ((b.deactivate).predictNextPosition km).noMatchTimes + 1 = b.noMatchTimes + 1
          rfl

theorem byteRun_eq {F : Type} (km : KalmanModel F) (cfg : ByteTrackerCfg)
    (solver : List (List ℚ) → List (ℕ × ℕ)) (objects0 : Store (SimpleBlob F))
    (detections : List (SimpleBlob F)) (confidences : List ℚ) :
    byteRun km cfg solver objects0 detections confidences =
      if detections.length ≠ confidences.length then .error .malformedInput
      else
        match byteStage1 km cfg solver detections confidences
            (objects0.map (fun p => (p.1, p.2.predictNextPosition km))) with
        | .error e => .error e
        | .ok st1 =>
          match byteStage2 km cfg solver detections confidences
              (objects0.map (fun p => (p.1, p.2.predictNextPosition km))) st1 with
          | .error e => .error e
          | .ok st2 =>
            .ok ⟨byteHighIndices cfg confidences, st2,
                 byteFinalStore cfg detections (byteHighIndices cfg confidences) st2,
                 byteDetections detections (byteHighIndices cfg confidences) st2⟩ := rfl

theorem byteStageRel_refl {F : Type} (st : ByteMatchState F) : byteStageRel st st :=
  ⟨fun _ hi => hi, fun hinv => hinv, fun _ _ => rfl, rfl⟩

theorem byteStageRel_of_eq {F : Type} {st st' : ByteMatchState F} (h : st = st') :
    byteStageRel st st' := h ▸ byteStageRel_refl st

theorem byteStageRel_trans {F : Type} {st st' st'' : ByteMatchState F}
    (h1 : byteStageRel st st') (h2 : byteStageRel st' st'') : byteStageRel st st'' := by
  obtain ⟨m1, i1, u1, k1⟩ := h1
  obtain ⟨m2, i2, u2, k2⟩ := h2
  refine ⟨fun i hi => m2 i (m1 i hi), fun hinv => i2 (i1 hinv), ?_, k2.trans k1⟩
  intro i hi
  have hi' : i ∉ st'.matchedTracks := fun hmem => hi (m2 i hmem)
  rw [u2 i hi, u1 i hi']

theorem processOneMatch_rel {F : Type} (km : KalmanModel F) (cfg : ByteTrackerCfg)
    (trackBBoxes : List BboxPair) (detectionIndices : List ℕ)
    (iouMatrix : List (List ℚ)) (allDetections : List (SimpleBlob F))
    {st st' : ByteMatchState F} {m : ℕ × ℕ}
    (h : processOneMatch km cfg trackBBoxes detectionIndices iouMatrix allDetections st m
      = .ok st') : byteStageRel st st' := by
  simp only [processOneMatch] at h
  by_cases hiou : (iouMatrix.getD m.1 []).getD m.2 0 ≥ cfg.minIoU
  · rw [if_pos hiou] at h
    cases hga : trackBBoxes.get? m.1 <;> cases hgd : detectionIndices.get? m.2 <;>
      simp only [hga, hgd] at h
    · exact byteStageRel_of_eq (Except.ok.inj h)
    · exact byteStageRel_of_eq (Except.ok.inj h)
    · exact byteStageRel_of_eq (Except.ok.inj h)
    · rename_i pair idx
      cases hlk : lookupKey st.objects pair.id with
      | none =>
        simp only [hlk] at h
        exact byteStageRel_of_eq (Except.ok.inj h)
      | some track =>
        simp only [hlk] at h
        cases hdet : allDetections.get? idx with
        | none =>
          simp only [hdet] at h
          exact byteStageRel_of_eq (Except.ok.inj h)
        | some det =>
          simp only [hdet] at h
          cases hupd : track.update km det with
          | none =>
            simp only [hupd] at h
            exact Except.noConfusion h
          | some updated =>
            simp only [hupd, Except.ok.injEq] at h
            subst h
            refine ⟨fun i hi => List.mem_append_left _ hi, ?_, ?_, ?_⟩
            · intro hinv i hi
              show ∃ v, lookupKey (setKey st.objects pair.id updated.resetNoMatch) i
                = some v ∧ v.noMatchTimes = 0
              by_cases hip : i = pair.id
              · subst hip
                exact ⟨updated.resetNoMatch, lookupKey_setKey_self _ _ _, rfl⟩
              · simp only [List.mem_append, List.mem_singleton] at hi
                rcases hi with hi | hi
                · rw [lookupKey_setKey_ne _ _ hip]
                  exact hinv i hi
                · exact absurd hi hip
            · intro i hi
              have hip : i ≠ pair.id := fun he => hi (by
                rw [he]
                exact List.mem_append_right _ (List.mem_singleton_self _))
              exact lookupKey_setKey_ne _ _ hip
            · show keys (setKey st.objects pair.id updated.resetNoMatch) = keys st.objects
              apply keys_setKey_of_mem
              rw [← lookupKey_isSome_iff_mem, hlk]
              rfl
  · rw [if_neg hiou] at h
    exact byteStageRel_of_eq (Except.ok.inj h)

theorem processMatches_rel {F : Type} (km : KalmanModel F) (cfg : ByteTrackerCfg)
    (trackBBoxes : List BboxPair) (detectionIndices : List ℕ)
    (iouMatrix : List (List ℚ)) (allDetections : List (SimpleBlob F)) :
    ∀ (ms : List (ℕ × ℕ)) (st st' : ByteMatchState F),
      processMatches km cfg trackBBoxes detectionIndices iouMatrix allDetections st ms
        = .ok st' → byteStageRel st st' := by
  intro ms
  induction ms with
  | nil =>
    intro st st' h
    unfold processMatches at h
    exact byteStageRel_of_eq (Except.ok.inj h)
  | cons m ms ih =>
    intro st st' h
    unfold processMatches at h
    cases hone : processOneMatch km cfg trackBBoxes detectionIndices iouMatrix
        allDetections st m with
    | error e =>
      simp only [hone] at h
      exact Except.noConfusion h
    | ok st1 =>
      simp only [hone] at h
      exact byteStageRel_trans
        (processOneMatch_rel km cfg trackBBoxes detectionIndices iouMatrix
          allDetections hone)
        (ih st1 st' h)

theorem byteStage1_rel {F : Type} (km : KalmanModel F) (cfg : ByteTrackerCfg)
    (solver : List (List ℚ) → List (ℕ × ℕ)) (detections : List (SimpleBlob F))
    (confidences : List ℚ) {objects : Store (SimpleBlob F)} {st1 : ByteMatchState F}
    (h : byteStage1 km cfg solver detections confidences objects = .ok st1) :
    byteStageRel ⟨objects, [], []⟩ st1 := by
  simp only [byteStage1] at h
  split at h
  · exact processMatches_rel km cfg _ _ _ _ _ _ _ h
  · exact byteStageRel_of_eq (Except.ok.inj h)

theorem byteStage2_rel {F : Type} (km : KalmanModel F) (cfg : ByteTrackerCfg)
    (solver : List (List ℚ) → List (ℕ × ℕ)) (detections : List (SimpleBlob F))
    (confidences : List ℚ) (objects : Store (SimpleBlob F)) {st1 st2 : ByteMatchState F}
    (h : byteStage2 km cfg solver detections confidences objects st1 = .ok st2) :
    byteStageRel st1 st2 := by
  simp only [byteStage2] at h
  split at h
  · exact processMatches_rel km cfg _ _ _ _ _ _ _ h
  · exact byteStageRel_of_eq (Except.ok.inj h)

theorem byteAfterNew_lookup {F : Type} {detections : List (SimpleBlob F)}
    (highDetectionIndices : List ℕ) (st2 : ByteMatchState F) {i : UUID}
    (hfr : ∀ d ∈ detections, d.id ≠ i) :
    lookupKey (byteAfterNew detections highDetectionIndices st2) i
      = lookupKey st2.objects i := by
  unfold byteAfterNew
  generalize st2.objects = os
  induction highDetectionIndices generalizing os with
  | nil => rfl
  | cons idx idxs ih =>
    rw [List.foldl_cons, ih]
    by_cases hmd : idx ∈ st2.matchedDetections
    · rw [if_pos hmd]
    · rw [if_neg hmd]
      cases hg : detections.get? idx with
      | none => simp only [hg]
      | some d =>
        simp only [hg]
        have hd : d ∈ detections := List.get?_mem hg
        exact lookupKey_setKey_ne os _ (Ne.symm (hfr d hd))

theorem byteAfterNew_keys_nodup {F : Type} (detections : List (SimpleBlob F))
    (highDetectionIndices : List ℕ) (st2 : ByteMatchState F)
    (hnd : (keys st2.objects).Nodup) :
    (keys (byteAfterNew detections highDetectionIndices st2)).Nodup := by
  unfold byteAfterNew
  revert hnd
  generalize st2.objects = os
  induction highDetectionIndices generalizing os with
  | nil => intro hnd; exact hnd
  | cons idx idxs ih =>
    intro hnd
    rw [List.foldl_cons]
    apply ih
    by_cases hmd : idx ∈ st2.matchedDetections
    · rw [if_pos hmd]
      exact hnd
    · rw [if_neg hmd]
      cases hg : detections.get? idx with
      | none =>
        simp only [hg]
        exact hnd
      | some d =>
        simp only [hg]
        exact keys_setKey_nodup _ _ hnd

theorem byteMiss_lookup {F : Type} (cfg : ByteTrackerCfg) (matched : List UUID)
    {A : Store (SimpleBlob F)} (hnd : (keys A).Nodup) {i : UUID} {v : SimpleBlob F}
    (hv : lookupKey A i = some v) :
    lookupKey ((A.map (fun p => if p.1 ∈ matched then p
        else (p.1, p.2.incNoMatch))).filter
      (fun p => !(p.2.noMatchTimes ≥ cfg.maxDisappeared))) i =
    if i ∈ matched then
      (if v.noMatchTimes ≥ cfg.maxDisappeared then none else some v)
    else
      (if v.noMatchTimes + 1 ≥ cfg.maxDisappeared then none else some v.incNoMatch) := by
  have hfst : ∀ p : UUID × SimpleBlob F,
      ((fun p : UUID × SimpleBlob F => if p.1 ∈ matched then p
        else (p.1, p.2.incNoMatch)) p).1 = p.1 := by
    intro p
    dsimp only
    split <;> rfl
  have hnd1 : (keys (A.map (fun p : UUID × SimpleBlob F => if p.1 ∈ matched then p
      else (p.1, p.2.incNoMatch)))).Nodup := by
    rw [keys_map_fst _ hfst]
    exact hnd
  have h1 := lookupKey_map_fst
    (fun p : UUID × SimpleBlob F => if p.1 ∈ matched then p
      else (p.1, p.2.incNoMatch)) hfst A i
  rw [hv] at h1
  by_cases hres : i ∈ matched
  · have h1v : lookupKey (A.map (fun p : UUID × SimpleBlob F => if p.1 ∈ matched then p
        else (p.1, p.2.incNoMatch))) i = some v := by
      rw [h1]
      simp [hres]
    rw [lookupKey_filter _ hnd1 h1v, if_pos hres]
    by_cases hc : v.noMatchTimes ≥ cfg.maxDisappeared
    · rw [if_pos hc, if_neg]
      simp only [Bool.not_eq_true', decide_eq_false_iff_not, Decidable.not_not]
      exact hc
    · rw [if_neg hc, if_pos]
      simp only [Bool.not_eq_true', decide_eq_false_iff_not]
      exact hc
  · have h1v : lookupKey (A.map (fun p : UUID × SimpleBlob F => if p.1 ∈ matched then p
        else (p.1, p.2.incNoMatch))) i = some v.incNoMatch := by
      rw [h1]
      simp [hres]
    rw [lookupKey_filter _ hnd1 h1v, if_neg hres]
    have hcnt : (v.incNoMatch).noMatchTimes = v.noMatchTimes + 1 := rfl
    by_cases hc : v.noMatchTimes + 1 ≥ cfg.maxDisappeared
    · rw [if_pos hc, if_neg]
      simp only [Bool.not_eq_true', decide_eq_false_iff_not, Decidable.not_not]
      rw [hcnt]
      exact hc
    · rw [if_neg hc, if_pos]
      simp only [Bool.not_eq_true', decide_eq_false_iff_not]
      rw [hcnt]
      exact hc

theorem byteMissCount {F : Type} (km : KalmanModel F) (cfg : ByteTrackerCfg)
    (solver : List (List ℚ) → List (ℕ × ℕ)) (objects0 : Store (SimpleBlob F))
    (detections : List (SimpleBlob F)) (confidences : List ℚ)
    (final : Store (SimpleBlob F)) (detsOut : List (SimpleBlob F))
    (hnd : (keys objects0).Nodup)
    (hfresh : ∀ d ∈ detections, d.id ∉ keys objects0)
    (hm : byteMatchObjects km cfg solver objects0 detections confidences
      = .ok (final, detsOut)) :
    ∃ S : List UUID, (∀ j ∈ S, j ∈ keys objects0) ∧
      ∀ i b, lookupKey objects0 i = some b →
        (i ∈ S → byteMissOutcome cfg.maxDisappeared 0 final i) ∧
        (i ∉ S → byteMissOutcome cfg.maxDisappeared (b.noMatchTimes + 1) final i) := by
  unfold byteMatchObjects at hm
  cases hr : byteRun km cfg solver objects0 detections confidences with
  | error e =>
    simp only [hr, Except.map] at hm
    exact Except.noConfusion hm
  | ok info =>
    simp only [hr, Except.map, Except.ok.injEq, Prod.mk.injEq] at hm
    obtain ⟨hfo, hdo⟩ := hm
    rw [byteRun_eq] at hr
    by_cases hlen : detections.length ≠ confidences.length
    · rw [if_pos hlen] at hr
      exact Except.noConfusion hr
    · rw [if_neg hlen] at hr
      cases hst1 : byteStage1 km cfg solver detections confidences
          (objects0.map (fun p => (p.1, p.2.predictNextPosition km))) with
      | error e =>
        simp only [hst1] at hr
        exact Except.noConfusion hr
      | ok st1 =>
        simp only [hst1] at hr
        cases hst2 : byteStage2 km cfg solver detections confidences
            (objects0.map (fun p => (p.1, p.2.predictNextPosition km))) st1 with
        | error e =>
          simp only [hst2] at hr
          exact Except.noConfusion hr
        | ok st2 =>
          simp only [hst2] at hr
          have hinfo := Except.ok.inj hr
          have hfinal : byteFinalStore cfg detections (byteHighIndices cfg confidences) st2
              = final := by
            rw [← hinfo] at hfo
            exact hfo
          have hrel := byteStageRel_trans
            (byteStage1_rel km cfg solver detections confidences hst1)
            (byteStage2_rel km cfg solver detections confidences _ hst2)
          have hinv := hrel.2.1 (fun i hi => absurd hi (List.not_mem_nil i))
          have hunt := hrel.2.2.1
          have hkeysObj : keys (objects0.map
              (fun p : UUID × SimpleBlob F => (p.1, p.2.predictNextPosition km)))
              = keys objects0 :=
            keys_map_fst (fun p : UUID × SimpleBlob F => (p.1, p.2.predictNextPosition km))
              (fun p => rfl) objects0
          have hkeysSt2 : keys st2.objects = keys objects0 := by
            rw [hrel.2.2.2]
            exact hkeysObj
          have hndSt2 : (keys st2.objects).Nodup := by
            rw [hkeysSt2]
            exact hnd
          have hndAN := byteAfterNew_keys_nodup detections
            (byteHighIndices cfg confidences) st2 hndSt2
          refine ⟨st2.matchedTracks, ?_, ?_⟩
          · intro j hj
            obtain ⟨v, hv, _⟩ := hinv j hj
            rw [← hkeysSt2, ← lookupKey_isSome_iff_mem, hv]
            rfl
          · intro i b hb
            have hiMem : i ∈ keys objects0 := by
              rw [← lookupKey_isSome_iff_mem, hb]
              rfl
            have hfr : ∀ d ∈ detections, d.id ≠ i :=
              fun d hd he => hfresh d hd (he ▸ hiMem)
            have hAN := byteAfterNew_lookup (byteHighIndices cfg confidences) st2 hfr
            constructor
            · intro hiS
              obtain ⟨v, hv, hv0⟩ := hinv i hiS
              have hANv : lookupKey (byteAfterNew detections
                  (byteHighIndices cfg confidences) st2) i = some v := hAN.trans hv
              have hml := byteMiss_lookup cfg st2.matchedTracks hndAN hANv
              rw [if_pos hiS, hv0] at hml
              unfold byteMissOutcome
              by_cases hcfg : (0 : ℤ) ≥ cfg.maxDisappeared
              · rw [if_pos hcfg, ← hfinal]
                unfold byteFinalStore
                rw [hml, if_pos hcfg]
              · rw [if_neg hcfg]
                refine ⟨v, ?_, hv0⟩
                rw [← hfinal]
                unfold byteFinalStore
                rw [hml, if_neg hcfg]
            · intro hiS
              have hOBJ : lookupKey (objects0.map
                  (fun p : UUID × SimpleBlob F => (p.1, p.2.predictNextPosition km))) i
                  = some (b.predictNextPosition km) := by
                rw [lookupKey_map_fst
                  (fun p : UUID × SimpleBlob F => (p.1, p.2.predictNextPosition km))
                  (fun p => rfl) objects0 i, hb]
                rfl
              have hst2i : lookupKey st2.objects i = some (b.predictNextPosition km) := by
                rw [hunt i hiS]
                exact hOBJ
              have hANv : lookupKey (byteAfterNew detections
                  (byteHighIndices cfg confidences) st2) i
                  = some (b.predictNextPosition km) := hAN.trans hst2i
              have hml := byteMiss_lookup cfg st2.matchedTracks hndAN hANv
              have hcnt : (b.predictNextPosition km).noMatchTimes = b.noMatchTimes := rfl
              rw [if_neg hiS, hcnt] at hml
              unfold byteMissOutcome
              by_cases hcfg : b.noMatchTimes + 1 ≥ cfg.maxDisappeared
              · rw [if_pos hcfg, ← hfinal]
                unfold byteFinalStore
                rw [hml, if_pos hcfg]
              · rw [if_neg hcfg]
                refine ⟨(b.predictNextPosition km).incNoMatch, ?_, rfl⟩
                rw [← hfinal]
                unfold byteFinalStore
                rw [hml, if_neg hcfg]

/-- C2: the claim as stated is false for `SimpleTracker`.  Track 7 is
successfully updated by the popped detection (the returned detection blob
carries the folded-in track id 7), yet immediately after the call its
stored miss counter is 1, not 0: the end-of-frame cleanup increments every
stored track, including the just-updated one. -/
theorem C2_counterexample :
    simpleMatchObjects wSqrt idKalman ⟨30, 75⟩ [(7, wTrackT)] [wDetB]
      = .ok ([(7, wTrackMissed1)], [wDetB.setID 7]) ∧
    (wDetB.setID 7).id = 7 ∧ wTrackMissed1.noMatchTimes ≠ 0 := by
  refine ⟨?_, rfl, by norm_num [wTrackMissed1]⟩
  norm_num [simpleMatchObjects, simplePrep, simpleCandidates, bestMatch, sortByDistance,
    insertAscByDistance, simpleProcessQueue, simpleProcessStep, simpleRegister,
    simpleCleanup, setKey, lookupKey, SimpleBlob.distanceTo, euclideanDistance,
    SimpleBlob.deactivate, SimpleBlob.predictNextPosition, SimpleBlob.update,
    SimpleBlob.incNoMatch, SimpleBlob.setID, idKalman, wSqrt, wTrackT, wDetB,
    wTrackMissed1, mathMaxFloat64, minFloat64, List.foldl_cons, List.foldl_nil,
    List.foldr_cons, List.foldr_nil]

/-- C2 (amended): after a per-frame matching call, for every pre-call
stored track there is a set `S` of track ids updated during the call such
that: in `IoUTracker` and `ByteTracker` an updated track's miss counter is
exactly 0 and an untouched track's is its previous value plus one, while in
`SimpleTracker` an updated track leaves the call with miss counter 1 (the
end-of-frame increment also hits updated tracks); in each case the track is
evicted rather than kept when the resulting counter crosses the tracker's
budget (`> maxNoMatch`, respectively `≥ maxDisappeared`).  Detection ids
are assumed fresh (not store keys) and store keys duplicate-free. -/
theorem C2_missCount :
    (∀ (F : Type) (sq : ℚ → ℚ) (km : KalmanModel F) (cfg : SimpleTrackerCfg)
        (objects : Store (SimpleBlob F)) (newObjects : List (SimpleBlob F))
        (final : Store (SimpleBlob F)) (processed : List (SimpleBlob F)),
      (keys objects).Nodup →
      (∀ d ∈ newObjects, d.id ∉ keys objects) →
      simpleMatchObjects sq km cfg objects newObjects = .ok (final, processed) →
      ∃ S : List UUID, (∀ j ∈ S, j ∈ keys objects) ∧
        ∀ i b, lookupKey objects i = some b →
          (i ∈ S → missOutcome cfg.maxNoMatch 1 final i) ∧
          (i ∉ S → missOutcome cfg.maxNoMatch (b.noMatchTimes + 1) final i)) ∧
    (∀ (F : Type) (sq : ℚ → ℚ) (km : KalmanModel F) (cfg : IoUTrackerCfg)
        (objects : Store (SimpleBlob F)) (newObjects : List (SimpleBlob F))
        (final : Store (SimpleBlob F)) (processed : List (SimpleBlob F)),
      (keys objects).Nodup →
      (∀ d ∈ newObjects, d.id ∉ keys objects) →
      iouMatchObjects sq km cfg objects newObjects = .ok (final, processed) →
      ∃ S : List UUID, (∀ j ∈ S, j ∈ keys objects) ∧
        ∀ i b, lookupKey objects i = some b →
          (i ∈ S → missOutcome cfg.maxNoMatch 0 final i) ∧
          (i ∉ S → missOutcome cfg.maxNoMatch (b.noMatchTimes + 1) final i)) ∧
    (∀ (F : Type) (km : KalmanModel F) (cfg : ByteTrackerCfg)
        (solver : List (List ℚ) → List (ℕ × ℕ)) (objects0 : Store (SimpleBlob F))
        (detections : List (SimpleBlob F)) (confidences : List ℚ)
        (final : Store (SimpleBlob F)) (detsOut : List (SimpleBlob F)),
      (keys objects0).Nodup →
      (∀ d ∈ detections, d.id ∉ keys objects0) →
      byteMatchObjects km cfg solver objects0 detections confidences
        = .ok (final, detsOut) →
      ∃ S : List UUID, (∀ j ∈ S, j ∈ keys objects0) ∧
        ∀ i b, lookupKey objects0 i = some b →
          (i ∈ S → byteMissOutcome cfg.maxDisappeared 0 final i) ∧
          (i ∉ S → byteMissOutcome cfg.maxDisappeared (b.noMatchTimes + 1) final i)) :=
  ⟨fun F sq km cfg o n f p hnd hfr hm => simpleMissCount sq km cfg o n f p hnd hfr hm,
   fun F sq km cfg o n f p hnd hfr hm => iouMissCount sq km cfg o n f p hnd hfr hm,
   fun F km cfg solver o d c f dOut hnd hfr hm =>
     byteMissCount km cfg solver o d c f dOut hnd hfr hm⟩

/-- C2 witness: the Simple-tracker conjunct applied to the one-track,
one-detection run in which track 7 is updated. -/
theorem C2_missCount_witness :
    (keys [(7, wTrackT)]).Nodup ∧
    (∀ d ∈ [wDetB], d.id ∉ keys [(7, wTrackT)]) ∧
    simpleMatchObjects wSqrt idKalman ⟨30, 75⟩ [(7, wTrackT)] [wDetB]
      = .ok ([(7, wTrackMissed1)], [wDetB.setID 7]) ∧
    (∃ S : List UUID, (∀ j ∈ S, j ∈ keys [(7, wTrackT)]) ∧
      ∀ i b, lookupKey [(7, wTrackT)] i = some b →
        (i ∈ S → missOutcome (75 : ℤ) 1 [(7, wTrackMissed1)] i) ∧
        (i ∉ S → missOutcome (75 : ℤ) (b.noMatchTimes + 1) [(7, wTrackMissed1)] i)) := by
  have h1 : (keys [(7, wTrackT)]).Nodup := by simp [keys]
  have h2 : ∀ d ∈ [wDetB], d.id ∉ keys [(7, wTrackT)] := by
    intro d hd
    simp only [List.mem_singleton] at hd
    subst hd
    norm_num [keys, wDetB]
  have h3 : simpleMatchObjects wSqrt idKalman ⟨30, 75⟩ [(7, wTrackT)] [wDetB]
      = .ok ([(7, wTrackMissed1)], [wDetB.setID 7]) := by
    norm_num [simpleMatchObjects, simplePrep, simpleCandidates, bestMatch, sortByDistance,
      insertAscByDistance, simpleProcessQueue, simpleProcessStep, simpleRegister,
      simpleCleanup, setKey, lookupKey, SimpleBlob.distanceTo, euclideanDistance,
      SimpleBlob.deactivate, SimpleBlob.predictNextPosition, SimpleBlob.update,
      SimpleBlob.incNoMatch, SimpleBlob.setID, idKalman, wSqrt, wTrackT, wDetB,
      wTrackMissed1, mathMaxFloat64, minFloat64, List.foldl_cons, List.foldl_nil,
      List.foldr_cons, List.foldr_nil]
  exact ⟨h1, h2, h3, C2_missCount.1 Point wSqrt idKalman ⟨30, 75⟩ [(7, wTrackT)] [wDetB]
    [(7, wTrackMissed1)] [wDetB.setID 7] h1 h2 h3⟩

/-- C6: a length mismatch between `detections` and `confidences` makes
`ByteTracker.MatchObjects` return `MalformedInputError`.  The check is the
first statement of the function, before any prediction, update, creation,
miss increment or eviction, so the embedded (pure) call observes the store
exactly as passed in and the Go original returns before any mutation. -/
theorem C6_malformed_input (F : Type) (km : KalmanModel F) (cfg : ByteTrackerCfg)
    (solver : List (List ℚ) → List (ℕ × ℕ)) (objects : Store (SimpleBlob F))
    (detections : List (SimpleBlob F)) (confidences : List ℚ)
    (hlen : detections.length ≠ confidences.length) :
    byteMatchObjects km cfg solver objects detections confidences
      = .error .malformedInput := by
  unfold byteMatchObjects
  rw [byteRun_eq, if_pos hlen]
  rfl

/-- C6 witness: one detection against an empty confidence list. -/
theorem C6_malformed_input_witness :
    ([wDetB].length ≠ ([] : List ℚ).length) ∧
    byteMatchObjects idKalman ⟨5, 3/10, 1/2, 3/10, .hungarian⟩ (fun _ => [])
      [(7, wTrackT)] [wDetB] [] = .error .malformedInput :=
  ⟨by norm_num, C6_malformed_input Point idKalman ⟨5, 3/10, 1/2, 3/10, .hungarian⟩
    (fun _ => []) [(7, wTrackT)] [wDetB] [] (by norm_num)⟩

theorem simpleBlob_update_id {F : Type} (km : KalmanModel F) {b nb b' : SimpleBlob F}
    (h : b.update km nb = some b') : b'.id = b.id := by
  cases hu : km.update b.tracker nb.currentCenter.x nb.currentCenter.y with
  | none => simp [SimpleBlob.update, hu] at h
  | some t =>
    simp only [SimpleBlob.update, hu, Option.some.injEq] at h
    subst h
    rfl

theorem simpleStep_processed_some {F : Type} (km : KalmanModel F) (cfg : SimpleTrackerCfg)
    {st st1 : SimpleLoopState F} {c : DistanceBlob F} {j : UUID}
    (hstep : simpleProcessStep km cfg st c = .ok st1)
    (hev : simpleStepEvent cfg st c = some j) :
    st1.processed = st.processed ++ [c.underlying.setID j] := by
  unfold simpleProcessStep at hstep
  unfold simpleStepEvent at hev
  by_cases hres : c.id ∈ st.reserved
  · rw [if_pos hres] at hev
    exact Option.noConfusion hev
  · rw [if_neg hres] at hstep hev
    by_cases hgate : c.distance < c.underlying.diagonal * 0.5 ∨
        c.distance < cfg.minDistThreshold
    · rw [if_pos hgate] at hstep hev
      have hj : c.id = j := Option.some.inj hev
      subst hj
      cases hl : lookupKey st.objects c.id with
      | none =>
        simp only [hl] at hstep
        exact Except.noConfusion hstep
      | some b0 =>
        simp only [hl] at hstep
        cases hu : b0.update km c.underlying with
        | none =>
          simp only [hu] at hstep
          exact Except.noConfusion hstep
        | some b1 =>
          simp only [hu, Except.ok.injEq] at hstep
          subst hstep
          rfl
    · rw [if_neg hgate] at hev
      exact Option.noConfusion hev

theorem simpleStep_processed_none {F : Type} (km : KalmanModel F) (cfg : SimpleTrackerCfg)
    {st st1 : SimpleLoopState F} {c : DistanceBlob F}
    (hstep : simpleProcessStep km cfg st c = .ok st1)
    (hev : simpleStepEvent cfg st c = none) :
    st1.processed = st.processed ++ [c.underlying] := by
  unfold simpleProcessStep at hstep
  unfold simpleStepEvent at hev
  by_cases hres : c.id ∈ st.reserved
  · rw [if_pos hres] at hstep
    simp only [Except.ok.injEq] at hstep
    subst hstep
    rfl
  · rw [if_neg hres] at hstep hev
    by_cases hgate : c.distance < c.underlying.diagonal * 0.5 ∨
        c.distance < cfg.minDistThreshold
    · rw [if_pos hgate] at hev
      exact Option.noConfusion hev
    · rw [if_neg hgate] at hstep
      simp only [Except.ok.injEq] at hstep
      subst hstep
      rfl

theorem iouStep_processed_some {F : Type} (km : KalmanModel F) (cfg : IoUTrackerCfg)
    {st st1 : IoULoopState F} {c : IoUDistanceBlob F} {j : UUID}
    (hstep : iouProcessStep km cfg st c = .ok st1)
    (hev : iouStepEvent cfg st c = some j) :
    st1.processed = st.processed ++ [c.blob.setID j] := by
  unfold iouProcessStep at hstep
  unfold iouStepEvent at hev
  by_cases hres : c.minID ∈ st.reserved
  · rw [if_pos hres] at hev
    exact Option.noConfusion hev
  · rw [if_neg hres] at hstep hev
    by_cases hsc : c.score > cfg.iouThreshold
    · rw [if_pos hsc] at hstep hev
      cases hl : lookupKey st.objects c.minID with
      | none =>
        simp only [hl] at hev
        exact Option.noConfusion hev
      | some b0 =>
        simp only [hl] at hstep hev
        have hj : c.minID = j := Option.some.inj hev
        subst hj
        cases hu : (b0.predictNextPosition km).update km c.blob with
        | none =>
          simp only [hu] at hstep
          exact Except.noConfusion hstep
        | some b1 =>
          simp only [hu, Except.ok.injEq] at hstep
          subst hstep
          rfl
    · rw [if_neg hsc] at hev
      exact Option.noConfusion hev

theorem iouStep_processed_none {F : Type} (km : KalmanModel F) (cfg : IoUTrackerCfg)
    {st st1 : IoULoopState F} {c : IoUDistanceBlob F}
    (hstep : iouProcessStep km cfg st c = .ok st1)
    (hev : iouStepEvent cfg st c = none) :
    st1.processed = st.processed ++ [c.blob] := by
  unfold iouProcessStep at hstep
  unfold iouStepEvent at hev
  by_cases hres : c.minID ∈ st.reserved
  · rw [if_pos hres] at hstep
    simp only [Except.ok.injEq] at hstep
    subst hstep
    rfl
  · rw [if_neg hres] at hstep hev
    by_cases hsc : c.score > cfg.iouThreshold
    · rw [if_pos hsc] at hstep hev
      cases hl : lookupKey st.objects c.minID with
      | none =>
        simp only [hl, Except.ok.injEq] at hstep
        subst hstep
        rfl
      | some b0 =>
        simp only [hl] at hev
        exact Option.noConfusion hev
    · rw [if_neg hsc] at hstep
      simp only [Except.ok.injEq] at hstep
      subst hstep
      rfl

theorem byteDetections_ids {F : Type} (detections : List (SimpleBlob F))
    (highDetectionIndices : List ℕ) (st2 : ByteMatchState F) :
    (byteDetections detections highDetectionIndices st2).map SimpleBlob.id
      = detections.map SimpleBlob.id := by
  unfold byteDetections
  rw [List.map_map]
  have hval : ∀ p : ℕ × SimpleBlob F,
      (SimpleBlob.id ∘ fun p : ℕ × SimpleBlob F =>
        if p.1 ∈ highDetectionIndices ∧ p.1 ∉ st2.matchedDetections
        then p.2.activate else p.2) p = (SimpleBlob.id ∘ Prod.snd) p := by
    intro p
    simp only [Function.comp]
    split <;> rfl
  rw [List.map_congr_left (fun p _ => hval p), ← List.map_map, List.enum_map_snd]

/-- C7: the claim as stated is false for `ByteTracker`.  Detection 42 is
folded into existing track 7 in stage 1 (the store keeps key 7 whose miss
counter ends at 0, i.e. it was matched), yet the caller-visible detection
still carries its own id 42: `processMatches` never overwrites the folded
detection's identifier. -/
theorem C7_counterexample :
    (byteMatchObjects idKalman ⟨5, 1/10, 1/2, 3/10, .greedy⟩ (fun _ => [])
        [(7, wTrackT)] [wDetC] [9/10]).map
      (fun r => (r.1.map (fun p => (p.1, p.2.noMatchTimes)), r.2.map SimpleBlob.id))
      = .ok ([(7, 0)], [42]) ∧ (42 : UUID) ≠ 7 := by
  refine ⟨?_, by norm_num⟩
  norm_num [byteMatchObjects, byteRun, createIoUMatrix, performMatching,
    performGreedyMatching, greedyScanRow, processMatches, processOneMatch,
    setKey, lookupKey, keys, IoU, maxFloat64, minFloat64, SimpleBlob.update,
    SimpleBlob.getPredictedBBox, SimpleBlob.predictNextPosition, SimpleBlob.activate,
    SimpleBlob.resetNoMatch, SimpleBlob.incNoMatch, idKalman, wTrackT, wDetC,
    List.range_succ, List.range_zero, List.foldl_cons, List.foldl_nil,
    List.enum, List.enumFrom, Except.map, List.getD, List.get?]

/-- C7 (amended): in `SimpleTracker` and `IoUTracker` a popped candidate
that is folded into an existing track is emitted with its identifier
overwritten by the matched track id, a candidate that is not folded is
emitted with its own id untouched, and a successful blob update never
changes the stored track's id (identifier stability).  `ByteTracker` never
overwrites a folded detection's identifier: the caller-visible detections
keep exactly their own ids. -/
theorem C7_detection_id :
    (∀ (F : Type) (km : KalmanModel F) (cfg : SimpleTrackerCfg)
        (st st1 : SimpleLoopState F) (c : DistanceBlob F) (j : UUID),
      simpleProcessStep km cfg st c = .ok st1 →
      simpleStepEvent cfg st c = some j →
      st1.processed = st.processed ++ [c.underlying.setID j]
        ∧ (c.underlying.setID j).id = j) ∧
    (∀ (F : Type) (km : KalmanModel F) (cfg : SimpleTrackerCfg)
        (st st1 : SimpleLoopState F) (c : DistanceBlob F),
      simpleProcessStep km cfg st c = .ok st1 →
      simpleStepEvent cfg st c = none →
      st1.processed = st.processed ++ [c.underlying]) ∧
    (∀ (F : Type) (km : KalmanModel F) (cfg : IoUTrackerCfg)
        (st st1 : IoULoopState F) (c : IoUDistanceBlob F) (j : UUID),
      iouProcessStep km cfg st c = .ok st1 →
      iouStepEvent cfg st c = some j →
      st1.processed = st.processed ++ [c.blob.setID j] ∧ (c.blob.setID j).id = j) ∧
    (∀ (F : Type) (km : KalmanModel F) (cfg : IoUTrackerCfg)
        (st st1 : IoULoopState F) (c : IoUDistanceBlob F),
      iouProcessStep km cfg st c = .ok st1 →
      iouStepEvent cfg st c = none →
      st1.processed = st.processed ++ [c.blob]) ∧
    (∀ (F : Type) (km : KalmanModel F) (b nb b' : SimpleBlob F),
      b.update km nb = some b' → b'.id = b.id) ∧
    (∀ (F : Type) (detections : List (SimpleBlob F)) (hdi : List ℕ)
        (st2 : ByteMatchState F),
      (byteDetections detections hdi st2).map SimpleBlob.id
        = detections.map SimpleBlob.id) :=
  ⟨fun F km cfg st st1 c j hstep hev =>
    ⟨simpleStep_processed_some km cfg hstep hev, rfl⟩,
   fun F km cfg st st1 c hstep hev => simpleStep_processed_none km cfg hstep hev,
   fun F km cfg st st1 c j hstep hev =>
    ⟨iouStep_processed_some km cfg hstep hev, rfl⟩,
   fun F km cfg st st1 c hstep hev => iouStep_processed_none km cfg hstep hev,
   fun F km b nb b' h => simpleBlob_update_id km h,
   fun F detections hdi st2 => byteDetections_ids detections hdi st2⟩

/-- C7 witness: the Simple-tracker fold conjunct applied to the concrete
step that folds `wDetB` (via candidate `wCandB`) into track 7. -/
theorem C7_detection_id_witness :
    simpleProcessStep idKalman ⟨30, 75⟩ ⟨[(7, wTrackPrep)], [], [], []⟩ wCandB
      = .ok wAfterB ∧
    simpleStepEvent ⟨30, 75⟩ ⟨[(7, wTrackPrep)], [], [], []⟩ wCandB = some 7 ∧
    (wAfterB.processed
      = (⟨[(7, wTrackPrep)], [], [], []⟩ : SimpleLoopState Point).processed
        ++ [wCandB.underlying.setID 7]
      ∧ (wCandB.underlying.setID 7).id = 7) := by
  have h1 : simpleProcessStep idKalman ⟨30, 75⟩ ⟨[(7, wTrackPrep)], [], [], []⟩ wCandB
      = .ok wAfterB := by
    norm_num [simpleProcessStep, lookupKey, setKey, SimpleBlob.update, SimpleBlob.setID,
      idKalman, wCandB, wDetB, wTrackPrep, wTrackUpd, wAfterB]
  have h2 : simpleStepEvent ⟨30, 75⟩ ⟨[(7, wTrackPrep)], [], [], []⟩ wCandB = some 7 := by
    norm_num [simpleStepEvent, wCandB, wDetB]
  exact ⟨h1, h2, C7_detection_id.1 Point idKalman ⟨30, 75⟩
    ⟨[(7, wTrackPrep)], [], [], []⟩ wAfterB wCandB 7 h1 h2⟩

theorem byteNew_keys_sub {F : Type} {detections : List (SimpleBlob F)}
    (st2 : ByteMatchState F) :
    ∀ (hdi : List ℕ) (os : Store (SimpleBlob F)) (j : UUID),
      j ∈ keys (hdi.foldl (fun os detIdx =>
        if detIdx ∈ st2.matchedDetections then os
        else match detections.get? detIdx with
          | some dd => setKey os dd.id dd.activate
          | none => os) os) →
      j ∈ keys os ∨ ∃ idx ∈ hdi, ∃ d, detections.get? idx = some d ∧ j = d.id := by
  intro hdi
  induction hdi with
  | nil => intro os j hj; exact Or.inl hj
  | cons idx0 idxs ih =>
    intro os j hj
    simp only [List.foldl_cons] at hj
    rcases ih _ j hj with hmem | ⟨idx, hidx, d, hget, hjd⟩
    · by_cases hmd : idx0 ∈ st2.matchedDetections
      · rw [if_pos hmd] at hmem
        exact Or.inl hmem
      · rw [if_neg hmd] at hmem
        cases hg : detections.get? idx0 with
        | none =>
          simp only [hg] at hmem
          exact Or.inl hmem
        | some d0 =>
          simp only [hg] at hmem
          rcases (mem_keys_setKey os d0.id j d0.activate).mp hmem with hmem | hjd
          · exact Or.inl hmem
          · exact Or.inr ⟨idx0, List.mem_cons_self _ _, d0, hg, hjd⟩
    · exact Or.inr ⟨idx, List.mem_cons_of_mem _ hidx, d, hget, hjd⟩

theorem byteNew_lookup_frozen {F : Type} {detections : List (SimpleBlob F)}
    (st2 : ByteMatchState F) {i : UUID} :
    ∀ (idxs : List ℕ),
      (∀ idx' ∈ idxs, ∀ d', detections.get? idx' = some d' → d'.id ≠ i) →
      ∀ os : Store (SimpleBlob F),
        lookupKey (idxs.foldl (fun os detIdx =>
          if detIdx ∈ st2.matchedDetections then os
          else match detections.get? detIdx with
            | some dd => setKey os dd.id dd.activate
            | none => os) os) i = lookupKey os i := by
  intro idxs
  induction idxs with
  | nil => intro _ os; rfl
  | cons idx0 idxs ih =>
    intro hfr os
    simp only [List.foldl_cons]
    rw [ih (fun idx' h' => hfr idx' (List.mem_cons_of_mem _ h'))]
    by_cases hmd : idx0 ∈ st2.matchedDetections
    · rw [if_pos hmd]
    · rw [if_neg hmd]
      cases hg : detections.get? idx0 with
      | none => simp only [hg]
      | some d0 =>
        simp only [hg]
        exact lookupKey_setKey_ne os _ (Ne.symm (hfr idx0 (List.mem_cons_self _ _) d0 hg))

theorem byteNew_lookup_high {F : Type} {detections : List (SimpleBlob F)}
    (st2 : ByteMatchState F) {idx : ℕ} {d : SimpleBlob F}
    (hnm : idx ∉ st2.matchedDetections) (hget : detections.get? idx = some d) :
    ∀ (hdi : List ℕ), hdi.Nodup → idx ∈ hdi →
      (∀ idx' ∈ hdi, ∀ d', detections.get? idx' = some d' → d'.id = d.id → idx' = idx) →
      ∀ os : Store (SimpleBlob F),
        lookupKey (hdi.foldl (fun os detIdx =>
          if detIdx ∈ st2.matchedDetections then os
          else match detections.get? detIdx with
            | some dd => setKey os dd.id dd.activate
            | none => os) os) d.id = some d.activate := by
  intro hdi
  induction hdi with
  | nil =>
    intro _ hmem
    exact absurd hmem (List.not_mem_nil _)
  | cons idx0 idxs ih =>
    intro hnd hmem hinj os
    rw [List.nodup_cons] at hnd
    simp only [List.foldl_cons]
    rcases List.mem_cons.mp hmem with heq | hmem'
    · subst heq
      simp only [hget]
      rw [if_neg hnm]
      have hfrozen : ∀ idx' ∈ idxs, ∀ d', detections.get? idx' = some d' → d'.id ≠ d.id := by
        intro idx' hidx' d' hget' heq
        have hii := hinj idx' (List.mem_cons_of_mem _ hidx') d' hget' heq
        subst hii
        exact hnd.1 hidx'
      rw [byteNew_lookup_frozen st2 idxs hfrozen]
      exact lookupKey_setKey_self _ _ _
    · exact ih hnd.2 hmem'
        (fun idx' h' d' hg' he' => hinj idx' (List.mem_cons_of_mem _ h') d' hg' he') _

/-- C5: the second half of the claim as stated is false.  With
`maxDisappeared = 1`, a high-confidence detection (0.9 ≥ highThresh 0.5)
that matches nothing is registered as a new activated track in step 3, but
the same call's miss pass increments it to 1 and the eviction pass removes
it at `1 ≥ maxDisappeared`, so the store comes back empty. -/
theorem C5_counterexample :
    byteMatchObjects idKalman ⟨1, 1/10, 1/2, 3/10, .greedy⟩ (fun _ => [])
      [] [wDetC] [9/10] = .ok ([], [wDetC.activate]) ∧ (9/10 : ℚ) ≥ 1/2 := by
  refine ⟨?_, by norm_num⟩
  norm_num [byteMatchObjects, byteRun, createIoUMatrix, performMatching,
    performGreedyMatching, greedyScanRow, processMatches, processOneMatch,
    setKey, lookupKey, keys, IoU, maxFloat64, minFloat64, SimpleBlob.update,
    SimpleBlob.getPredictedBBox, SimpleBlob.predictNextPosition, SimpleBlob.activate,
    SimpleBlob.resetNoMatch, SimpleBlob.incNoMatch, idKalman, wDetC,
    List.range_succ, List.range_zero, List.foldl_cons, List.foldl_nil,
    List.enum, List.enumFrom, Except.map, List.getD, List.get?]

/-- C5 (amended): (1) only high-tier detections mint store keys — every key
of the returned store is either a pre-call key or the id of a detection
whose index is high-confidence, so an unmatched low-tier detection never
creates a track; (2) a high-tier detection unmatched after both stages is
added to the store as an activated track, but it is created with its miss
counter already incremented to 1 by the same call's miss pass, so it
survives the call only when `maxDisappeared > 1` (fresh, duplicate-free
detection ids and duplicate-free store keys assumed). -/
theorem C5_tier_separation :
    (∀ (F : Type) (km : KalmanModel F) (cfg : ByteTrackerCfg)
        (solver : List (List ℚ) → List (ℕ × ℕ)) (objects0 : Store (SimpleBlob F))
        (detections : List (SimpleBlob F)) (confidences : List ℚ)
        (final : Store (SimpleBlob F)) (detsOut : List (SimpleBlob F)),
      byteMatchObjects km cfg solver objects0 detections confidences
        = .ok (final, detsOut) →
      ∀ j ∈ keys final, j ∈ keys objects0 ∨
        ∃ idx ∈ byteHighIndices cfg confidences,
          ∃ d, detections.get? idx = some d ∧ j = d.id) ∧
    (∀ (F : Type) (km : KalmanModel F) (cfg : ByteTrackerCfg)
        (solver : List (List ℚ) → List (ℕ × ℕ)) (objects0 : Store (SimpleBlob F))
        (detections : List (SimpleBlob F)) (confidences : List ℚ)
        (info : ByteRunInfo F),
      byteRun km cfg solver objects0 detections confidences = .ok info →
      (keys objects0).Nodup →
      (∀ d ∈ detections, d.id ∉ keys objects0) →
      (detections.map SimpleBlob.id).Nodup →
      ∀ idx ∈ info.highIndices, idx ∉ info.st2.matchedDetections →
      ∀ d, detections.get? idx = some d → d.noMatchTimes = 0 →
      (1 : ℤ) < cfg.maxDisappeared →
      lookupKey info.finalObjects d.id = some d.activate.incNoMatch
        ∧ (d.activate.incNoMatch).active = true) := by
  constructor
  · intro F km cfg solver objects0 detections confidences final detsOut hm j hj
    unfold byteMatchObjects at hm
    cases hr : byteRun km cfg solver objects0 detections confidences with
    | error e =>
      simp only [hr, Except.map] at hm
      exact Except.noConfusion hm
    | ok info =>
      simp only [hr, Except.map, Except.ok.injEq, Prod.mk.injEq] at hm
      obtain ⟨hfo, hdo⟩ := hm
      rw [byteRun_eq] at hr
      by_cases hlen : detections.length ≠ confidences.length
      · rw [if_pos hlen] at hr
        exact Except.noConfusion hr
      · rw [if_neg hlen] at hr
        cases hst1 : byteStage1 km cfg solver detections confidences
            (objects0.map (fun p => (p.1, p.2.predictNextPosition km))) with
        | error e =>
          simp only [hst1] at hr
          exact Except.noConfusion hr
        | ok st1 =>
          simp only [hst1] at hr
          cases hst2 : byteStage2 km cfg solver detections confidences
              (objects0.map (fun p => (p.1, p.2.predictNextPosition km))) st1 with
          | error e =>
            simp only [hst2] at hr
            exact Except.noConfusion hr
          | ok st2 =>
            simp only [hst2] at hr
            have hinfo := Except.ok.inj hr
            have hfinal : byteFinalStore cfg detections (byteHighIndices cfg confidences)
                st2 = final := by
              rw [← hinfo] at hfo
              exact hfo
            have hrel := byteStageRel_trans
              (byteStage1_rel km cfg solver detections confidences hst1)
              (byteStage2_rel km cfg solver detections confidences _ hst2)
            have hkeysObj : keys (objects0.map
                (fun p : UUID × SimpleBlob F => (p.1, p.2.predictNextPosition km)))
                = keys objects0 :=
              keys_map_fst
                (fun p : UUID × SimpleBlob F => (p.1, p.2.predictNextPosition km))
                (fun p => rfl) objects0
            have hkeysSt2 : keys st2.objects = keys objects0 := by
              rw [hrel.2.2.2]
              exact hkeysObj
            rw [← hfinal] at hj
            unfold byteFinalStore at hj
            have hj2 := (keys_filter_sublist _ _).subset hj
            rw [keys_map_fst (fun p : UUID × SimpleBlob F =>
              if p.1 ∈ st2.matchedTracks then p else (p.1, p.2.incNoMatch))
              (fun p => by dsimp only; split <;> rfl)] at hj2
            unfold byteAfterNew at hj2
            rcases byteNew_keys_sub st2 (byteHighIndices cfg confidences)
                st2.objects j hj2 with hmem | hnew
            · rw [hkeysSt2] at hmem
              exact Or.inl hmem
            · exact Or.inr hnew
  · intro F km cfg solver objects0 detections confidences info hr hnd hfresh hids
      idx hidxHigh hidxNm d hget hd0 hmax
    rw [byteRun_eq] at hr
    by_cases hlen : detections.length ≠ confidences.length
    · rw [if_pos hlen] at hr
      exact Except.noConfusion hr
    · rw [if_neg hlen] at hr
      cases hst1 : byteStage1 km cfg solver detections confidences
          (objects0.map (fun p => (p.1, p.2.predictNextPosition km))) with
      | error e =>
        simp only [hst1] at hr
        exact Except.noConfusion hr
      | ok st1 =>
        simp only [hst1] at hr
        cases hst2 : byteStage2 km cfg solver detections confidences
            (objects0.map (fun p => (p.1, p.2.predictNextPosition km))) st1 with
        | error e =>
          simp only [hst2] at hr
          exact Except.noConfusion hr
        | ok st2 =>
          simp only [hst2] at hr
          have hinfo := Except.ok.inj hr
          subst hinfo
          refine ⟨?_, rfl⟩
          have hrel := byteStageRel_trans
            (byteStage1_rel km cfg solver detections confidences hst1)
            (byteStage2_rel km cfg solver detections confidences _ hst2)
          have hinv := hrel.2.1 (fun i hi => absurd hi (List.not_mem_nil i))
          have hkeysObj : keys (objects0.map
              (fun p : UUID × SimpleBlob F => (p.1, p.2.predictNextPosition km)))
              = keys objects0 :=
            keys_map_fst
              (fun p : UUID × SimpleBlob F => (p.1, p.2.predictNextPosition km))
              (fun p => rfl) objects0
          have hkeysSt2 : keys st2.objects = keys objects0 := by
            rw [hrel.2.2.2]
            exact hkeysObj
          have hndSt2 : (keys st2.objects).Nodup := by
            rw [hkeysSt2]
            exact hnd
          have hdmem : d ∈ detections := List.get?_mem hget
          have hidNotMt : d.id ∉ st2.matchedTracks := by
            intro hmem
            obtain ⟨v, hv, _⟩ := hinv d.id hmem
            apply hfresh d hdmem
            rw [← hkeysSt2, ← lookupKey_isSome_iff_mem, hv]
            rfl
          have hndHDI : (byteHighIndices cfg confidences).Nodup := by
            unfold byteHighIndices
            exact (List.nodup_range _).filter _
          have hinj : ∀ idx' ∈ byteHighIndices cfg confidences, ∀ d',
              detections.get? idx' = some d' → d'.id = d.id → idx' = idx := by
            intro idx' hidx' d' hget' heq
            have h1 : (detections.map SimpleBlob.id).get? idx' = some d.id := by
              rw [List.get?_map, hget']
              rw [Option.map_some']
              rw [heq]
            have h2 : (detections.map SimpleBlob.id).get? idx = some d.id := by
              rw [List.get?_map, hget]
              rfl
            have hlt' : idx' < (detections.map SimpleBlob.id).length := by
              rw [List.length_map]
              exact (List.get?_eq_some.mp hget').1
            exact List.get?_inj hlt' hids (h1.trans h2.symm)
          have hAN : lookupKey (byteAfterNew detections
              (byteHighIndices cfg confidences) st2) d.id = some d.activate := by
            unfold byteAfterNew
            exact byteNew_lookup_high st2 hidxNm hget
              (byteHighIndices cfg confidences) hndHDI hidxHigh hinj st2.objects
          have hndAN := byteAfterNew_keys_nodup detections
            (byteHighIndices cfg confidences) st2 hndSt2
          have hml := byteMiss_lookup cfg st2.matchedTracks hndAN hAN
          rw [if_neg hidNotMt] at hml
          have hcnt : (d.activate).noMatchTimes = d.noMatchTimes := rfl
          rw [hcnt, hd0] at hml
          show lookupKey (byteFinalStore cfg detections
            (byteHighIndices cfg confidences) st2) d.id = some d.activate.incNoMatch
          unfold byteFinalStore
          rw [hml, if_neg (by omega)]

/-- C5 witness: one high-confidence detection against an empty store with
`maxDisappeared = 5`; the second conjunct applied to the concrete run. -/
theorem C5_tier_separation_witness :
    byteRun idKalman ⟨5, 1/10, 1/2, 3/10, .greedy⟩ (fun _ => []) [] [wDetC] [9/10]
      = .ok ⟨[0], ⟨[], [], []⟩, [(42, wDetC.activate.incNoMatch)], [wDetC.activate]⟩ ∧
    lookupKey ([(42, wDetC.activate.incNoMatch)] : Store (SimpleBlob Point)) wDetC.id
      = some wDetC.activate.incNoMatch ∧ (wDetC.activate.incNoMatch).active = true := by
  have hr : byteRun idKalman ⟨5, 1/10, 1/2, 3/10, .greedy⟩ (fun _ => []) [] [wDetC] [9/10]
      = .ok ⟨[0], ⟨[], [], []⟩, [(42, wDetC.activate.incNoMatch)], [wDetC.activate]⟩ := by
    norm_num [byteRun, createIoUMatrix, performMatching,
      performGreedyMatching, greedyScanRow, processMatches, processOneMatch,
      setKey, lookupKey, keys, IoU, maxFloat64, minFloat64, SimpleBlob.update,
      SimpleBlob.getPredictedBBox, SimpleBlob.predictNextPosition, SimpleBlob.activate,
      SimpleBlob.resetNoMatch, SimpleBlob.incNoMatch, idKalman, wDetC,
      List.range_succ, List.range_zero, List.foldl_cons, List.foldl_nil,
      List.enum, List.enumFrom, List.getD, List.get?]
  have hmain := C5_tier_separation.2 Point idKalman ⟨5, 1/10, 1/2, 3/10, .greedy⟩
    (fun _ => []) [] [wDetC] [9/10]
    ⟨[0], ⟨[], [], []⟩, [(42, wDetC.activate.incNoMatch)], [wDetC.activate]⟩ hr
    (by simp [keys]) (fun d _ => by simp [keys]) (by simp [wDetC])
    0 (by simp) (by simp) wDetC rfl rfl (by norm_num)
  exact ⟨hr, hmain.1, hmain.2⟩

end Mot
